import Mathlib

/-!
Verification of the virtual-memory-management simulator (`mmu.cpp`).

The development shallowly embeds the simulator's data model and operations:
frames, bit-packed page-table entries, VMAs, processes, the six replacement
pagers, the load/store fault handler, the process-exit handler and the
instruction driver.  C++ machine integers are modelled by `Nat`/`Int`; the
7-bit `frame_num` bitfield write is modelled with an explicit `% 128`; the
deterministic RNG's `int` remainder uses `Int.tmod` (C++ truncating `%`).
Array/vector cells are modelled as total functions `Nat → _` updated with
`upd`; out-of-range C++ accesses (undefined behaviour in the source) are
total in the model via `Int.toNat` / default values.
-/

namespace Mmu

/-! ## Constants (`#define`s of mmu.cpp) -/

def MAX_FRAMES : Nat := 128
def MAX_VPAGES : Nat := 64
def NRU_RESET_COUNT : Nat := 48
def WORKING_SET_TAU : Nat := 49

def CTX_SWITCH_TIME : Nat := 130
def LD_ST_TIME : Nat := 1
def PROC_EXIT_TIME : Nat := 1230
def MAPS_TIME : Nat := 350
def UNMAPS_TIME : Nat := 410
def INS_TIME : Nat := 3200
def OUTS_TIME : Nat := 2750
def FINS_TIME : Nat := 2350
def FOUTS_TIME : Nat := 2800
def ZEROS_TIME : Nat := 150
def SEGV_TIME : Nat := 440
def SEGPROT_TIME : Nat := 410

/-! ## Point update of a function-modelled array -/

def upd {α : Type} (f : Nat → α) (i : Nat) (a : α) : Nat → α :=
  fun j => if j = i then a else f j

/-! ## Data model: `frame_t`, `pte_t`, `vma_t`, `ins_t`, `Process` -/

structure Frame where
  is_assigned : Bool
  pid : Int
  vpage : Int
  frame_id : Int
  is_victim : Bool
  age : Nat
deriving DecidableEq

/-- Default-constructed `frame_t`. -/
def default_frame : Frame :=
  { is_assigned := false, pid := -1, vpage := -1, frame_id := -1,
    is_victim := false, age := 0 }

structure Pte where
  is_present : Bool
  is_referenced : Bool
  is_modified : Bool
  is_write_protected : Bool
  is_paged_out : Bool
  is_assigned_to_vma : Bool
  is_file_mapped : Bool
  frame_num : Nat
deriving DecidableEq

/-- Zero-initialized `pte_t`. -/
def default_pte : Pte :=
  { is_present := false, is_referenced := false, is_modified := false,
    is_write_protected := false, is_paged_out := false,
    is_assigned_to_vma := false, is_file_mapped := false, frame_num := 0 }

structure Vma where
  start_page : Nat
  end_page : Nat
  is_write_protected : Bool
  is_file_mapped : Bool
deriving DecidableEq

structure Ins where
  op : Char
  addr : Nat
deriving DecidableEq

structure Process where
  pid : Nat
  vma_list : List Vma
  page_table : Nat → Pte
  unmaps : Nat
  maps : Nat
  ins : Nat
  outs : Nat
  fins : Nat
  fouts : Nat
  zeros : Nat
  segv : Nat
  segprot : Nat

/-- A freshly constructed `Process` with pid `p` and the given VMA list. -/
def mk_process (p : Nat) (vmas : List Vma) : Process :=
  { pid := p, vma_list := vmas, page_table := fun _ => default_pte,
    unmaps := 0, maps := 0, ins := 0, outs := 0, fins := 0, fouts := 0,
    zeros := 0, segv := 0, segprot := 0 }

/-! ## Output events (the fixed vocabulary of per-reference lines) -/

inductive Event where
  | unmapEv (pid vpage : Int)
  | mapEv (f : Nat)
  | inEv
  | outEv
  | finEv
  | foutEv
  | zeroEv
  | segvEv
  | segprotEv
  | exitEv (pid : Nat)
deriving DecidableEq

/-! ## Pager state (tagged sum replacing the C++ class hierarchy) -/

inductive PagerState where
  | fifo (hand : Nat)
  | rnd
  | clock (hand : Nat)
  | nru (hand : Nat) (lastReset : Nat)
  | aging (hand : Nat)
  | ws (hand : Nat)
deriving DecidableEq

/-! ## Simulation state (the global mutable variables of mmu.cpp).
`everAlloc` is a ghost field recording which frame indices were ever handed
out by `get_frame`; it instruments the model and influences nothing. -/

structure SimState where
  ft : Nat → Frame
  free : List Nat
  procs : Nat → Process
  nprocs : Nat
  nframes : Nat
  curr : Nat
  insCounter : Nat
  ctxSwitches : Nat
  procExits : Nat
  cost : Nat
  pager : PagerState
  randvals : List Int
  ofs : Nat
  everAlloc : Nat → Bool

/-! ## Counter bumps -/

def bump_unmaps (p : Process) : Process := { p with unmaps := p.unmaps + 1 }
def bump_maps (p : Process) : Process := { p with maps := p.maps + 1 }
def bump_ins (p : Process) : Process := { p with ins := p.ins + 1 }
def bump_outs (p : Process) : Process := { p with outs := p.outs + 1 }
def bump_fins (p : Process) : Process := { p with fins := p.fins + 1 }
def bump_fouts (p : Process) : Process := { p with fouts := p.fouts + 1 }
def bump_zeros (p : Process) : Process := { p with zeros := p.zeros + 1 }
def bump_segv (p : Process) : Process := { p with segv := p.segv + 1 }
def bump_segprot (p : Process) : Process := { p with segprot := p.segprot + 1 }

/-! ## Page-table access through a frame (`reverse_map`) -/

def set_pte (procs : Nat → Process) (p v : Nat) (pte : Pte) : Nat → Process :=
  upd procs p { procs p with page_table := upd (procs p).page_table v pte }

/-- `reverse_map(id)`: the PTE owned by frame `id` via its `pid`/`vpage`. -/
def reverse_map (ft : Nat → Frame) (procs : Nat → Process) (id : Nat) : Pte :=
  (procs ((ft id).pid).toNat).page_table ((ft id).vpage).toNat

/-- Write back through the `reverse_map` pointer of frame `idx`. -/
def write_owner_pte (ft : Nat → Frame) (procs : Nat → Process) (idx : Nat)
    (pte : Pte) : Nat → Process :=
  set_pte procs ((ft idx).pid).toNat ((ft idx).vpage).toNat pte

/-! ## Walk order of the hand-based pagers: indices `(hand+i) % n`, `i < n` -/

def walk_order (hand n : Nat) : List Nat :=
  (List.range n).map (fun i => (hand + i) % n)

/-! ## FIFO (`FCFSPager`) -/

/-- Victim and advanced hand of `FCFSPager::select_victim_frame`. -/
def fifo_select (hand n : Nat) : Nat × Nat :=
  (hand, (hand + 1) % n)

/-! ## Random (`RandomPager`, via `get_random`) -/

/-- `get_random()` followed by the `FRAME_TABLE` index: returns the chosen
index and the advanced `OFS` cursor.  C++ `int` remainder truncates toward
zero, hence `Int.tmod`. -/
def random_select (randvals : List Int) (ofs n : Nat) : Nat × Nat :=
  let offset := ofs % randvals.length
  let random := ((randvals.getD offset 0).tmod (n : Int)).toNat
  (random, ofs + 1)

/-! ## Clock (`ClockPager`) -/

/-- The `while (clock_pte->is_referenced)` loop: clears R bits and advances.
Each iteration clears the R bit of the PTE it leaves behind, so the C++ loop
performs at most `n` clearing steps before it revisits a cleared PTE; fuel
`n + 1` therefore always suffices. -/
def clock_loop (ft : Nat → Frame) (n : Nat) :
    Nat → Nat → (Nat → Process) → Nat × (Nat → Process)
  | 0, idx, procs => (idx, procs)
  | fuel + 1, idx, procs =>
    let pte := reverse_map ft procs idx
    if pte.is_referenced then
      clock_loop ft n fuel ((idx + 1) % n)
        (write_owner_pte ft procs idx { pte with is_referenced := false })
    else (idx, procs)

structure ClockResult where
  victim : Nat
  hand : Nat
  procs : Nat → Process

/-- `ClockPager::select_victim_frame`. -/
def clock_select (hand n : Nat) (ft : Nat → Frame) (procs : Nat → Process) :
    ClockResult :=
  let r := clock_loop ft n (n + 1) hand procs
  { victim := r.1, hand := (r.1 + 1) % n, procs := r.2 }

/-! ## NRU (`NRUPager`) -/

/-- `NRUPager::get_class_index`. -/
def get_class_index (pte : Pte) : Nat :=
  2 * (if pte.is_referenced then 1 else 0) + (if pte.is_modified then 1 else 0)

/-- The scan of `NRUPager::select_victim_frame` over the walk order, carrying
`class_frame_map` (first frame index seen per class, `none` for `-1`), the
page tables (R bits are cleared when `reset`) and the early-exit victim. -/
def nru_loop (ft : Nat → Frame) (reset : Bool) :
    List Nat → (Nat → Option Nat) → (Nat → Process) →
    (Nat → Option Nat) × (Nat → Process) × Option Nat
  | [], cmap, procs => (cmap, procs, none)
  | idx :: rest, cmap, procs =>
    let pte := reverse_map ft procs idx
    let cls := get_class_index pte
    let cmap := match cmap cls with
      | none => upd cmap cls (some idx)
      | some _ => cmap
    if cls = 0 && !reset then
      (cmap, procs, some idx)
    else
      let procs :=
        if reset then write_owner_pte ft procs idx { pte with is_referenced := false }
        else procs
      nru_loop ft reset rest cmap procs

/-- The fall-through scan over `class_frame_map` for the lowest class. -/
def nru_first_class (cmap : Nat → Option Nat) : Option Nat :=
  match cmap 0 with
  | some v => some v
  | none => match cmap 1 with
    | some v => some v
    | none => match cmap 2 with
      | some v => some v
      | none => cmap 3

structure NruResult where
  victim : Nat
  hand : Nat
  lastReset : Nat
  procs : Nat → Process

/-- `NRUPager::select_victim_frame`.  When `n = 0` the C++ code indexes
`FRAME_TABLE[-1]` (undefined behaviour); the model totalizes that corner with
victim index `0`. -/
def nru_select (hand lastReset insCounter n : Nat) (ft : Nat → Frame)
    (procs : Nat → Process) : NruResult :=
  let reset := decide (insCounter ≥ lastReset + NRU_RESET_COUNT)
  let r := nru_loop ft reset (walk_order hand n) (fun _ => none) procs
  let victim := match r.2.2 with
    | some v => v
    | none => (nru_first_class r.1).getD 0
  { victim := victim, hand := (victim + 1) % n,
    lastReset := if reset then insCounter else lastReset, procs := r.2.1 }

/-! ### Specification-level reading of the NRU policy -/

/-- The class `2*R + M` of the PTE owned by frame `idx`. -/
def nru_class_of (ft : Nat → Frame) (procs : Nat → Process) (idx : Nat) : Nat :=
  get_class_index (reverse_map ft procs idx)

/-- The lowest class among the frames of the walk (`3` for an empty walk,
which cannot occur with `0 < n`). -/
def nru_lowest_class (ft : Nat → Frame) (procs : Nat → Process) (hand n : Nat) : Nat :=
  if (walk_order hand n).any (fun idx => nru_class_of ft procs idx == 0) then 0
  else if (walk_order hand n).any (fun idx => nru_class_of ft procs idx == 1) then 1
  else if (walk_order hand n).any (fun idx => nru_class_of ft procs idx == 2) then 2
  else 3

/-- The first frame in walk order from `hand` belonging to the lowest
non-empty class. -/
def nru_spec_victim (ft : Nat → Frame) (procs : Nat → Process) (hand n : Nat) :
    Option Nat :=
  (walk_order hand n).find?
    (fun idx => nru_class_of ft procs idx == nru_lowest_class ft procs hand n)

/-- Distinct frames carry distinct `(pid, vpage)` owners — the state seen by
every pager invocation on reachable states. -/
def owners_distinct (ft : Nat → Frame) (n : Nat) : Prop :=
  ∀ i, i < n → ∀ j, j < n → i ≠ j →
    ((ft i).pid.toNat, (ft i).vpage.toNat) ≠ ((ft j).pid.toNat, (ft j).vpage.toNat)

/-- The page-table slot a frame's owner PTE lives at. -/
def owner_key (ft : Nat → Frame) (idx : Nat) : Nat × Nat :=
  (((ft idx).pid).toNat, ((ft idx).vpage).toNat)

/-! ## Aging (`AgingPager`) -/

/-- The scan of `AgingPager::select_victim_frame`: shift each age right,
set the MSB (`0x80000000`) and clear R when referenced, and track the frame
with the strictly smallest age (earliest visited wins ties). -/
def aging_loop :
    List Nat → (Nat → Frame) → (Nat → Process) → Nat →
    (Nat → Frame) × (Nat → Process) × Nat
  | [], ft, procs, minIdx => (ft, procs, minIdx)
  | idx :: rest, ft, procs, minIdx =>
    let pte := reverse_map ft procs idx
    let frame := ft idx
    let frame := { frame with age := frame.age >>> 1 }
    let pair :=
      if pte.is_referenced then
        ({ frame with age := frame.age ||| 0x80000000 },
         write_owner_pte ft procs idx { pte with is_referenced := false })
      else (frame, procs)
    let ft := upd ft idx pair.1
    let procs := pair.2
    let minIdx := if (ft idx).age < (ft minIdx).age then idx else minIdx
    aging_loop rest ft procs minIdx

structure AgingResult where
  victim : Nat
  hand : Nat
  ft : Nat → Frame
  procs : Nat → Process

/-- `AgingPager::select_victim_frame`. -/
def aging_select (hand n : Nat) (ft : Nat → Frame) (procs : Nat → Process) :
    AgingResult :=
  let r := aging_loop (walk_order hand n) ft procs hand
  { victim := r.2.2, hand := (r.2.2 + 1) % n, ft := r.1, procs := r.2.1 }

/-! ## Working-Set (`WorkingSetPager`) -/

/-- The scan of `WorkingSetPager::select_victim_frame`.  Returns whether the
walk stopped early, the running `oldest_idx`, and the updated tables. -/
def ws_loop (insCounter : Nat) :
    List Nat → Nat → (Nat → Frame) → (Nat → Process) →
    Bool × Nat × (Nat → Frame) × (Nat → Process)
  | [], oldest, ft, procs => (false, oldest, ft, procs)
  | idx :: rest, oldest, ft, procs =>
    let pte := reverse_map ft procs idx
    let frame := ft idx
    let isOld := decide (insCounter > frame.age + WORKING_SET_TAU)
    if isOld && !pte.is_referenced then
      (true, idx, ft, procs)
    else
      let pair :=
        if pte.is_referenced then
          (upd ft idx { frame with age := insCounter },
           write_owner_pte ft procs idx { pte with is_referenced := false })
        else (ft, procs)
      let ft := pair.1
      let procs := pair.2
      let oldest := if (ft idx).age < (ft oldest).age then idx else oldest
      ws_loop insCounter rest oldest ft procs

structure WsResult where
  victim : Nat
  hand : Nat
  ft : Nat → Frame
  procs : Nat → Process

/-- `WorkingSetPager::select_victim_frame`. -/
def ws_select (hand insCounter n : Nat) (ft : Nat → Frame)
    (procs : Nat → Process) : WsResult :=
  let r := ws_loop insCounter (walk_order hand n) hand ft procs
  { victim := r.2.1, hand := (r.2.1 + 1) % n, ft := r.2.2.1, procs := r.2.2.2 }

/-! ### Specification-level reading of the Working-Set policy -/

/-- Is frame `idx` "old" at its visit: its owner PTE's R bit clear and
`INS_COUNTER` strictly beyond `age + tau`, read on the entry tables. -/
def ws_is_old (insCounter : Nat) (ft : Nat → Frame) (procs : Nat → Process)
    (idx : Nat) : Bool :=
  decide (insCounter > (ft idx).age + WORKING_SET_TAU)
    && !(reverse_map ft procs idx).is_referenced

/-- The age of frame `idx` after its visit: `INS_COUNTER` when its R bit was
set, its entry age otherwise. -/
def ws_final_age (insCounter : Nat) (ft : Nat → Frame) (procs : Nat → Process)
    (idx : Nat) : Nat :=
  if (reverse_map ft procs idx).is_referenced then insCounter else (ft idx).age

def list_min_nat (l : List Nat) (d : Nat) : Nat := l.foldr min d

/-- The smallest post-visit age over the walk. -/
def ws_min_age (insCounter : Nat) (ft : Nat → Frame) (procs : Nat → Process)
    (hand n : Nat) : Nat :=
  list_min_nat ((walk_order hand n).map (ws_final_age insCounter ft procs))
    (ws_final_age insCounter ft procs hand)

/-- The running minimum of the Working-Set fall-through, over post-visit
ages, earliest index winning ties. -/
def ws_argmin (insCounter : Nat) (ft : Nat → Frame) (procs : Nat → Process) :
    List Nat → Nat → Nat
  | [], best => best
  | idx :: rest, best =>
    ws_argmin insCounter ft procs rest
      (if ws_final_age insCounter ft procs idx
          < ws_final_age insCounter ft procs best then idx else best)

/-- The Working-Set victim, specification reading: the first old frame in
walk order, else the first frame attaining the smallest post-visit age. -/
def ws_spec_victim (hand insCounter n : Nat) (ft : Nat → Frame)
    (procs : Nat → Process) : Option Nat :=
  match (walk_order hand n).find? (ws_is_old insCounter ft procs) with
  | some idx => some idx
  | none =>
    (walk_order hand n).find? (fun idx =>
      ws_final_age insCounter ft procs idx
        == ws_min_age insCounter ft procs hand n)

/-- The frame-table effect of visiting a referenced frame `u`. -/
def ws_touch_ft (ic : Nat) (ft : Nat → Frame) (u : Nat) : Nat → Frame :=
  upd ft u { ft u with age := ic }

/-- The page-table effect of visiting a referenced frame `u`. -/
def ws_touch_procs (ft : Nat → Frame) (procs : Nat → Process) (u : Nat) :
    Nat → Process :=
  write_owner_pte ft procs u
    { reverse_map ft procs u with is_referenced := false }

/-! ## Pager dispatch -/

/-- `PAGER->select_victim_frame()`: returns the victim frame index and the
state with the policy's side effects (R bits, ages, hand, RNG cursor). -/
def select_victim_frame (s : SimState) : Nat × SimState :=
  match s.pager with
  | .fifo hand =>
    let r := fifo_select hand s.nframes
    (r.1, { s with pager := .fifo r.2 })
  | .rnd =>
    let r := random_select s.randvals s.ofs s.nframes
    (r.1, { s with ofs := r.2 })
  | .clock hand =>
    let r := clock_select hand s.nframes s.ft s.procs
    (r.victim, { s with procs := r.procs, pager := .clock r.hand })
  | .nru hand lastReset =>
    let r := nru_select hand lastReset s.insCounter s.nframes s.ft s.procs
    (r.victim, { s with procs := r.procs, pager := .nru r.hand r.lastReset })
  | .aging hand =>
    let r := aging_select hand s.nframes s.ft s.procs
    (r.victim, { s with ft := r.ft, procs := r.procs, pager := .aging r.hand })
  | .ws hand =>
    let r := ws_select hand s.insCounter s.nframes s.ft s.procs
    (r.victim, { s with ft := r.ft, procs := r.procs, pager := .ws r.hand })

/-- `PAGER->reset_age(frame_id)`: non-trivial only for Aging and Working-Set. -/
def pager_reset_age (fid : Nat) (s : SimState) : SimState :=
  match s.pager with
  | .aging _ => { s with ft := upd s.ft fid { s.ft fid with age := 0 } }
  | .ws _ => { s with ft := upd s.ft fid { s.ft fid with age := s.insCounter } }
  | _ => s

/-! ## Frame allocation (`allocate_frame_from_free_list` + `get_frame`) -/

/-- `get_frame()`: pop the free-list head, else ask the pager for a victim.
The ghost `everAlloc` flag records the handed-out index. -/
def get_frame (s : SimState) : Nat × SimState :=
  match s.free with
  | f :: rest => (f, { s with free := rest, everAlloc := upd s.everAlloc f true })
  | [] =>
    let r := select_victim_frame s
    (r.1, { r.2 with everAlloc := upd r.2.everAlloc r.1 true })

/-! ## VMA check (`check_validity_and_cache_details`) -/

/-- Scan the process's VMAs in order; cache the attributes of the first VMA
containing `vpage` onto the PTE. -/
def check_validity_and_cache_details (p : Process) (vpage : Nat) :
    Bool × Process :=
  let pte := p.page_table vpage
  if pte.is_assigned_to_vma then (true, p)
  else
    match p.vma_list.find? (fun vma =>
        decide (vma.start_page ≤ vpage) && decide (vpage ≤ vma.end_page)) with
    | some vma =>
      let pte2 := { pte with is_assigned_to_vma := true,
                             is_write_protected := vma.is_write_protected,
                             is_file_mapped := vma.is_file_mapped }
      (true, { p with page_table := upd p.page_table vpage pte2 })
    | none => (false, p)

/-! ## Unmap of a victim frame (`unmap_victim_frame`) -/

/-- `unmap_victim_frame(victim)`: emits UNMAP, clears `is_present`, and for a
modified PTE emits FOUT (file-mapped) or sets `is_paged_out` and emits OUT,
finally clearing `is_modified`. -/
def unmap_victim_frame (victim : Frame) (s : SimState) :
    SimState × List Event :=
  let old_pid := victim.pid
  let old_vpage := victim.vpage
  let pp := old_pid.toNat
  let vv := old_vpage.toNat
  let pte0 := (s.procs pp).page_table vv
  let s := { s with procs := set_pte s.procs pp vv { pte0 with is_present := false } }
  let s := { s with procs := upd s.procs pp (bump_unmaps (s.procs pp)),
                    cost := s.cost + UNMAPS_TIME }
  if pte0.is_modified then
    if pte0.is_file_mapped then
      let s := { s with procs := upd s.procs pp (bump_fouts (s.procs pp)),
                        cost := s.cost + FOUTS_TIME }
      let pte1 := (s.procs pp).page_table vv
      let pte1b := { pte1 with is_modified := false, is_present := false }
      let s := { s with procs := set_pte s.procs pp vv pte1b }
      (s, [Event.unmapEv old_pid old_vpage, Event.foutEv])
    else
      let pte1 := (s.procs pp).page_table vv
      let s := { s with procs := set_pte s.procs pp vv { pte1 with is_paged_out := true } }
      let s := { s with procs := upd s.procs pp (bump_outs (s.procs pp)),
                        cost := s.cost + OUTS_TIME }
      let pte2 := (s.procs pp).page_table vv
      let pte2b := { pte2 with is_modified := false, is_present := false }
      let s := { s with procs := set_pte s.procs pp vv pte2b }
      (s, [Event.unmapEv old_pid old_vpage, Event.outEv])
  else
    (s, [Event.unmapEv old_pid old_vpage])

/-! ## Load/store fault handler (`handle_load_store`) -/

/-- The page-fault block of `handle_load_store` (frame acquisition, optional
victim unmap, fault classification FIN/IN/ZERO, mapping, `reset_age`). -/
def ldst_fault (vpage : Nat) (s : SimState) : SimState × List Event :=
  let r := get_frame s
  let fidx := r.1
  let s := r.2
  let frame := s.ft fidx
  let ur := if frame.is_victim then unmap_victim_frame frame s else (s, [])
  let s := ur.1
  let evs1 := ur.2
  let pte := (s.procs s.curr).page_table vpage
  let cr :=
    if pte.is_file_mapped then
      ({ s with procs := upd s.procs s.curr (bump_fins (s.procs s.curr)),
                cost := s.cost + FINS_TIME }, [Event.finEv])
    else if pte.is_paged_out then
      ({ s with procs := upd s.procs s.curr (bump_ins (s.procs s.curr)),
                cost := s.cost + INS_TIME }, [Event.inEv])
    else
      ({ s with procs := upd s.procs s.curr (bump_zeros (s.procs s.curr)),
                cost := s.cost + ZEROS_TIME }, [Event.zeroEv])
  let s := cr.1
  let evs2 := cr.2
  let frame := s.ft fidx
  let frame2 := { frame with is_victim := true, pid := ((s.procs s.curr).pid : Int),
                             vpage := (vpage : Int), is_assigned := true }
  let s := { s with ft := upd s.ft fidx frame2 }
  let pte := (s.procs s.curr).page_table vpage
  let fnum := (((s.ft fidx).frame_id) % (MAX_FRAMES : Int)).toNat
  let pte2 := { pte with is_present := true, frame_num := fnum }
  let s := { s with procs := set_pte s.procs s.curr vpage pte2 }
  let s := { s with procs := upd s.procs s.curr (bump_maps (s.procs s.curr)),
                    cost := s.cost + MAPS_TIME }
  let s := pager_reset_age fnum s
  (s, evs1 ++ evs2 ++ [Event.mapEv fnum])

/-- The tail of `handle_load_store` after presence is established: set the
R bit, then on a write either emit SEGPROT (write-protected) or set the M
bit. -/
def ldst_tail (op : Char) (vpage : Nat) : SimState × List Event → SimState × List Event
  | (s, evs) =>
    let proc := s.procs s.curr
    let pte := proc.page_table vpage
    let s := { s with procs := set_pte s.procs s.curr vpage { pte with is_referenced := true } }
    if op = 'w' then
      let pte := (s.procs s.curr).page_table vpage
      if pte.is_write_protected then
        ({ s with procs := upd s.procs s.curr (bump_segprot (s.procs s.curr)),
                  cost := s.cost + SEGPROT_TIME }, evs ++ [Event.segprotEv])
      else
        let pte := (s.procs s.curr).page_table vpage
        ({ s with procs := set_pte s.procs s.curr vpage { pte with is_modified := true } },
         evs)
    else (s, evs)

/-- `handle_load_store(op, vpage)`. -/
def handle_load_store (op : Char) (vpage : Nat) (s : SimState) :
    SimState × List Event :=
  let s := { s with cost := s.cost + LD_ST_TIME }
  let pte := (s.procs s.curr).page_table vpage
  if pte.is_present then
    ldst_tail op vpage (s, [])
  else
    let vr := check_validity_and_cache_details (s.procs s.curr) vpage
    let s := { s with procs := upd s.procs s.curr vr.2 }
    if vr.1 then
      ldst_tail op vpage (ldst_fault vpage s)
    else
      ({ s with procs := upd s.procs s.curr (bump_segv (s.procs s.curr)),
                cost := s.cost + SEGV_TIME }, [Event.segvEv])

/-! ## Context switch (`handle_context_switch`) -/

def handle_context_switch (target : Nat) (s : SimState) : SimState :=
  { s with curr := target, ctxSwitches := s.ctxSwitches + 1,
           cost := s.cost + CTX_SWITCH_TIME }

/-! ## Process exit (`handle_process_exit`) -/

/-- The body of the exit loop for a single vpage `v` of process `target`:
a present page is unmapped (UNMAP on the frame's owner, conditional FOUT),
its frame cleared and appended to the free list; the PTE then has
`is_present`, `is_referenced` and `is_paged_out` cleared in every case. -/
def exit_one_page (target v : Nat) (s : SimState) : SimState × List Event :=
  let pte := (s.procs target).page_table v
  if pte.is_present then
    let f := pte.frame_num
    let fr := s.ft f
    let fpid := fr.pid
    let fvpage := fr.vpage
    let s := { s with procs := upd s.procs fpid.toNat (bump_unmaps (s.procs fpid.toNat)),
                      cost := s.cost + UNMAPS_TIME }
    let frCleared := { fr with is_assigned := false, pid := -1, vpage := -1,
                               is_victim := false }
    let s := { s with ft := upd s.ft f frCleared, free := s.free ++ [f] }
    let fr2 :=
      if pte.is_modified && pte.is_file_mapped then
        ({ s with procs := upd s.procs fpid.toNat (bump_fouts (s.procs fpid.toNat)),
                  cost := s.cost + FOUTS_TIME }, [Event.foutEv])
      else (s, ([] : List Event))
    let s := fr2.1
    let pte2 := (s.procs target).page_table v
    let pte2b := { pte2 with is_present := false, is_referenced := false,
                             is_paged_out := false }
    let s := { s with procs := set_pte s.procs target v pte2b }
    (s, Event.unmapEv fpid fvpage :: fr2.2)
  else
    let pte2 := (s.procs target).page_table v
    let pte2b := { pte2 with is_present := false, is_referenced := false,
                             is_paged_out := false }
    let s := { s with procs := set_pte s.procs target v pte2b }
    (s, [])

/-- The exit loop over the listed vpages of process `target`. -/
def exit_loop (target : Nat) :
    List Nat → SimState → SimState × List Event
  | [], s => (s, [])
  | v :: rest, s =>
    let h := exit_one_page target v s
    let res := exit_loop target rest h.1
    (res.1, h.2 ++ res.2)

/-- `handle_process_exit(target)`. -/
def handle_process_exit (target : Nat) (s : SimState) : SimState × List Event :=
  let s := { s with procExits := s.procExits + 1, cost := s.cost + PROC_EXIT_TIME }
  let r := exit_loop target (List.range MAX_VPAGES) s
  (r.1, Event.exitEv target :: r.2)

/-! ## Driver (`run_simulation`) -/

/-- One instruction of the driver loop.  An unknown opcode aborts the C++
program; the model leaves the state unchanged there, and the theorems only
quantify over well-formed traces. -/
def step_ins (s : SimState) (i : Ins) : SimState × List Event :=
  let s := { s with insCounter := s.insCounter + 1 }
  if i.op = 'c' then (handle_context_switch i.addr s, [])
  else if i.op = 'r' || i.op = 'w' then handle_load_store i.op i.addr s
  else if i.op = 'e' then handle_process_exit i.addr s
  else (s, [])

def run_sim (s : SimState) : List Ins → SimState
  | [] => s
  | i :: rest => run_sim (step_ins s i).1 rest

/-! ## Initialization (`initialize_frames` + input loading).
`CURR_PROC` is a null pointer until the first context switch in the C++
program; the model starts `curr` at `0` and the theorems only consider
traces whose first reference follows a context switch to a valid process. -/

def init_state (n : Nat) (vmass : List (List Vma)) (pager : PagerState)
    (randvals : List Int) : SimState :=
  { ft := fun i => if i < n then { default_frame with frame_id := (i : Int) } else default_frame
    free := List.range n
    procs := fun p => mk_process p (vmass.getD p [])
    nprocs := vmass.length
    nframes := n
    curr := 0
    insCounter := 0
    ctxSwitches := 0
    procExits := 0
    cost := 0
    pager := pager
    randvals := randvals
    ofs := 0
    everAlloc := fun _ => false }

/-! ## Concrete fixtures used by witnesses and counterexamples -/

def demo_vma : Vma :=
  { start_page := 0, end_page := 9, is_write_protected := false, is_file_mapped := false }

def demo_vma_wp : Vma :=
  { start_page := 0, end_page := 9, is_write_protected := true, is_file_mapped := false }

def demo_vma_fm : Vma :=
  { start_page := 0, end_page := 9, is_write_protected := false, is_file_mapped := true }

/-- State after `c 0` on four frames and one plain VMA. -/
def c4wit_state : SimState :=
  run_sim (init_state 4 [[demo_vma]] (.fifo 0) []) [⟨'c', 0⟩]

/-- State after `c 0 ; r 0`: page 0 is present with its R bit set. -/
def c2cex_state : SimState :=
  run_sim (init_state 4 [[demo_vma]] (.fifo 0) []) [⟨'c', 0⟩, ⟨'r', 0⟩]

/-- Write-protected variant after `c 0 ; r 0`: page 0 is present,
write-protected, with M clear. -/
def c5wit_state : SimState :=
  run_sim (init_state 4 [[demo_vma_wp]] (.fifo 0) []) [⟨'c', 0⟩, ⟨'r', 0⟩]

/-- One frame, one anonymous VMA, after `c 0 ; w 0 ; r 1`: page 0 was dirty,
got evicted by the fault on page 1, so it is absent with `is_paged_out`
set. -/
def c3cex_pre : SimState :=
  run_sim (init_state 1 [[demo_vma]] (.fifo 0) []) [⟨'c', 0⟩, ⟨'w', 0⟩, ⟨'r', 1⟩]

/-- Two VMAs (pages 0-4 file-mapped, pages 5-9 anonymous) after
`c 0 ; w 0 ; w 5`: page 0 is present dirty file-mapped, page 5 present dirty
anonymous. -/
def c1wit_state : SimState :=
  run_sim (init_state 4 [[demo_vma_fm,
    { start_page := 5, end_page := 9, is_write_protected := false, is_file_mapped := false }]]
    (.fifo 0) []) [⟨'c', 0⟩, ⟨'w', 0⟩, ⟨'w', 5⟩]

/-- Two assigned frames owned by process 0 at vpages 0 and 1. -/
def c6ft : Nat → Frame := fun i =>
  if i = 0 then
    { is_assigned := true, pid := 0, vpage := 0, frame_id := 0, is_victim := true, age := 0 }
  else
    { is_assigned := true, pid := 0, vpage := 1, frame_id := 1, is_victim := true, age := 0 }

/-- Page 0 present and referenced (class 2), page 1 present and idle
(class 0). -/
def c6procs : Nat → Process := fun p =>
  { mk_process p [] with
    page_table := fun v =>
      if v = 0 then { default_pte with is_present := true, is_referenced := true }
      else if v = 1 then { default_pte with is_present := true }
      else default_pte }

/-- Does an event line read `UNMAP p:v`? -/
def is_unmap_event : Event → Bool
  | .unmapEv _ _ => true
  | _ => false

/-- Number of vpages of `target` whose PTE is present (unmapped on exit). -/
def exit_present_count (s : SimState) (target : Nat) : Nat :=
  ((List.range MAX_VPAGES).filter
    (fun v => ((s.procs target).page_table v).is_present)).length

/-- Number of vpages of `target` that are present, modified and file-mapped
(each emits FOUT on exit). -/
def exit_fout_count (s : SimState) (target : Nat) : Nat :=
  ((List.range MAX_VPAGES).filter
    (fun v => ((s.procs target).page_table v).is_present
      && ((s.procs target).page_table v).is_modified
      && ((s.procs target).page_table v).is_file_mapped)).length

/-! ## Reachability invariant of the simulation -/

/-- A well-formed instruction for `np` processes: context switches name a
valid process and references touch a legal vpage.  (Exits of out-of-range
pids and unknown opcodes need no constraint: the model handles them.) -/
@[reducible] def ins_wf (np : Nat) (i : Ins) : Prop :=
  (i.op = 'c' → i.addr < np) ∧ ((i.op = 'r' ∨ i.op = 'w') → i.addr < MAX_VPAGES)

/-- The hand of a hand-based pager stays inside the frame table. -/
def pager_hand_ok (s : SimState) : Prop :=
  match s.pager with
  | .fifo hand => hand < s.nframes
  | .rnd => True
  | .clock hand => hand < s.nframes
  | .nru hand _ => hand < s.nframes
  | .aging hand => hand < s.nframes
  | .ws hand => hand < s.nframes

/-- Two PTEs equal up to a cleared R bit (the only page-table effect of a
victim-selection scan). -/
def pte_eq_mod_R (a b : Pte) : Prop :=
  a = b ∨ a = { b with is_referenced := false }

/-- Two frames equal except possibly in their `age` field (the only
frame-table effect of a victim-selection scan). -/
def frame_eq_mod_age (a b : Frame) : Prop :=
  a.is_assigned = b.is_assigned ∧ a.pid = b.pid ∧ a.vpage = b.vpage ∧
  a.frame_id = b.frame_id ∧ a.is_victim = b.is_victim

/-- Process tables that agree on pids and on the `is_present`/`frame_num`
components of every PTE. -/
def procs_compat (a b : Nat → Process) : Prop :=
  (∀ p, (a p).pid = (b p).pid) ∧
  ∀ p v, ((a p).page_table v).is_present = ((b p).page_table v).is_present ∧
    ((a p).page_table v).frame_num = ((b p).page_table v).frame_num

/-- The state invariant maintained by the simulation on well-formed traces:
the free list holds exactly the unassigned frame indices (without
duplicates), `is_victim` tracks `is_assigned`, every assigned frame names a
valid owner whose PTE is present and points back at the frame, and every
present PTE names an assigned frame owning exactly that page. -/
structure SimInv (s : SimState) : Prop where
  hframes : 0 < s.nframes
  hframes_le : s.nframes ≤ MAX_FRAMES
  hcurr : s.curr < s.nprocs
  hpid : ∀ p, (s.procs p).pid = p
  hrand : ∀ x ∈ s.randvals, 0 ≤ x
  hfree_nd : s.free.Nodup
  hfree_lt : ∀ f ∈ s.free, f < s.nframes
  hfree_iff : ∀ i, i < s.nframes → ((s.ft i).is_assigned = false ↔ i ∈ s.free)
  hfid : ∀ i, i < s.nframes → (s.ft i).frame_id = (i : Int)
  hvict : ∀ i, (s.ft i).is_victim = (s.ft i).is_assigned
  hframe_ok : ∀ i, i < s.nframes → (s.ft i).is_assigned = true →
    0 ≤ (s.ft i).pid ∧ (s.ft i).pid.toNat < s.nprocs ∧
    0 ≤ (s.ft i).vpage ∧ (s.ft i).vpage.toNat < MAX_VPAGES ∧
    ((s.procs (s.ft i).pid.toNat).page_table (s.ft i).vpage.toNat).is_present
      = true ∧
    ((s.procs (s.ft i).pid.toNat).page_table (s.ft i).vpage.toNat).frame_num = i
  hpte_ok : ∀ p v, ((s.procs p).page_table v).is_present = true →
    ((s.procs p).page_table v).frame_num < s.nframes ∧
    (s.ft ((s.procs p).page_table v).frame_num).is_assigned = true ∧
    (s.ft ((s.procs p).page_table v).frame_num).pid = (p : Int) ∧
    (s.ft ((s.procs p).page_table v).frame_num).vpage = (v : Int)
  hhand : pager_hand_ok s

/-- The intermediate state of a page fault right before the mapping writes:
frame `fidx` has been acquired (popped from the free list or unmapped from
its previous owner) and the target page is still absent.  `fidx` itself is
exempt from the ownership clauses; everything else is as in `SimInv`. -/
structure MapPre (s : SimState) (fidx vpage : Nat) : Prop where
  hframes : 0 < s.nframes
  hframes_le : s.nframes ≤ MAX_FRAMES
  hcurr : s.curr < s.nprocs
  hpid : ∀ p, (s.procs p).pid = p
  hrand : ∀ x ∈ s.randvals, 0 ≤ x
  hfidx : fidx < s.nframes
  hvpage : vpage < MAX_VPAGES
  habsent : ((s.procs s.curr).page_table vpage).is_present = false
  hfree_nd : s.free.Nodup
  hfree_lt : ∀ f ∈ s.free, f < s.nframes
  hfree_fidx : fidx ∉ s.free
  hfree_iff : ∀ i, i < s.nframes → i ≠ fidx →
    ((s.ft i).is_assigned = false ↔ i ∈ s.free)
  hfid : ∀ i, i < s.nframes → (s.ft i).frame_id = (i : Int)
  hvict : ∀ i, i ≠ fidx → (s.ft i).is_victim = (s.ft i).is_assigned
  hframe_ok : ∀ i, i < s.nframes → i ≠ fidx → (s.ft i).is_assigned = true →
    0 ≤ (s.ft i).pid ∧ (s.ft i).pid.toNat < s.nprocs ∧
    0 ≤ (s.ft i).vpage ∧ (s.ft i).vpage.toNat < MAX_VPAGES ∧
    ((s.procs (s.ft i).pid.toNat).page_table (s.ft i).vpage.toNat).is_present
      = true ∧
    ((s.procs (s.ft i).pid.toNat).page_table (s.ft i).vpage.toNat).frame_num = i
  hpte_ok : ∀ p v, ((s.procs p).page_table v).is_present = true →
    ((s.procs p).page_table v).frame_num < s.nframes ∧
    ((s.procs p).page_table v).frame_num ≠ fidx ∧
    (s.ft ((s.procs p).page_table v).frame_num).is_assigned = true ∧
    (s.ft ((s.procs p).page_table v).frame_num).pid = (p : Int) ∧
    (s.ft ((s.procs p).page_table v).frame_num).vpage = (v : Int)
  hhand : pager_hand_ok s

/-- The fault-classification step of `ldst_fault` (FIN / IN / ZERO). -/
def fault_classify (vpage : Nat) (s : SimState) : SimState × List Event :=
  let pte := (s.procs s.curr).page_table vpage
  if pte.is_file_mapped then
    ({ s with procs := upd s.procs s.curr (bump_fins (s.procs s.curr)),
              cost := s.cost + FINS_TIME }, [Event.finEv])
  else if pte.is_paged_out then
    ({ s with procs := upd s.procs s.curr (bump_ins (s.procs s.curr)),
              cost := s.cost + INS_TIME }, [Event.inEv])
  else
    ({ s with procs := upd s.procs s.curr (bump_zeros (s.procs s.curr)),
              cost := s.cost + ZEROS_TIME }, [Event.zeroEv])

/-- The mapping writes at the tail of `ldst_fault`: stamp the frame with its
new owner, make the PTE present with the (7-bit) frame number, count the MAP
and reset the pager age. -/
def map_fault_tail (vpage fidx : Nat) (s : SimState) : SimState × List Event :=
  let frame := s.ft fidx
  let frame2 := { frame with is_victim := true, pid := ((s.procs s.curr).pid : Int),
                             vpage := (vpage : Int), is_assigned := true }
  let s := { s with ft := upd s.ft fidx frame2 }
  let pte := (s.procs s.curr).page_table vpage
  let fnum := (((s.ft fidx).frame_id) % (MAX_FRAMES : Int)).toNat
  let pte2 := { pte with is_present := true, frame_num := fnum }
  let s := { s with procs := set_pte s.procs s.curr vpage pte2 }
  let s := { s with procs := upd s.procs s.curr (bump_maps (s.procs s.curr)),
                    cost := s.cost + MAPS_TIME }
  let s := pager_reset_age fnum s
  (s, [Event.mapEv fnum])

/-- The frame stamp written by the mapping tail. -/
def fault_frame2 (s : SimState) (vpage fidx : Nat) : Frame :=
  { s.ft fidx with
    is_victim := true,
    pid := ((s.procs s.curr).pid : Int),
    vpage := (vpage : Int),
    is_assigned := true }

/-- The (7-bit) frame number stored by the mapping tail. -/
def fault_fnum (s : SimState) (vpage fidx : Nat) : Nat :=
  (((upd s.ft fidx (fault_frame2 s vpage fidx)) fidx).frame_id
    % (MAX_FRAMES : Int)).toNat

/-- The PTE written by the mapping tail. -/
def fault_pte2 (s : SimState) (vpage fidx : Nat) : Pte :=
  { (s.procs s.curr).page_table vpage with
    is_present := true,
    frame_num := fault_fnum s vpage fidx }

/-- One frame, one anonymous VMA; `c 0 ; r 0` allocates frame 0, `e 0`
frees it again. -/
def c9cex_state : SimState :=
  run_sim (init_state 1 [[demo_vma]] (.fifo 0) []) [⟨'c', 0⟩, ⟨'r', 0⟩, ⟨'e', 0⟩]

/-- Four frames, one anonymous VMA; after `c 0 ; r 0` page 0 is present. -/
def c9wit_ops : List Ins := [⟨'c', 0⟩, ⟨'r', 0⟩]

/-- One frame, one anonymous VMA; after `c 0 ; r 0` the single frame is
taken and the free list is empty. -/
def c10wit_ops : List Ins := [⟨'c', 0⟩, ⟨'r', 0⟩]

/-! # Theorems -/

/-! ## Point-update laws -/

theorem upd_self {α : Type} (f : Nat → α) (i : Nat) (a : α) : upd f i a i = a := by
  simp [upd]

theorem upd_ne {α : Type} (f : Nat → α) {i j : Nat} (a : α) (h : j ≠ i) :
    upd f i a j = f j := by
  simp [upd, h]

theorem upd_eq_self {α : Type} (f : Nat → α) (i : Nat) : upd f i (f i) = f := by
  funext j
  by_cases h : j = i <;> simp [upd, h]

/-! ## Claim C2: unmap of a victim frame during replacement -/

/-- C2 (counterexample): the claim states that after `unmap_victim_frame`
both `is_modified` and `is_referenced` of the old PTE are left cleared.  In
the state reached by `c 0 ; r 0` (page 0 present with R set, frame 0 its
owner), unmapping frame 0 leaves `is_referenced` still set: the code never
touches the R bit on the victim-unmap path. -/
theorem c2_unmap_keeps_referenced_cex :
    ((c2cex_state.procs 0).page_table 0).is_referenced = true ∧
    (c2cex_state.ft 0).pid = 0 ∧ (c2cex_state.ft 0).vpage = 0 ∧
    (((unmap_victim_frame (c2cex_state.ft 0) c2cex_state).1.procs 0).page_table 0).is_present
      = false ∧
    (((unmap_victim_frame (c2cex_state.ft 0) c2cex_state).1.procs 0).page_table 0).is_referenced
      = true := by
  decide

/-- C2 (amended): unmapping a victim frame with old owner `(old_pid,
old_vpage)` emits `UNMAP`, adds `UNMAPS_TIME = 410` to COST, increments the
old process's `unmaps`, and clears the old PTE's `is_present`; if the old
PTE's `is_modified` is set then a file-mapped page emits `FOUT` (+2800,
`fouts`+1) and otherwise `is_paged_out` is set and `OUT` is emitted (+2750,
`outs`+1); afterwards `is_modified` is left cleared while `is_referenced`
(and every other PTE field) is left unchanged. -/
theorem c2_unmap_victim_frame_spec (victim : Frame) (s : SimState) :
    ((unmap_victim_frame victim s).1.procs victim.pid.toNat).page_table victim.vpage.toNat
      = { (s.procs victim.pid.toNat).page_table victim.vpage.toNat with
          is_present := false, is_modified := false,
          is_paged_out :=
            ((s.procs victim.pid.toNat).page_table victim.vpage.toNat).is_paged_out
            || (((s.procs victim.pid.toNat).page_table victim.vpage.toNat).is_modified
                && !((s.procs victim.pid.toNat).page_table victim.vpage.toNat).is_file_mapped) } ∧
    ((unmap_victim_frame victim s).1.procs victim.pid.toNat).unmaps
      = (s.procs victim.pid.toNat).unmaps + 1 ∧
    ((unmap_victim_frame victim s).1.procs victim.pid.toNat).fouts
      = (s.procs victim.pid.toNat).fouts
        + (if ((s.procs victim.pid.toNat).page_table victim.vpage.toNat).is_modified
              && ((s.procs victim.pid.toNat).page_table victim.vpage.toNat).is_file_mapped
           then 1 else 0) ∧
    ((unmap_victim_frame victim s).1.procs victim.pid.toNat).outs
      = (s.procs victim.pid.toNat).outs
        + (if ((s.procs victim.pid.toNat).page_table victim.vpage.toNat).is_modified
              && !((s.procs victim.pid.toNat).page_table victim.vpage.toNat).is_file_mapped
           then 1 else 0) ∧
    (unmap_victim_frame victim s).1.cost
      = s.cost + UNMAPS_TIME
        + (if ((s.procs victim.pid.toNat).page_table victim.vpage.toNat).is_modified
              && ((s.procs victim.pid.toNat).page_table victim.vpage.toNat).is_file_mapped
           then FOUTS_TIME else 0)
        + (if ((s.procs victim.pid.toNat).page_table victim.vpage.toNat).is_modified
              && !((s.procs victim.pid.toNat).page_table victim.vpage.toNat).is_file_mapped
           then OUTS_TIME else 0) ∧
    (unmap_victim_frame victim s).2
      = Event.unmapEv victim.pid victim.vpage ::
        (if ((s.procs victim.pid.toNat).page_table victim.vpage.toNat).is_modified then
          (if ((s.procs victim.pid.toNat).page_table victim.vpage.toNat).is_file_mapped
           then [Event.foutEv] else [Event.outEv])
         else []) := by
  by_cases hM : ((s.procs victim.pid.toNat).page_table victim.vpage.toNat).is_modified
  · by_cases hF : ((s.procs victim.pid.toNat).page_table victim.vpage.toNat).is_file_mapped
    · simp [unmap_victim_frame, set_pte, upd, bump_unmaps, bump_fouts, bump_outs, hM, hF,
        UNMAPS_TIME, FOUTS_TIME, OUTS_TIME]
    · simp [unmap_victim_frame, set_pte, upd, bump_unmaps, bump_fouts, bump_outs, hM, hF,
        UNMAPS_TIME, FOUTS_TIME, OUTS_TIME]
  · simp [unmap_victim_frame, set_pte, upd, bump_unmaps, bump_fouts, bump_outs, hM,
      UNMAPS_TIME, FOUTS_TIME, OUTS_TIME]

/-! ## Claim C4: segmentation violation on a reference outside every VMA -/

/-- C4: a read or write to a non-present vpage lying in none of the current
process's VMAs (with `is_assigned_to_vma` still clear) emits `SEGV`, adds
`SEGV_TIME = 440` on top of the unconditional `LD_ST_TIME = 1`, increments
the current process's `segv` counter, and returns with the PTE (in
particular R and M), the frame table and the free list unchanged. -/
theorem c4_segv_on_invalid_vpage (op : Char) (vpage : Nat) (s : SimState)
    (h1 : ((s.procs s.curr).page_table vpage).is_present = false)
    (h2 : ((s.procs s.curr).page_table vpage).is_assigned_to_vma = false)
    (h3 : ∀ vma ∈ (s.procs s.curr).vma_list,
        ¬(vma.start_page ≤ vpage ∧ vpage ≤ vma.end_page)) :
    handle_load_store op vpage s =
      ({ s with cost := s.cost + LD_ST_TIME + SEGV_TIME,
                procs := upd s.procs s.curr (bump_segv (s.procs s.curr)) },
       [Event.segvEv]) ∧
    (handle_load_store op vpage s).1.ft = s.ft ∧
    (handle_load_store op vpage s).1.free = s.free ∧
    ((handle_load_store op vpage s).1.procs s.curr).page_table
      = (s.procs s.curr).page_table ∧
    ((handle_load_store op vpage s).1.procs s.curr).segv
      = (s.procs s.curr).segv + 1 := by
  have hfind : (s.procs s.curr).vma_list.find? (fun vma =>
      decide (vma.start_page ≤ vpage) && decide (vpage ≤ vma.end_page)) = none := by
    rw [List.find?_eq_none]
    intro x hx
    simpa using h3 x hx
  have hmain : handle_load_store op vpage s =
      ({ s with cost := s.cost + LD_ST_TIME + SEGV_TIME,
                procs := upd s.procs s.curr (bump_segv (s.procs s.curr)) },
       [Event.segvEv]) := by
    simp [handle_load_store, check_validity_and_cache_details, h1, h2, hfind, upd_eq_self]
  refine ⟨hmain, ?_, ?_, ?_, ?_⟩ <;>
    rw [hmain] <;> simp [upd, bump_segv]

/-- C4 (witness): at the concrete post-`c 0` state, referencing vpage 20
(outside the single VMA `[0,9]`) produces exactly a SEGV. -/
theorem c4_segv_on_invalid_vpage_witness :
    (handle_load_store 'r' 20 c4wit_state).2 = [Event.segvEv] ∧
    (handle_load_store 'r' 20 c4wit_state).1.cost
      = c4wit_state.cost + LD_ST_TIME + SEGV_TIME := by
  have h := c4_segv_on_invalid_vpage 'r' 20 c4wit_state (by decide) (by decide)
    (by decide)
  exact ⟨by rw [h.1], by rw [h.1]⟩

/-! ## Claim C5: SEGPROT on a write to a write-protected page -/

/-- Shared computation: the R/M tail of the fault handler on a write to a
write-protected PTE sets R, emits SEGPROT with its cost and counter, and
does not set M. -/
theorem ldst_tail_segprot (s : SimState) (evs : List Event) (vpage : Nat)
    (hWP : ((s.procs s.curr).page_table vpage).is_write_protected = true)
    (hM : ((s.procs s.curr).page_table vpage).is_modified = false) :
    (ldst_tail 'w' vpage (s, evs)).2 = evs ++ [Event.segprotEv] ∧
    (ldst_tail 'w' vpage (s, evs)).1.cost = s.cost + SEGPROT_TIME ∧
    ((ldst_tail 'w' vpage (s, evs)).1.procs s.curr).segprot
      = (s.procs s.curr).segprot + 1 ∧
    (((ldst_tail 'w' vpage (s, evs)).1.procs s.curr).page_table vpage).is_referenced
      = true ∧
    (((ldst_tail 'w' vpage (s, evs)).1.procs s.curr).page_table vpage).is_modified
      = false := by
  simp [ldst_tail, set_pte, upd, bump_segprot, hWP, hM]

/-- C5: a write reference to a vpage whose PTE has `is_write_protected` set
once fault handling is complete (first conjunct: directly at the handler
tail that runs after any fault handling; second conjunct: the whole handler
on an already-present write-protected page) emits `SEGPROT`, adds
`SEGPROT_TIME = 410` to COST, increments the current process's `segprot`
counter, leaves `is_modified` unset, and nevertheless sets `is_referenced`
by that same reference. -/
theorem c5_segprot_on_write_protected :
    (∀ (s : SimState) (evs : List Event) (vpage : Nat),
      ((s.procs s.curr).page_table vpage).is_write_protected = true →
      ((s.procs s.curr).page_table vpage).is_modified = false →
      (ldst_tail 'w' vpage (s, evs)).2 = evs ++ [Event.segprotEv] ∧
      (ldst_tail 'w' vpage (s, evs)).1.cost = s.cost + SEGPROT_TIME ∧
      ((ldst_tail 'w' vpage (s, evs)).1.procs s.curr).segprot
        = (s.procs s.curr).segprot + 1 ∧
      (((ldst_tail 'w' vpage (s, evs)).1.procs s.curr).page_table vpage).is_referenced
        = true ∧
      (((ldst_tail 'w' vpage (s, evs)).1.procs s.curr).page_table vpage).is_modified
        = false) ∧
    (∀ (s : SimState) (vpage : Nat),
      ((s.procs s.curr).page_table vpage).is_present = true →
      ((s.procs s.curr).page_table vpage).is_write_protected = true →
      ((s.procs s.curr).page_table vpage).is_modified = false →
      (handle_load_store 'w' vpage s).2 = [Event.segprotEv] ∧
      (handle_load_store 'w' vpage s).1.cost = s.cost + LD_ST_TIME + SEGPROT_TIME ∧
      ((handle_load_store 'w' vpage s).1.procs s.curr).segprot
        = (s.procs s.curr).segprot + 1 ∧
      (((handle_load_store 'w' vpage s).1.procs s.curr).page_table vpage).is_referenced
        = true ∧
      (((handle_load_store 'w' vpage s).1.procs s.curr).page_table vpage).is_modified
        = false) := by
  constructor
  · intro s evs vpage hWP hM
    exact ldst_tail_segprot s evs vpage hWP hM
  · intro s vpage hP hWP hM
    have hred : handle_load_store 'w' vpage s
        = ldst_tail 'w' vpage ({ s with cost := s.cost + LD_ST_TIME }, []) := by
      simp [handle_load_store, hP]
    have h := ldst_tail_segprot { s with cost := s.cost + LD_ST_TIME } [] vpage hWP hM
    rw [hred]
    simpa [Nat.add_assoc] using h

/-- C5 (witness): in the concrete state after `c 0 ; r 0` over a
write-protected VMA, writing page 0 emits exactly SEGPROT, leaves M clear
and R set. -/
theorem c5_segprot_on_write_protected_witness :
    (handle_load_store 'w' 0 c5wit_state).2 = [Event.segprotEv] ∧
    (((handle_load_store 'w' 0 c5wit_state).1.procs c5wit_state.curr).page_table 0).is_referenced
      = true ∧
    (((handle_load_store 'w' 0 c5wit_state).1.procs c5wit_state.curr).page_table 0).is_modified
      = false := by
  have h := (c5_segprot_on_write_protected).2 c5wit_state 0 (by decide) (by decide)
    (by decide)
  exact ⟨h.1, h.2.2.2.1, h.2.2.2.2⟩

/-! ## Read lemmas for the state combinators -/

theorem set_pte_page_table_self (procs : Nat → Process) (p v : Nat) (pte : Pte) :
    ((set_pte procs p v pte) p).page_table v = pte := by
  simp [set_pte, upd]

theorem set_pte_page_table_ne (procs : Nat → Process) (p v : Nat) (pte : Pte)
    (q w : Nat) (hw : w ≠ v) :
    ((set_pte procs p v pte) q).page_table w = (procs q).page_table w := by
  by_cases h : q = p <;> simp [set_pte, upd, h, hw]

theorem page_table_upd_bump_unmaps (procs : Nat → Process) (p q : Nat) :
    ((upd procs p (bump_unmaps (procs p))) q).page_table = (procs q).page_table := by
  by_cases h : q = p <;> simp [upd, bump_unmaps, h]

theorem page_table_upd_bump_fouts (procs : Nat → Process) (p q : Nat) :
    ((upd procs p (bump_fouts (procs p))) q).page_table = (procs q).page_table := by
  by_cases h : q = p <;> simp [upd, bump_fouts, h]

theorem unmaps_set_pte (procs : Nat → Process) (p v : Nat) (pte : Pte) (q : Nat) :
    ((set_pte procs p v pte) q).unmaps = (procs q).unmaps := by
  by_cases h : q = p <;> simp [set_pte, upd, h]

theorem fouts_set_pte (procs : Nat → Process) (p v : Nat) (pte : Pte) (q : Nat) :
    ((set_pte procs p v pte) q).fouts = (procs q).fouts := by
  by_cases h : q = p <;> simp [set_pte, upd, h]

theorem outs_set_pte (procs : Nat → Process) (p v : Nat) (pte : Pte) (q : Nat) :
    ((set_pte procs p v pte) q).outs = (procs q).outs := by
  by_cases h : q = p <;> simp [set_pte, upd, h]

theorem unmaps_upd_bump_fouts (procs : Nat → Process) (p q : Nat) :
    ((upd procs p (bump_fouts (procs p))) q).unmaps = (procs q).unmaps := by
  by_cases h : q = p <;> simp [upd, bump_fouts, h]

theorem fouts_upd_bump_unmaps (procs : Nat → Process) (p q : Nat) :
    ((upd procs p (bump_unmaps (procs p))) q).fouts = (procs q).fouts := by
  by_cases h : q = p <;> simp [upd, bump_unmaps, h]

theorem outs_upd_bump_unmaps (procs : Nat → Process) (p q : Nat) :
    ((upd procs p (bump_unmaps (procs p))) q).outs = (procs q).outs := by
  by_cases h : q = p <;> simp [upd, bump_unmaps, h]

theorem outs_upd_bump_fouts (procs : Nat → Process) (p q : Nat) :
    ((upd procs p (bump_fouts (procs p))) q).outs = (procs q).outs := by
  by_cases h : q = p <;> simp [upd, bump_fouts, h]

/-! ## The process-exit loop, page-table effects -/

/-- `exit_one_page` leaves the PTEs of other vpages of `target` alone. -/
theorem exit_one_page_pt_ne (target v : Nat) (s : SimState) (w : Nat) (hw : w ≠ v) :
    ((exit_one_page target v s).1.procs target).page_table w
      = (s.procs target).page_table w := by
  by_cases hpre : ((s.procs target).page_table v).is_present
  · by_cases hmf : (((s.procs target).page_table v).is_modified
        && ((s.procs target).page_table v).is_file_mapped) = true
    · simp [exit_one_page, hpre, hmf, set_pte_page_table_ne _ _ _ _ _ _ hw,
        page_table_upd_bump_unmaps, page_table_upd_bump_fouts]
    · simp [exit_one_page, hpre, hmf, set_pte_page_table_ne _ _ _ _ _ _ hw,
        page_table_upd_bump_unmaps]
  · simp [exit_one_page, hpre, set_pte_page_table_ne _ _ _ _ _ _ hw]

/-- `exit_one_page` clears exactly `is_present`, `is_referenced` and
`is_paged_out` of the processed vpage's PTE. -/
theorem exit_one_page_pt_self (target v : Nat) (s : SimState) :
    ((exit_one_page target v s).1.procs target).page_table v
      = { (s.procs target).page_table v with
          is_present := false, is_referenced := false, is_paged_out := false } := by
  by_cases hpre : ((s.procs target).page_table v).is_present
  · by_cases hmf : (((s.procs target).page_table v).is_modified
        && ((s.procs target).page_table v).is_file_mapped) = true
    · simp [exit_one_page, hpre, hmf, set_pte, upd]
      split_ifs with h
      · rw [← h]
        simp [bump_unmaps, bump_fouts]
      · simp
    · simp [exit_one_page, hpre, hmf, set_pte, upd]
      split_ifs with h
      · rw [← h]
        simp [bump_unmaps]
      · simp
  · simp [exit_one_page, hpre, set_pte, upd]

/-- Vpages not in the processed list keep their PTE. -/
theorem exit_loop_pt_not_mem (target v : Nat) :
    ∀ (L : List Nat), v ∉ L → ∀ (s : SimState),
      ((exit_loop target L s).1.procs target).page_table v
        = (s.procs target).page_table v := by
  intro L
  induction L with
  | nil => intro _ s; simp [exit_loop]
  | cons u rest ih =>
    intro hv s
    have hvu : v ≠ u := fun h => hv (h ▸ List.mem_cons_self u rest)
    have hvr : v ∉ rest := fun h => hv (List.mem_cons_of_mem _ h)
    simp only [exit_loop]
    rw [ih hvr]
    exact exit_one_page_pt_ne target u s v hvu

/-- Every processed vpage ends with `is_present`, `is_referenced` and
`is_paged_out` cleared and every other PTE field unchanged. -/
theorem exit_loop_pt_mem (target v : Nat) :
    ∀ (L : List Nat), L.Nodup → v ∈ L → ∀ (s : SimState),
      ((exit_loop target L s).1.procs target).page_table v
        = { (s.procs target).page_table v with
            is_present := false, is_referenced := false, is_paged_out := false } := by
  intro L
  induction L with
  | nil => intro _ hv; exact absurd hv (List.not_mem_nil v)
  | cons u rest ih =>
    intro hnd hv s
    rcases List.mem_cons.mp hv with hvu | hvr
    · subst hvu
      have hur : v ∉ rest := (List.nodup_cons.mp hnd).1
      simp only [exit_loop]
      rw [exit_loop_pt_not_mem target v rest hur]
      exact exit_one_page_pt_self target v s
    · have hvu : v ≠ u := by
        intro h
        exact (List.nodup_cons.mp hnd).1 (h ▸ hvr)
      have hnr : rest.Nodup := (List.nodup_cons.mp hnd).2
      simp only [exit_loop]
      rw [ih hnr hvr]
      rw [exit_one_page_pt_ne target u s v hvu]

/-! ## Claim C3: which PTE bits process exit clears -/

set_option maxRecDepth 4000 in
/-- C3 (counterexample): the claim states that only present PTEs are
cleared on exit, so a paged-out absent page keeps `is_paged_out` set.  In
the state after `c 0 ; w 0 ; r 1` on a single frame, page 0 is absent with
`is_paged_out` set, yet after `e 0` its `is_paged_out` is cleared: the
clearing statement of the exit loop runs for every vpage, present or not. -/
theorem c3_exit_clears_paged_out_cex :
    ((c3cex_pre.procs 0).page_table 0).is_present = false ∧
    ((c3cex_pre.procs 0).page_table 0).is_paged_out = true ∧
    (((handle_process_exit 0 c3cex_pre).1.procs 0).page_table 0).is_paged_out = false := by
  decide

/-- C3 (amended): on a process-exit instruction, EVERY PTE of the exiting
process — present or not — has its `is_present`, `is_referenced` and
`is_paged_out` bits cleared, while `is_assigned_to_vma`, the cached VMA
attributes (`is_write_protected`, `is_file_mapped`), `is_modified` and
`frame_num` are left untouched; in particular a paged-out absent page loses
`is_paged_out` (the final page-table report prints `*` for it, not `#`). -/
theorem c3_exit_clears_all_ptes (target : Nat) (s : SimState) :
    ∀ v, v < MAX_VPAGES →
      ((handle_process_exit target s).1.procs target).page_table v
        = { (s.procs target).page_table v with
            is_present := false, is_referenced := false, is_paged_out := false } := by
  intro v hv
  have hmem : v ∈ List.range MAX_VPAGES := List.mem_range.mpr hv
  simp only [handle_process_exit]
  rw [exit_loop_pt_mem target v (List.range MAX_VPAGES) (List.nodup_range _) hmem]

/-- C3 (witness for the amended claim): concrete instance at vpage 0 of the
pre-exit state of the counterexample. -/
theorem c3_exit_clears_all_ptes_witness :
    ((handle_process_exit 0 c3cex_pre).1.procs 0).page_table 0
      = { (c3cex_pre.procs 0).page_table 0 with
          is_present := false, is_referenced := false, is_paged_out := false } :=
  c3_exit_clears_all_ptes 0 c3cex_pre 0 (by decide)

/-! ## The process-exit loop, counters and events -/

/-- `exit_one_page` never touches frames other than the processed page's. -/
theorem exit_one_page_ft_ne (target u : Nat) (s : SimState) (g : Nat)
    (hg : g ≠ ((s.procs target).page_table u).frame_num) :
    (exit_one_page target u s).1.ft g = s.ft g := by
  by_cases hpre : ((s.procs target).page_table u).is_present
  · by_cases hmf : (((s.procs target).page_table u).is_modified
        && ((s.procs target).page_table u).is_file_mapped) = true
    · simp [exit_one_page, hpre, hmf, upd_ne _ _ hg]
    · simp [exit_one_page, hpre, hmf, upd_ne _ _ hg]
  · simp [exit_one_page, hpre]

/-- On an absent page `exit_one_page` leaves the frame table alone. -/
theorem exit_one_page_ft_absent (target u : Nat) (s : SimState)
    (hpre : ((s.procs target).page_table u).is_present = false) :
    (exit_one_page target u s).1.ft = s.ft := by
  simp [exit_one_page, hpre]

/-- Counter/cost/event effect of `exit_one_page` on a present page whose
frame is owned by `(target, v)`. -/
theorem exit_one_page_spec_present (target v : Nat) (s : SimState)
    (hpre : ((s.procs target).page_table v).is_present = true)
    (hpid : (s.ft ((s.procs target).page_table v).frame_num).pid = (target : Int))
    (hvp : (s.ft ((s.procs target).page_table v).frame_num).vpage = (v : Int)) :
    ((exit_one_page target v s).1.procs target).unmaps
      = (s.procs target).unmaps + 1 ∧
    ((exit_one_page target v s).1.procs target).fouts
      = (s.procs target).fouts
        + (if ((s.procs target).page_table v).is_modified
              && ((s.procs target).page_table v).is_file_mapped then 1 else 0) ∧
    (∀ p, ((exit_one_page target v s).1.procs p).outs = (s.procs p).outs) ∧
    (exit_one_page target v s).1.cost
      = s.cost + UNMAPS_TIME
        + (if ((s.procs target).page_table v).is_modified
              && ((s.procs target).page_table v).is_file_mapped then FOUTS_TIME else 0) ∧
    (exit_one_page target v s).2
      = Event.unmapEv (target : Int) (v : Int) ::
        (if ((s.procs target).page_table v).is_modified
            && ((s.procs target).page_table v).is_file_mapped
         then [Event.foutEv] else []) := by
  by_cases hmf : (((s.procs target).page_table v).is_modified
      && ((s.procs target).page_table v).is_file_mapped) = true
  · refine ⟨?_, ?_, fun p => ?_, ?_, ?_⟩
    · simp [exit_one_page, hpre, hmf, hpid, hvp, set_pte, upd, bump_unmaps, bump_fouts]
    · simp [exit_one_page, hpre, hmf, hpid, hvp, set_pte, upd, bump_unmaps, bump_fouts]
    · by_cases hp : p = target <;>
        simp [exit_one_page, hpre, hmf, hpid, hvp, set_pte, upd, bump_unmaps,
          bump_fouts, hp]
    · simp [exit_one_page, hpre, hmf, hpid, hvp, set_pte, upd, bump_unmaps, bump_fouts]
    · simp [exit_one_page, hpre, hmf, hpid, hvp, set_pte, upd, bump_unmaps, bump_fouts]
  · refine ⟨?_, ?_, fun p => ?_, ?_, ?_⟩
    · simp [exit_one_page, hpre, hmf, hpid, hvp, set_pte, upd, bump_unmaps]
    · simp [exit_one_page, hpre, hmf, hpid, hvp, set_pte, upd, bump_unmaps]
    · by_cases hp : p = target <;>
        simp [exit_one_page, hpre, hmf, hpid, hvp, set_pte, upd, bump_unmaps, hp]
    · simp [exit_one_page, hpre, hmf, hpid, hvp, set_pte, upd, bump_unmaps]
    · simp [exit_one_page, hpre, hmf, hpid, hvp, set_pte, upd, bump_unmaps]

/-- Counter/cost/event effect of `exit_one_page` on an absent page. -/
theorem exit_one_page_spec_absent (target v : Nat) (s : SimState)
    (hpre : ((s.procs target).page_table v).is_present = false) :
    (∀ p, ((exit_one_page target v s).1.procs p).unmaps = (s.procs p).unmaps) ∧
    (∀ p, ((exit_one_page target v s).1.procs p).fouts = (s.procs p).fouts) ∧
    (∀ p, ((exit_one_page target v s).1.procs p).outs = (s.procs p).outs) ∧
    (exit_one_page target v s).1.cost = s.cost ∧
    (exit_one_page target v s).2 = [] := by
  refine ⟨?_, ?_, ?_, ?_, ?_⟩ <;>
    intros <;> simp [exit_one_page, hpre, set_pte, upd] <;>
      split_ifs with hp <;> simp [hp]

/-- Full accounting of the exit loop over a duplicate-free list of vpages
whose present pages' frames are owned by `target` at the right vpage. -/
theorem exit_loop_spec (target : Nat) :
    ∀ (L : List Nat), L.Nodup → ∀ (s : SimState),
      (∀ v ∈ L, ((s.procs target).page_table v).is_present = true →
        (s.ft ((s.procs target).page_table v).frame_num).pid = (target : Int) ∧
        (s.ft ((s.procs target).page_table v).frame_num).vpage = (v : Int)) →
      ((exit_loop target L s).1.procs target).unmaps
        = (s.procs target).unmaps
          + (L.filter (fun v => ((s.procs target).page_table v).is_present)).length ∧
      ((exit_loop target L s).1.procs target).fouts
        = (s.procs target).fouts
          + (L.filter (fun v => ((s.procs target).page_table v).is_present
              && ((s.procs target).page_table v).is_modified
              && ((s.procs target).page_table v).is_file_mapped)).length ∧
      (∀ p, ((exit_loop target L s).1.procs p).outs = (s.procs p).outs) ∧
      (exit_loop target L s).1.cost
        = s.cost
          + UNMAPS_TIME
            * (L.filter (fun v => ((s.procs target).page_table v).is_present)).length
          + FOUTS_TIME
            * (L.filter (fun v => ((s.procs target).page_table v).is_present
                && ((s.procs target).page_table v).is_modified
                && ((s.procs target).page_table v).is_file_mapped)).length ∧
      ((exit_loop target L s).2.filter is_unmap_event).length
        = (L.filter (fun v => ((s.procs target).page_table v).is_present)).length ∧
      (exit_loop target L s).2.count Event.foutEv
        = (L.filter (fun v => ((s.procs target).page_table v).is_present
            && ((s.procs target).page_table v).is_modified
            && ((s.procs target).page_table v).is_file_mapped)).length ∧
      Event.outEv ∉ (exit_loop target L s).2 ∧
      (∀ v ∈ L, ((s.procs target).page_table v).is_present = true →
        Event.unmapEv (target : Int) (v : Int) ∈ (exit_loop target L s).2) := by
  intro L
  induction L with
  | nil =>
    intro _ s _
    simp [exit_loop]
  | cons u rest ih =>
    intro hnd s hown
    obtain ⟨hur, hnr⟩ := List.nodup_cons.mp hnd
    have hpt : ∀ v ∈ rest,
        (((exit_one_page target u s).1.procs target).page_table v)
          = (s.procs target).page_table v := by
      intro v hv
      exact exit_one_page_pt_ne target u s v (fun h => hur (h ▸ hv))
    by_cases hpre : ((s.procs target).page_table u).is_present = true
    · have h_u := hown u (List.mem_cons_self u rest) hpre
      have hS := exit_one_page_spec_present target u s hpre h_u.1 h_u.2
      have hft : ∀ v ∈ rest, ((s.procs target).page_table v).is_present = true →
          (exit_one_page target u s).1.ft ((s.procs target).page_table v).frame_num
            = s.ft ((s.procs target).page_table v).frame_num := by
        intro v hv hpv
        apply exit_one_page_ft_ne
        intro hEq
        have h_v := hown v (List.mem_cons_of_mem _ hv) hpv
        have hvu : v ≠ u := fun h => hur (h ▸ hv)
        rw [hEq] at h_v
        rw [h_u.2] at h_v
        exact hvu (by exact_mod_cast h_v.2.symm)
      have hownX : ∀ v ∈ rest,
          (((exit_one_page target u s).1.procs target).page_table v).is_present = true →
          ((exit_one_page target u s).1.ft
            (((exit_one_page target u s).1.procs target).page_table v).frame_num).pid
            = (target : Int) ∧
          ((exit_one_page target u s).1.ft
            (((exit_one_page target u s).1.procs target).page_table v).frame_num).vpage
            = (v : Int) := by
        intro v hv hpv
        rw [hpt v hv] at hpv
        rw [hpt v hv, hft v hv hpv]
        exact hown v (List.mem_cons_of_mem _ hv) hpv
      have hIH := ih hnr (exit_one_page target u s).1 hownX
      have hfil1 : rest.filter
            (fun v => (((exit_one_page target u s).1.procs target).page_table v).is_present)
          = rest.filter (fun v => ((s.procs target).page_table v).is_present) :=
        List.filter_congr (fun v hv => by rw [hpt v hv])
      have hfil2 : rest.filter
            (fun v => (((exit_one_page target u s).1.procs target).page_table v).is_present
              && (((exit_one_page target u s).1.procs target).page_table v).is_modified
              && (((exit_one_page target u s).1.procs target).page_table v).is_file_mapped)
          = rest.filter (fun v => ((s.procs target).page_table v).is_present
              && ((s.procs target).page_table v).is_modified
              && ((s.procs target).page_table v).is_file_mapped) :=
        List.filter_congr (fun v hv => by rw [hpt v hv])
      rw [hfil1, hfil2] at hIH
      obtain ⟨hu1, hu2, hu3, hu4, hu5⟩ := hS
      obtain ⟨hi1, hi2, hi3, hi4, hi5, hi6, hi7, hi8⟩ := hIH
      by_cases hmf : (((s.procs target).page_table u).is_modified
          && ((s.procs target).page_table u).is_file_mapped) = true
      · refine ⟨?_, ?_, ?_, ?_, ?_, ?_, ?_, ?_⟩
        · simp only [exit_loop]
          rw [hi1, hu1]
          simp [List.filter_cons, hpre]
          omega
        · simp only [exit_loop]
          rw [hi2, hu2]
          simp [List.filter_cons, hpre, hmf]
          omega
        · intro p
          simp only [exit_loop]
          rw [hi3 p, hu3 p]
        · simp only [exit_loop]
          rw [hi4, hu4]
          simp [List.filter_cons, hpre, hmf, UNMAPS_TIME, FOUTS_TIME]
          omega
        · simp only [exit_loop]
          rw [hu5]
          simp [is_unmap_event, hmf, hi5, List.filter_cons, hpre]
        · simp only [exit_loop]
          rw [hu5]
          simp [hmf, hi6, List.filter_cons, hpre]
        · simp only [exit_loop]
          rw [hu5]
          simp [hmf, hi7]
        · intro v hv hpv
          simp only [exit_loop]
          rcases List.mem_cons.mp hv with hveq | hvr
          · subst hveq
            rw [hu5]
            simp [hmf]
          · have hpvX : (((exit_one_page target u s).1.procs target).page_table v).is_present
                = true := by rw [hpt v hvr]; exact hpv
            have := hi8 v hvr hpvX
            simp only [List.mem_append]
            right
            exact this
      · refine ⟨?_, ?_, ?_, ?_, ?_, ?_, ?_, ?_⟩
        · simp only [exit_loop]
          rw [hi1, hu1]
          simp [List.filter_cons, hpre]
          omega
        · simp only [exit_loop]
          rw [hi2, hu2]
          simp [List.filter_cons, hpre, hmf]
        · intro p
          simp only [exit_loop]
          rw [hi3 p, hu3 p]
        · simp only [exit_loop]
          rw [hi4, hu4]
          simp [List.filter_cons, hpre, hmf, UNMAPS_TIME, FOUTS_TIME]
          omega
        · simp only [exit_loop]
          rw [hu5]
          simp [is_unmap_event, hmf, hi5, List.filter_cons, hpre]
        · simp only [exit_loop]
          rw [hu5]
          simp [hmf, hi6, List.filter_cons, hpre]
        · simp only [exit_loop]
          rw [hu5]
          simp [hmf, hi7]
        · intro v hv hpv
          simp only [exit_loop]
          rcases List.mem_cons.mp hv with hveq | hvr
          · subst hveq
            rw [hu5]
            simp [hmf]
          · have hpvX : (((exit_one_page target u s).1.procs target).page_table v).is_present
                = true := by rw [hpt v hvr]; exact hpv
            have := hi8 v hvr hpvX
            simp only [List.mem_append]
            right
            exact this
    · have hpre' : ((s.procs target).page_table u).is_present = false :=
        Bool.not_eq_true _ ▸ Bool.eq_false_iff.mpr hpre
      have hS := exit_one_page_spec_absent target u s hpre'
      have hft : (exit_one_page target u s).1.ft = s.ft :=
        exit_one_page_ft_absent target u s hpre'
      have hownX : ∀ v ∈ rest,
          (((exit_one_page target u s).1.procs target).page_table v).is_present = true →
          ((exit_one_page target u s).1.ft
            (((exit_one_page target u s).1.procs target).page_table v).frame_num).pid
            = (target : Int) ∧
          ((exit_one_page target u s).1.ft
            (((exit_one_page target u s).1.procs target).page_table v).frame_num).vpage
            = (v : Int) := by
        intro v hv hpv
        rw [hpt v hv] at hpv
        rw [hpt v hv, hft]
        exact hown v (List.mem_cons_of_mem _ hv) hpv
      have hIH := ih hnr (exit_one_page target u s).1 hownX
      have hfil1 : rest.filter
            (fun v => (((exit_one_page target u s).1.procs target).page_table v).is_present)
          = rest.filter (fun v => ((s.procs target).page_table v).is_present) :=
        List.filter_congr (fun v hv => by rw [hpt v hv])
      have hfil2 : rest.filter
            (fun v => (((exit_one_page target u s).1.procs target).page_table v).is_present
              && (((exit_one_page target u s).1.procs target).page_table v).is_modified
              && (((exit_one_page target u s).1.procs target).page_table v).is_file_mapped)
          = rest.filter (fun v => ((s.procs target).page_table v).is_present
              && ((s.procs target).page_table v).is_modified
              && ((s.procs target).page_table v).is_file_mapped) :=
        List.filter_congr (fun v hv => by rw [hpt v hv])
      rw [hfil1, hfil2] at hIH
      obtain ⟨hu1, hu2, hu3, hu4, hu5⟩ := hS
      obtain ⟨hi1, hi2, hi3, hi4, hi5, hi6, hi7, hi8⟩ := hIH
      refine ⟨?_, ?_, ?_, ?_, ?_, ?_, ?_, ?_⟩
      · simp only [exit_loop]
        rw [hi1, hu1]
        simp [List.filter_cons, hpre']
      · simp only [exit_loop]
        rw [hi2, hu2]
        simp [List.filter_cons, hpre']
      · intro p
        simp only [exit_loop]
        rw [hi3 p, hu3 p]
      · simp only [exit_loop]
        rw [hi4, hu4]
        simp [List.filter_cons, hpre']
      · simp only [exit_loop]
        rw [hu5]
        simp [hi5, List.filter_cons, hpre']
      · simp only [exit_loop]
        rw [hu5]
        simp [hi6, List.filter_cons, hpre']
      · simp only [exit_loop]
        rw [hu5]
        simp [hi7]
      · intro v hv hpv
        simp only [exit_loop]
        rcases List.mem_cons.mp hv with hveq | hvr
        · subst hveq
          rw [hpre'] at hpv
          exact absurd hpv (by simp)
        · have hpvX : (((exit_one_page target u s).1.procs target).page_table v).is_present
              = true := by rw [hpt v hvr]; exact hpv
          have := hi8 v hvr hpvX
          rw [hu5]
          simpa using this

/-! ## Claim C1: process exit emits UNMAP per present page, FOUT only for
dirty file-mapped pages, and never OUT -/

/-- C1: on a process-exit instruction, every present vpage of the exiting
process gets an UNMAP event (UNMAPS_TIME = 410 per page, `unmaps` grows by
the number of present pages of that process), a FOUT event is produced
exactly for the pages that are both modified and file-mapped
(FOUTS_TIME = 2800 each, `fouts` grows by their number), and no OUT event
is ever emitted: every process's `outs` counter is unchanged and no PTE
ends with `is_paged_out` set.  The ownership hypothesis (each present
page's frame records this process and vpage) is the frame-table invariant
of reachable states. -/
theorem c1_exit_unmap_fout_no_out (target : Nat) (s : SimState)
    (hown : ∀ v, v < MAX_VPAGES → ((s.procs target).page_table v).is_present = true →
      (s.ft ((s.procs target).page_table v).frame_num).pid = (target : Int) ∧
      (s.ft ((s.procs target).page_table v).frame_num).vpage = (v : Int)) :
    (∀ v, v < MAX_VPAGES → ((s.procs target).page_table v).is_present = true →
      Event.unmapEv (target : Int) (v : Int) ∈ (handle_process_exit target s).2) ∧
    ((handle_process_exit target s).2.filter is_unmap_event).length
      = exit_present_count s target ∧
    ((handle_process_exit target s).1.procs target).unmaps
      = (s.procs target).unmaps + exit_present_count s target ∧
    (handle_process_exit target s).2.count Event.foutEv = exit_fout_count s target ∧
    ((handle_process_exit target s).1.procs target).fouts
      = (s.procs target).fouts + exit_fout_count s target ∧
    (handle_process_exit target s).1.cost
      = s.cost + PROC_EXIT_TIME + UNMAPS_TIME * exit_present_count s target
        + FOUTS_TIME * exit_fout_count s target ∧
    Event.outEv ∉ (handle_process_exit target s).2 ∧
    (∀ p, ((handle_process_exit target s).1.procs p).outs = (s.procs p).outs) ∧
    (∀ v, v < MAX_VPAGES →
      (((handle_process_exit target s).1.procs target).page_table v).is_paged_out
        = false) := by
  have hspec := exit_loop_spec target (List.range MAX_VPAGES) (List.nodup_range _)
    { s with procExits := s.procExits + 1, cost := s.cost + PROC_EXIT_TIME }
    (fun v hv hp => hown v (List.mem_range.mp hv) hp)
  obtain ⟨h1, h2, h3, h4, h5, h6, h7, h8⟩ := hspec
  refine ⟨?_, ?_, ?_, ?_, ?_, ?_, ?_, ?_, ?_⟩
  · intro v hv hp
    simp only [handle_process_exit]
    exact List.mem_cons_of_mem _ (h8 v (List.mem_range.mpr hv) hp)
  · simp only [handle_process_exit]
    simpa [is_unmap_event, exit_present_count] using h5
  · simpa [handle_process_exit, exit_present_count] using h1
  · simp only [handle_process_exit]
    simpa [List.count_cons, exit_fout_count] using h6
  · simpa [handle_process_exit, exit_fout_count] using h2
  · simpa [handle_process_exit, exit_present_count, exit_fout_count] using h4
  · simp only [handle_process_exit]
    intro hmem
    rcases List.mem_cons.mp hmem with h | h
    · exact absurd h (by simp)
    · exact h7 h
  · intro p
    simpa [handle_process_exit] using h3 p
  · intro v hv
    have hm : v ∈ List.range MAX_VPAGES := List.mem_range.mpr hv
    simp only [handle_process_exit]
    rw [exit_loop_pt_mem target v (List.range MAX_VPAGES) (List.nodup_range _) hm]

/-- C1 (witness): at the concrete state with page 0 dirty file-mapped and
page 5 dirty anonymous, exit emits UNMAP for both, one FOUT, no OUT. -/
theorem c1_exit_unmap_fout_no_out_witness :
    Event.unmapEv 0 0 ∈ (handle_process_exit 0 c1wit_state).2 ∧
    Event.unmapEv 0 5 ∈ (handle_process_exit 0 c1wit_state).2 ∧
    Event.outEv ∉ (handle_process_exit 0 c1wit_state).2 ∧
    (handle_process_exit 0 c1wit_state).2.count Event.foutEv
      = exit_fout_count c1wit_state 0 ∧
    ((handle_process_exit 0 c1wit_state).1.procs 0).outs = (c1wit_state.procs 0).outs := by
  have h := c1_exit_unmap_fout_no_out 0 c1wit_state (by decide)
  exact ⟨h.1 0 (by decide) (by decide), h.1 5 (by decide) (by decide),
    h.2.2.2.2.2.2.1, h.2.2.2.1, h.2.2.2.2.2.2.2.1 0⟩

/-! ## Claim C8: the hand advances one past the victim -/

/-- C8: for each of the FIFO, Clock, NRU, Aging and Working-Set pagers, if
the selected victim has frame index `v` then the pager's hand immediately
after the call equals `(v + 1) % NUM_FRAMES`. -/
theorem c8_hand_advances_past_victim (n hand lastReset insCounter : Nat)
    (ft : Nat → Frame) (procs : Nat → Process) :
    (fifo_select hand n).2 = ((fifo_select hand n).1 + 1) % n ∧
    (clock_select hand n ft procs).hand
      = ((clock_select hand n ft procs).victim + 1) % n ∧
    (nru_select hand lastReset insCounter n ft procs).hand
      = ((nru_select hand lastReset insCounter n ft procs).victim + 1) % n ∧
    (aging_select hand n ft procs).hand
      = ((aging_select hand n ft procs).victim + 1) % n ∧
    (ws_select hand insCounter n ft procs).hand
      = ((ws_select hand insCounter n ft procs).victim + 1) % n :=
  ⟨rfl, rfl, rfl, rfl, rfl⟩

/-! ## Walk-order facts shared by the hand-based pagers -/

theorem add_mod_cancel_of_lt (a n i j : Nat) (hi : i < n) (hj : j < n)
    (h : (a + i) % n = (a + j) % n) : i = j := by
  have hn : 0 < n := lt_of_le_of_lt (Nat.zero_le i) hi
  rw [Nat.add_mod a i n, Nat.add_mod a j n, Nat.mod_eq_of_lt hi, Nat.mod_eq_of_lt hj] at h
  have hkn : a % n < n := Nat.mod_lt _ hn
  have key : ∀ x, x < n → (a % n + x) % n
      = if a % n + x < n then a % n + x else a % n + x - n := by
    intro x hx
    by_cases hc : a % n + x < n
    · rw [if_pos hc, Nat.mod_eq_of_lt hc]
    · rw [if_neg hc, Nat.mod_eq_sub_mod (le_of_not_lt hc)]
      exact Nat.mod_eq_of_lt (by omega)
  rw [key i hi, key j hj] at h
  split_ifs at h <;> omega

theorem walk_order_length (hand n : Nat) : (walk_order hand n).length = n := by
  simp [walk_order]

theorem walk_order_lt (hand n x : Nat) (hx : x ∈ walk_order hand n) : x < n := by
  simp only [walk_order, List.mem_map, List.mem_range] at hx
  obtain ⟨i, hi, rfl⟩ := hx
  exact Nat.mod_lt _ (lt_of_le_of_lt (Nat.zero_le i) hi)

theorem walk_order_nodup (hand n : Nat) : (walk_order hand n).Nodup := by
  apply List.Nodup.map_on
  · intro i hi j hj hij
    exact add_mod_cancel_of_lt hand n i j (List.mem_range.mp hi) (List.mem_range.mp hj) hij
  · exact List.nodup_range n

theorem walk_order_mem (hand n x : Nat) (hx : x < n) : x ∈ walk_order hand n := by
  have hsub : walk_order hand n ⊆ List.range n := by
    intro y hy
    exact List.mem_range.mpr (walk_order_lt hand n y hy)
  have hsp := List.subperm_of_subset (walk_order_nodup hand n) hsub
  have hperm := hsp.perm_of_length_le (by rw [walk_order_length, List.length_range])
  exact hperm.symm.subset (List.mem_range.mpr hx)

theorem walk_order_ne_nil (hand n : Nat) (hn : 0 < n) : walk_order hand n ≠ [] := by
  intro h
  have := walk_order_length hand n
  rw [h] at this
  simp at this
  omega

/-! ## Small reading lemmas for `set_pte` at owner keys -/

theorem set_pte_read_ne (procs : Nat → Process) (a b : Nat) (pte : Pte) (p v : Nat)
    (h : (p, v) ≠ (a, b)) :
    ((set_pte procs a b pte) p).page_table v = (procs p).page_table v := by
  by_cases hp : p = a
  · subst hp
    have hv : v ≠ b := by
      intro hv
      exact h (by rw [hv])
    simp [set_pte, upd, hv]
  · simp [set_pte, upd, hp]

theorem get_class_index_le_three (pte : Pte) : get_class_index pte ≤ 3 := by
  by_cases h1 : pte.is_referenced <;> by_cases h2 : pte.is_modified <;>
    simp [get_class_index, h1, h2]

theorem list_find?_congr {α : Type} (p q : α → Bool) :
    ∀ (l : List α), (∀ x ∈ l, p x = q x) → l.find? p = l.find? q := by
  intro l
  induction l with
  | nil => intro _; simp
  | cons a t ih =>
    intro h
    by_cases hpa : p a = true
    · rw [List.find?_cons_of_pos _ hpa,
        List.find?_cons_of_pos _ (by rw [← h a (List.mem_cons_self a t)]; exact hpa)]
    · rw [List.find?_cons_of_neg _ hpa,
        List.find?_cons_of_neg _ (by rw [← h a (List.mem_cons_self a t)]; exact hpa),
        ih (fun x hx => h x (List.mem_cons_of_mem _ hx))]

/-! ## Claim C6: the NRU scan -/

/-- Without a reset the NRU scan is pure: it never writes the page tables,
it breaks exactly at the first class-0 frame, and (when no class-0 frame
exists) `class_frame_map` records the first frame of each class. -/
theorem nru_loop_no_reset (ft : Nat → Frame) :
    ∀ (L : List Nat) (cmap : Nat → Option Nat) (procs : Nat → Process),
      (nru_loop ft false L cmap procs).2.1 = procs ∧
      (nru_loop ft false L cmap procs).2.2
        = L.find? (fun idx => nru_class_of ft procs idx == 0) ∧
      (L.find? (fun idx => nru_class_of ft procs idx == 0) = none →
        ∀ c, (nru_loop ft false L cmap procs).1 c
          = match cmap c with
            | some x => some x
            | none => L.find? (fun idx => nru_class_of ft procs idx == c)) := by
  intro L
  induction L with
  | nil =>
    intro cmap procs
    refine ⟨rfl, by simp [nru_loop], ?_⟩
    intro _ c
    cases hc : cmap c <;> simp [nru_loop, hc]
  | cons idx rest ih =>
    intro cmap procs
    by_cases hcls : get_class_index (reverse_map ft procs idx) = 0
    · refine ⟨?_, ?_, ?_⟩
      · simp [nru_loop, hcls]
      · rw [List.find?_cons_of_pos _ (by simp [nru_class_of, hcls])]
        simp [nru_loop, hcls]
      · intro hnone
        rw [List.find?_cons_of_pos _ (by simp [nru_class_of, hcls])] at hnone
        exact absurd hnone (by simp)
    · have hred : nru_loop ft false (idx :: rest) cmap procs
          = nru_loop ft false rest
            (match cmap (get_class_index (reverse_map ft procs idx)) with
              | none => upd cmap (get_class_index (reverse_map ft procs idx))
                  (some idx)
              | some _ => cmap) procs := by
        simp [nru_loop, hcls]
      obtain ⟨ihA, ihB, ihC⟩ := ih (match cmap (get_class_index (reverse_map ft procs idx)) with
        | none => upd cmap (get_class_index (reverse_map ft procs idx)) (some idx)
        | some _ => cmap) procs
      refine ⟨?_, ?_, ?_⟩
      · rw [hred, ihA]
      · rw [hred, ihB, List.find?_cons_of_neg _ (by simp [nru_class_of, hcls])]
      · intro hnone
        rw [List.find?_cons_of_neg _ (by simp [nru_class_of, hcls])] at hnone
        intro c
        rw [hred, ihC hnone c]
        by_cases hc : c = get_class_index (reverse_map ft procs idx)
        · rw [hc]
          cases hcm : cmap (get_class_index (reverse_map ft procs idx)) with
          | some x => simp [hcm]
          | none =>
            simp only [hcm, upd_self]
            rw [List.find?_cons_of_pos _ (by simp [nru_class_of])]
        · have hpredc : (fun i => nru_class_of ft procs i == c) idx = false := by
            simp [nru_class_of]
            exact fun h => hc h.symm
          rw [List.find?_cons_of_neg _ (by simp [hpredc])]
          cases hcm : cmap (get_class_index (reverse_map ft procs idx)) with
          | some x => simp [hcm]
          | none =>
            simp only [hcm]
            rw [upd_ne _ _ hc]

/-- With a reset the NRU scan never breaks, records classes as read before
any clearing (distinct owners keep the reads независимые), clears every
visited owner PTE's R bit and touches no other page-table slot. -/
theorem nru_loop_reset (ft : Nat → Frame) :
    ∀ (L : List Nat),
      List.Pairwise (fun i j => owner_key ft i ≠ owner_key ft j) L →
      ∀ (cmap : Nat → Option Nat) (procs : Nat → Process),
      (nru_loop ft true L cmap procs).2.2 = none ∧
      (∀ c, (nru_loop ft true L cmap procs).1 c
        = match cmap c with
          | some x => some x
          | none => L.find? (fun idx => nru_class_of ft procs idx == c)) ∧
      (∀ idx ∈ L, reverse_map ft (nru_loop ft true L cmap procs).2.1 idx
        = { reverse_map ft procs idx with is_referenced := false }) ∧
      (∀ p v : Nat, (∀ idx ∈ L, owner_key ft idx ≠ (p, v)) →
        ((nru_loop ft true L cmap procs).2.1 p).page_table v
          = (procs p).page_table v) := by
  intro L
  induction L with
  | nil =>
    intro _ cmap procs
    refine ⟨rfl, ?_, by simp, fun p v _ => rfl⟩
    intro c
    cases hc : cmap c <;> simp [nru_loop, hc]
  | cons idx rest ih =>
    intro hpw cmap procs
    obtain ⟨hhd, hrest⟩ := List.pairwise_cons.mp hpw
    have hred : nru_loop ft true (idx :: rest) cmap procs
        = nru_loop ft true rest
          (match cmap (get_class_index (reverse_map ft procs idx)) with
            | none => upd cmap (get_class_index (reverse_map ft procs idx)) (some idx)
            | some _ => cmap)
          (write_owner_pte ft procs idx
            { reverse_map ft procs idx with is_referenced := false }) := by
      simp [nru_loop]
    have hP' : ∀ j ∈ rest,
        reverse_map ft (write_owner_pte ft procs idx
          { reverse_map ft procs idx with is_referenced := false }) j
          = reverse_map ft procs j := by
      intro j hj
      have hkey : owner_key ft j ≠ owner_key ft idx := fun h => (hhd j hj) h.symm
      simp only [reverse_map, write_owner_pte]
      exact set_pte_read_ne procs _ _ _ _ _ (by simpa [owner_key, Prod.ext_iff] using hkey)
    obtain ⟨ihA, ihB, ihC, ihD⟩ := ih hrest
      (match cmap (get_class_index (reverse_map ft procs idx)) with
        | none => upd cmap (get_class_index (reverse_map ft procs idx)) (some idx)
        | some _ => cmap)
      (write_owner_pte ft procs idx
        { reverse_map ft procs idx with is_referenced := false })
    refine ⟨?_, ?_, ?_, ?_⟩
    · rw [hred, ihA]
    · intro c
      rw [hred, ihB c]
      have hfind : rest.find? (fun j => nru_class_of ft
            (write_owner_pte ft procs idx
              { reverse_map ft procs idx with is_referenced := false }) j == c)
          = rest.find? (fun j => nru_class_of ft procs j == c) :=
        list_find?_congr _ _ rest (fun j hj => by simp [nru_class_of, hP' j hj])
      rw [hfind]
      by_cases hc : c = get_class_index (reverse_map ft procs idx)
      · rw [hc]
        cases hcm : cmap (get_class_index (reverse_map ft procs idx)) with
        | some x => simp [hcm]
        | none =>
          simp only [hcm, upd_self]
          rw [List.find?_cons_of_pos _ (by simp [nru_class_of])]
      · have hpredc : (fun i => nru_class_of ft procs i == c) idx = false := by
          simp [nru_class_of]
          exact fun h => hc h.symm
        rw [List.find?_cons_of_neg _ (by simp [hpredc])]
        cases hcm : cmap (get_class_index (reverse_map ft procs idx)) with
        | some x => simp [hcm]
        | none =>
          simp only [hcm]
          rw [upd_ne _ _ hc]
    · intro j hj
      rcases List.mem_cons.mp hj with hje | hjr
      · subst hje
        have hslot := ihD ((ft j).pid).toNat ((ft j).vpage).toNat
          (fun k hk h => hhd k hk h.symm)
        simp only [reverse_map]
        rw [hred, hslot]
        exact set_pte_page_table_self procs _ _ _
      · rw [hred]
        rw [ihC j hjr, hP' j hjr]
    · intro p v hpv
      rw [hred, ihD p v (fun k hk => hpv k (List.mem_cons_of_mem _ hk))]
      simp only [write_owner_pte]
      exact set_pte_read_ne procs _ _ _ _ _
        (fun h => hpv idx (List.mem_cons_self idx rest) h.symm)

/-- When `class_frame_map` records the first frame of each class over the
walk, the fall-through scan picks the first frame of the lowest non-empty
class. -/
theorem nru_fallback_spec (ft : Nat → Frame) (procs : Nat → Process) (hand n : Nat)
    (hn : 0 < n) (cmap : Nat → Option Nat)
    (hcm : ∀ c, cmap c
      = (walk_order hand n).find? (fun idx => nru_class_of ft procs idx == c)) :
    some ((nru_first_class cmap).getD 0) = nru_spec_victim ft procs hand n := by
  cases hF0 : (walk_order hand n).find? (fun idx => nru_class_of ft procs idx == 0) with
  | some x =>
    have hany0 : (walk_order hand n).any (fun idx => nru_class_of ft procs idx == 0)
        = true := by
      refine List.any_eq_true.mpr ⟨x, List.mem_of_find?_eq_some hF0, ?_⟩
      have hps := List.find?_some hF0
      simpa using hps
    have hm : nru_lowest_class ft procs hand n = 0 := by
      simp [nru_lowest_class, hany0]
    simp [nru_first_class, nru_spec_victim, hcm, hF0, hm]
  | none =>
    have hall0 := List.find?_eq_none.mp hF0
    have hany0 : (walk_order hand n).any (fun idx => nru_class_of ft procs idx == 0)
        = false := List.any_eq_false.mpr hall0
    cases hF1 : (walk_order hand n).find? (fun idx => nru_class_of ft procs idx == 1) with
    | some y =>
      have hany1 : (walk_order hand n).any (fun idx => nru_class_of ft procs idx == 1)
          = true := by
        refine List.any_eq_true.mpr ⟨y, List.mem_of_find?_eq_some hF1, ?_⟩
        have hps := List.find?_some hF1
        simpa using hps
      have hm : nru_lowest_class ft procs hand n = 1 := by
        simp [nru_lowest_class, hany0, hany1]
      simp [nru_first_class, nru_spec_victim, hcm, hF0, hF1, hm]
    | none =>
      have hall1 := List.find?_eq_none.mp hF1
      have hany1 : (walk_order hand n).any (fun idx => nru_class_of ft procs idx == 1)
          = false := List.any_eq_false.mpr hall1
      cases hF2 : (walk_order hand n).find?
          (fun idx => nru_class_of ft procs idx == 2) with
      | some z =>
        have hany2 : (walk_order hand n).any (fun idx => nru_class_of ft procs idx == 2)
            = true := by
          refine List.any_eq_true.mpr ⟨z, List.mem_of_find?_eq_some hF2, ?_⟩
          have hps := List.find?_some hF2
          simpa using hps
        have hm : nru_lowest_class ft procs hand n = 2 := by
          simp [nru_lowest_class, hany0, hany1, hany2]
        simp [nru_first_class, nru_spec_victim, hcm, hF0, hF1, hF2, hm]
      | none =>
        have hall2 := List.find?_eq_none.mp hF2
        have hany2 : (walk_order hand n).any
            (fun idx => nru_class_of ft procs idx == 2) = false :=
          List.any_eq_false.mpr hall2
        have hm : nru_lowest_class ft procs hand n = 3 := by
          simp [nru_lowest_class, hany0, hany1, hany2]
        obtain ⟨a, t, hW⟩ : ∃ a t, walk_order hand n = a :: t := by
          cases hWc : walk_order hand n with
          | nil => exact absurd hWc (walk_order_ne_nil hand n hn)
          | cons a t => exact ⟨a, t, rfl⟩
        have hmem : a ∈ walk_order hand n := by rw [hW]; exact List.mem_cons_self a t
        have hcla : nru_class_of ft procs a = 3 := by
          have h0 := hall0 a hmem
          have h1 := hall1 a hmem
          have h2 := hall2 a hmem
          have hle := get_class_index_le_three (reverse_map ft procs a)
          simp only [beq_iff_eq] at h0 h1 h2
          have hle' : nru_class_of ft procs a ≤ 3 := hle
          omega
        have hF3 : (walk_order hand n).find? (fun idx => nru_class_of ft procs idx == 3)
            = some a := by
          rw [hW]
          exact List.find?_cons_of_pos _ (by simp [hcla])
        simp [nru_first_class, nru_spec_victim, hcm, hF0, hF1, hF2, hF3, hm]

/-- C6: one NRU victim selection.  A reset fires iff
`INS_COUNTER ≥ last_reset + 48`.  When it fires the walk visits all
`NUM_FRAMES` frames, clears every frame's owner R bit and sets
`last_reset := INS_COUNTER`; when it does not fire the page tables are
untouched (the walk may stop at the first class-0 frame) and `last_reset`
is kept.  In both cases the victim is the unique first frame in walk order
from `hand` belonging to the lowest non-empty class, the classes `2*R + M`
being those read before any clearing. -/
theorem c6_nru_select_spec (hand lastReset insCounter n : Nat) (ft : Nat → Frame)
    (procs : Nat → Process) (hn : 0 < n) (hdist : owners_distinct ft n) :
    ((insCounter ≥ lastReset + NRU_RESET_COUNT) →
      (nru_select hand lastReset insCounter n ft procs).lastReset = insCounter ∧
      ∀ idx, idx < n →
        reverse_map ft (nru_select hand lastReset insCounter n ft procs).procs idx
          = { reverse_map ft procs idx with is_referenced := false }) ∧
    (¬(insCounter ≥ lastReset + NRU_RESET_COUNT) →
      (nru_select hand lastReset insCounter n ft procs).lastReset = lastReset ∧
      (nru_select hand lastReset insCounter n ft procs).procs = procs) ∧
    some (nru_select hand lastReset insCounter n ft procs).victim
      = nru_spec_victim ft procs hand n := by
  have hnd : (walk_order hand n).Nodup := walk_order_nodup hand n
  have hpw : List.Pairwise (fun i j => owner_key ft i ≠ owner_key ft j)
      (walk_order hand n) := by
    refine List.Pairwise.imp_of_mem ?_ hnd
    intro a b ha hb hne
    exact hdist a (walk_order_lt hand n a ha) b (walk_order_lt hand n b hb) hne
  by_cases hres : insCounter ≥ lastReset + NRU_RESET_COUNT
  · have hdec : decide (insCounter ≥ lastReset + NRU_RESET_COUNT) = true :=
      decide_eq_true hres
    obtain ⟨hA, hB, hC, hD⟩ := nru_loop_reset ft (walk_order hand n) hpw
      (fun _ => none) procs
    refine ⟨fun _ => ⟨?_, ?_⟩, fun h => absurd hres h, ?_⟩
    · simp [nru_select, hdec]
    · intro idx hidx
      have : (nru_select hand lastReset insCounter n ft procs).procs
          = (nru_loop ft true (walk_order hand n) (fun _ => none) procs).2.1 := by
        simp [nru_select, hdec]
      rw [this]
      exact hC idx (walk_order_mem hand n idx hidx)
    · have hcm : ∀ c, (nru_loop ft true (walk_order hand n) (fun _ => none) procs).1 c
          = (walk_order hand n).find? (fun idx => nru_class_of ft procs idx == c) := by
        intro c
        rw [hB c]
      have hv : (nru_select hand lastReset insCounter n ft procs).victim
          = (nru_first_class
              (nru_loop ft true (walk_order hand n) (fun _ => none) procs).1).getD 0 := by
        simp [nru_select, hdec, hA]
      rw [hv]
      exact nru_fallback_spec ft procs hand n hn _ hcm
  · have hdec : decide (insCounter ≥ lastReset + NRU_RESET_COUNT) = false :=
      decide_eq_false hres
    obtain ⟨hA, hB, hC⟩ := nru_loop_no_reset ft (walk_order hand n)
      (fun _ => none) procs
    refine ⟨fun h => absurd h hres, fun _ => ⟨?_, ?_⟩, ?_⟩
    · simp [nru_select, hdec]
    · have : (nru_select hand lastReset insCounter n ft procs).procs
          = (nru_loop ft false (walk_order hand n) (fun _ => none) procs).2.1 := by
        simp [nru_select, hdec]
      rw [this, hA]
    · cases hF0 : (walk_order hand n).find?
          (fun idx => nru_class_of ft procs idx == 0) with
      | some x =>
        have hv : (nru_select hand lastReset insCounter n ft procs).victim = x := by
          simp [nru_select, hdec, hB, hF0]
        have hany0 : (walk_order hand n).any
            (fun idx => nru_class_of ft procs idx == 0) = true := by
          refine List.any_eq_true.mpr ⟨x, List.mem_of_find?_eq_some hF0, ?_⟩
          have hps := List.find?_some hF0
          simpa using hps
        have hm : nru_lowest_class ft procs hand n = 0 := by
          simp [nru_lowest_class, hany0]
        rw [hv]
        simp [nru_spec_victim, hm, hF0]
      | none =>
        have hcm : ∀ c,
            (nru_loop ft false (walk_order hand n) (fun _ => none) procs).1 c
              = (walk_order hand n).find?
                  (fun idx => nru_class_of ft procs idx == c) := by
          intro c
          rw [hC hF0 c]
        have hv : (nru_select hand lastReset insCounter n ft procs).victim
            = (nru_first_class
                (nru_loop ft false (walk_order hand n) (fun _ => none) procs).1).getD
                0 := by
          simp [nru_select, hdec, hB, hF0]
        rw [hv]
        exact nru_fallback_spec ft procs hand n hn _ hcm

/-- C6 (witness): two frames owned by process 0, frame 0's page referenced
(class 2), frame 1's page idle (class 0); with no reset due the selection
picks frame 1, the first frame of the lowest non-empty class. -/
theorem c6_nru_select_spec_witness :
    some (nru_select 0 0 0 2 c6ft c6procs).victim = nru_spec_victim c6ft c6procs 0 2 ∧
    (nru_select 0 0 0 2 c6ft c6procs).victim = 1 := by
  refine ⟨(c6_nru_select_spec 0 0 0 2 c6ft c6procs (by decide)
    (by unfold owners_distinct; decide)).2.2, ?_⟩
  decide

/-! ## Claim C7: the Working-Set scan -/

theorem list_min_nat_le (l : List Nat) (d : Nat) : list_min_nat l d ≤ d := by
  induction l with
  | nil => exact le_refl d
  | cons a t ih => exact le_trans (Nat.min_le_right a (list_min_nat t d)) ih

theorem list_min_nat_min (l : List Nat) (a d : Nat) :
    min a (list_min_nat l d) = list_min_nat l (min a d) := by
  induction l with
  | nil => rfl
  | cons c t ih =>
    show min a (min c (list_min_nat t d)) = min c (list_min_nat t (min a d))
    rw [← ih, Nat.min_left_comm]

/-- The running argmin picks the first element of `best :: L` attaining the
minimum of the value map. -/
theorem ws_argmin_spec (ic : Nat) (ft : Nat → Frame) (procs : Nat → Process) :
    ∀ (L : List Nat) (best : Nat),
      some (ws_argmin ic ft procs L best)
        = (best :: L).find? (fun idx =>
            ws_final_age ic ft procs idx
              == list_min_nat (L.map (ws_final_age ic ft procs))
                  (ws_final_age ic ft procs best)) := by
  intro L
  induction L with
  | nil =>
    intro best
    rw [List.find?_cons_of_pos _ (by simp [list_min_nat])]
    rfl
  | cons idx rest ih =>
    intro best
    have hMcons : list_min_nat ((idx :: rest).map (ws_final_age ic ft procs))
          (ws_final_age ic ft procs best)
        = min (ws_final_age ic ft procs idx)
            (list_min_nat (rest.map (ws_final_age ic ft procs))
              (ws_final_age ic ft procs best)) := rfl
    have hM : list_min_nat ((idx :: rest).map (ws_final_age ic ft procs))
          (ws_final_age ic ft procs best)
        = list_min_nat (rest.map (ws_final_age ic ft procs))
            (ws_final_age ic ft procs
              (if ws_final_age ic ft procs idx < ws_final_age ic ft procs best
               then idx else best)) := by
      rw [hMcons, list_min_nat_min]
      by_cases hlt : ws_final_age ic ft procs idx < ws_final_age ic ft procs best
      · rw [if_pos hlt, Nat.min_eq_left (le_of_lt hlt)]
      · rw [if_neg hlt, Nat.min_eq_right (le_of_not_lt hlt)]
    have hMle : list_min_nat ((idx :: rest).map (ws_final_age ic ft procs))
          (ws_final_age ic ft procs best) ≤ ws_final_age ic ft procs best := by
      rw [hMcons]
      exact le_trans (Nat.min_le_right _ _) (list_min_nat_le _ _)
    have hMleidx : list_min_nat ((idx :: rest).map (ws_final_age ic ft procs))
          (ws_final_age ic ft procs best) ≤ ws_final_age ic ft procs idx := by
      rw [hMcons]
      exact Nat.min_le_left _ _
    have hstep : ws_argmin ic ft procs (idx :: rest) best
        = ws_argmin ic ft procs rest
            (if ws_final_age ic ft procs idx < ws_final_age ic ft procs best
             then idx else best) := rfl
    rw [hstep, ih]
    by_cases hlt : ws_final_age ic ft procs idx < ws_final_age ic ft procs best
    · rw [← hM, if_pos hlt]
      symm
      apply List.find?_cons_of_neg
      simp only [beq_iff_eq]
      intro h
      omega
    · rw [← hM, if_neg hlt]
      by_cases hb : ws_final_age ic ft procs best
          = list_min_nat ((idx :: rest).map (ws_final_age ic ft procs))
              (ws_final_age ic ft procs best)
      · rw [List.find?_cons_of_pos _ (by simp only [beq_iff_eq]; exact hb)]
        symm
        rw [List.find?_cons_of_pos _ (by simp only [beq_iff_eq]; exact hb)]
      · rw [List.find?_cons_of_neg _ (by simp only [beq_iff_eq]; exact hb)]
        symm
        rw [List.find?_cons_of_neg _ (by simp only [beq_iff_eq]; exact hb)]
        rw [List.find?_cons_of_neg]
        simp only [beq_iff_eq]
        intro h
        omega

/-- `ws_argmin` only depends on the post-visit ages of the candidates. -/
theorem ws_argmin_congr (ic : Nat) (ft ft' : Nat → Frame)
    (procs procs' : Nat → Process) :
    ∀ (L : List Nat) (best : Nat),
      (∀ x ∈ L, ws_final_age ic ft procs x = ws_final_age ic ft' procs' x) →
      ws_final_age ic ft procs best = ws_final_age ic ft' procs' best →
      ws_argmin ic ft procs L best = ws_argmin ic ft' procs' L best := by
  intro L
  induction L with
  | nil => intro best _ _; rfl
  | cons idx rest ih =>
    intro best hL hb
    show ws_argmin ic ft procs rest _ = ws_argmin ic ft' procs' rest _
    have hidx := hL idx (List.mem_cons_self idx rest)
    have hrest : ∀ x ∈ rest, ws_final_age ic ft procs x = ws_final_age ic ft' procs' x :=
      fun x hx => hL x (List.mem_cons_of_mem _ hx)
    rw [hidx, hb]
    by_cases hlt : ws_final_age ic ft' procs' idx < ws_final_age ic ft' procs' best
    · rw [if_pos hlt]
      exact ih _ hrest hidx
    · rw [if_neg hlt]
      exact ih _ hrest hb

/-- Updating a frame's age changes no owner key and no owner PTE. -/
theorem reverse_map_age_upd (ft : Nat → Frame) (procs : Nat → Process)
    (u a idx : Nat) :
    reverse_map (upd ft u { ft u with age := a }) procs idx
      = reverse_map ft procs idx := by
  by_cases h : idx = u <;> simp [reverse_map, upd, h]

theorem owner_key_age_upd (ft : Nat → Frame) (u a idx : Nat) :
    owner_key (upd ft u { ft u with age := a }) idx = owner_key ft idx := by
  by_cases h : idx = u <;> simp [owner_key, upd, h]

theorem reverse_map_touch_ft (ic : Nat) (ft : Nat → Frame)
    (procs2 : Nat → Process) (u idx : Nat) :
    reverse_map (ws_touch_ft ic ft u) procs2 idx = reverse_map ft procs2 idx :=
  reverse_map_age_upd ft procs2 u ic idx

theorem owner_key_touch_ft (ic : Nat) (ft : Nat → Frame) (u idx : Nat) :
    owner_key (ws_touch_ft ic ft u) idx = owner_key ft idx :=
  owner_key_age_upd ft u ic idx

theorem touch_ft_ne (ic : Nat) (ft : Nat → Frame) (u idx : Nat) (h : idx ≠ u) :
    ws_touch_ft ic ft u idx = ft idx :=
  upd_ne _ _ h

theorem touch_ft_self (ic : Nat) (ft : Nat → Frame) (u : Nat) :
    ws_touch_ft ic ft u u = { ft u with age := ic } :=
  upd_self _ _ _

theorem reverse_map_touch_procs_other (ft : Nat → Frame) (procs : Nat → Process)
    (u idx : Nat) (hkey : owner_key ft u ≠ owner_key ft idx) :
    reverse_map ft (ws_touch_procs ft procs u) idx = reverse_map ft procs idx := by
  simp only [reverse_map, ws_touch_procs, write_owner_pte]
  exact set_pte_read_ne procs _ _ _ _ _ (fun h => hkey h.symm)

theorem reverse_map_touch_procs_self (ft : Nat → Frame) (procs : Nat → Process)
    (u : Nat) :
    reverse_map ft (ws_touch_procs ft procs u) u
      = { reverse_map ft procs u with is_referenced := false } := by
  simp only [reverse_map, ws_touch_procs, write_owner_pte]
  exact set_pte_page_table_self procs _ _ _

theorem touch_procs_read (ft : Nat → Frame) (procs : Nat → Process)
    (u p w : Nat) (hkey : owner_key ft u ≠ (p, w)) :
    ((ws_touch_procs ft procs u) p).page_table w = (procs p).page_table w := by
  simp only [ws_touch_procs, write_owner_pte]
  exact set_pte_read_ne procs _ _ _ _ _ (fun h => hkey h.symm)

/-- The combined one-iteration update of the Working-Set scan preserves the
old-check of frames with a different owner. -/
theorem ws_is_old_touch (ic : Nat) (ft : Nat → Frame) (procs : Nat → Process)
    (u idx : Nat) (hne : idx ≠ u) (hkey : owner_key ft u ≠ owner_key ft idx) :
    ws_is_old ic (ws_touch_ft ic ft u) (ws_touch_procs ft procs u) idx
      = ws_is_old ic ft procs idx := by
  have h1 : reverse_map (ws_touch_ft ic ft u) (ws_touch_procs ft procs u) idx
      = reverse_map ft procs idx := by
    rw [reverse_map_touch_ft]
    exact reverse_map_touch_procs_other ft procs u idx hkey
  simp only [ws_is_old]
  rw [touch_ft_ne ic ft u idx hne, h1]

/-- One non-stopping Working-Set iteration: reduction of the loop body when
the visited frame is not old-and-idle. -/
theorem ws_loop_cons_no_stop (ic : Nat) (u : Nat) (rest : List Nat)
    (oldest : Nat) (ft : Nat → Frame) (procs : Nat → Process)
    (hu : ws_is_old ic ft procs u = false) :
    ws_loop ic (u :: rest) oldest ft procs
      = ws_loop ic rest
          (if ((if (reverse_map ft procs u).is_referenced
                then ws_touch_ft ic ft u else ft) u).age
              < ((if (reverse_map ft procs u).is_referenced
                then ws_touch_ft ic ft u else ft) oldest).age
           then u else oldest)
          (if (reverse_map ft procs u).is_referenced
           then ws_touch_ft ic ft u else ft)
          (if (reverse_map ft procs u).is_referenced
           then ws_touch_procs ft procs u else procs) := by
  simp only [ws_is_old] at hu
  by_cases hR : (reverse_map ft procs u).is_referenced
  · simp [ws_loop, hu, hR, ws_touch_ft, ws_touch_procs]
  · simp only [ws_loop]
    rw [if_neg]
    · simp [hR]
    · simp only [hR, Bool.not_false, Bool.and_true]
      intro hc
      rw [hc] at hu
      simp [hR] at hu

/-- Stopping case of the Working-Set scan: the walk runs through the non-old
prefix (updating referenced frames), stops at the first old frame, which
becomes the victim; nothing at or past the stop is touched. -/
theorem ws_loop_stop (ic : Nat) :
    ∀ (pre : List Nat) (v : Nat) (post : List Nat) (ft : Nat → Frame)
      (procs : Nat → Process),
      (pre ++ v :: post).Nodup →
      List.Pairwise (fun i j => owner_key ft i ≠ owner_key ft j) (pre ++ v :: post) →
      (∀ idx ∈ pre, ws_is_old ic ft procs idx = false) →
      ws_is_old ic ft procs v = true →
      ∀ oldest,
      (ws_loop ic (pre ++ v :: post) oldest ft procs).1 = true ∧
      (ws_loop ic (pre ++ v :: post) oldest ft procs).2.1 = v ∧
      (∀ idx, idx ∉ pre →
        (ws_loop ic (pre ++ v :: post) oldest ft procs).2.2.1 idx = ft idx) ∧
      (∀ p w : Nat, (∀ idx ∈ pre, owner_key ft idx ≠ (p, w)) →
        ((ws_loop ic (pre ++ v :: post) oldest ft procs).2.2.2 p).page_table w
          = (procs p).page_table w) ∧
      (∀ idx ∈ pre,
        (ws_loop ic (pre ++ v :: post) oldest ft procs).2.2.1 idx
          = (if (reverse_map ft procs idx).is_referenced
             then { ft idx with age := ic } else ft idx) ∧
        reverse_map ft (ws_loop ic (pre ++ v :: post) oldest ft procs).2.2.2 idx
          = (if (reverse_map ft procs idx).is_referenced
             then { reverse_map ft procs idx with is_referenced := false }
             else reverse_map ft procs idx)) := by
  intro pre
  induction pre with
  | nil =>
    intro v post ft procs _ _ _ hv oldest
    simp only [List.nil_append]
    simp only [ws_is_old] at hv
    simp [ws_loop, hv]
  | cons u pre' ih =>
    intro v post ft procs hnd hpw hpre hv oldest
    have hu : ws_is_old ic ft procs u = false := hpre u (List.mem_cons_self u pre')
    have hpre' : ∀ idx ∈ pre', ws_is_old ic ft procs idx = false :=
      fun idx hidx => hpre idx (List.mem_cons_of_mem _ hidx)
    obtain ⟨hu_notin, hnd'⟩ :=
      List.nodup_cons.mp (show (u :: (pre' ++ v :: post)).Nodup from hnd)
    obtain ⟨hu_keys, hpw'⟩ := List.pairwise_cons.mp
      (show List.Pairwise (fun i j => owner_key ft i ≠ owner_key ft j)
        (u :: (pre' ++ v :: post)) from hpw)
    have hu_np : u ∉ pre' := fun h => hu_notin (List.mem_append_left _ h)
    rw [show (u :: pre') ++ v :: post = u :: (pre' ++ v :: post) from rfl]
    rw [ws_loop_cons_no_stop ic u (pre' ++ v :: post) oldest ft procs hu]
    by_cases hR : (reverse_map ft procs u).is_referenced
    · rw [if_pos hR, if_pos hR]
      have hvne : v ≠ u := by
        intro h
        exact hu_notin (h ▸ List.mem_append_right _ (List.mem_cons_self v post))
      have hold' : ∀ idx ∈ pre',
          ws_is_old ic (ws_touch_ft ic ft u) (ws_touch_procs ft procs u) idx
            = false := by
        intro idx hidx
        have hne : idx ≠ u := fun h => hu_np (h ▸ hidx)
        rw [ws_is_old_touch ic ft procs u idx hne
          (hu_keys idx (List.mem_append_left _ hidx))]
        exact hpre' idx hidx
      have holdv : ws_is_old ic (ws_touch_ft ic ft u) (ws_touch_procs ft procs u) v
          = true := by
        rw [ws_is_old_touch ic ft procs u v hvne
          (hu_keys v (List.mem_append_right _ (List.mem_cons_self v post)))]
        exact hv
      have hpw1 : List.Pairwise
          (fun i j => owner_key (ws_touch_ft ic ft u) i
            ≠ owner_key (ws_touch_ft ic ft u) j) (pre' ++ v :: post) := by
        refine List.Pairwise.imp ?_ hpw'
        intro a b hab
        rw [owner_key_touch_ft, owner_key_touch_ft]
        exact hab
      obtain ⟨iA, iB, iC, iD, iE⟩ := ih v post (ws_touch_ft ic ft u)
        (ws_touch_procs ft procs u) hnd' hpw1 hold' holdv
        (if ((ws_touch_ft ic ft u) u).age < ((ws_touch_ft ic ft u) oldest).age
         then u else oldest)
      refine ⟨iA, iB, ?_, ?_, ?_⟩
      · intro idx hidx
        have hne : idx ≠ u := fun h => hidx (h ▸ List.mem_cons_self u pre')
        have hnin : idx ∉ pre' := fun h => hidx (List.mem_cons_of_mem _ h)
        rw [iC idx hnin, touch_ft_ne ic ft u idx hne]
      · intro p w hpw2
        have hkeyu : owner_key ft u ≠ (p, w) := hpw2 u (List.mem_cons_self u pre')
        have hiD := iD p w (fun idx hidx => by
          rw [owner_key_touch_ft]
          exact hpw2 idx (List.mem_cons_of_mem _ hidx))
        rw [hiD]
        exact touch_procs_read ft procs u p w hkeyu
      · intro idx hidx
        rcases List.mem_cons.mp hidx with hequ | hmem
        · subst hequ
          refine ⟨?_, ?_⟩
          · rw [iC idx hu_np, touch_ft_self, if_pos hR]
          · rw [if_pos hR]
            have hiD := iD ((ft idx).pid).toNat ((ft idx).vpage).toNat
              (fun k hk => by
                rw [owner_key_touch_ft]
                exact fun h => (hu_keys k (List.mem_append_left _ hk)) h.symm)
            exact hiD.trans (reverse_map_touch_procs_self ft procs idx)
        · have hne : idx ≠ u := fun h => hu_np (h ▸ hmem)
          have hkey := hu_keys idx (List.mem_append_left _ hmem)
          have hrm : reverse_map (ws_touch_ft ic ft u) (ws_touch_procs ft procs u) idx
              = reverse_map ft procs idx := by
            rw [reverse_map_touch_ft]
            exact reverse_map_touch_procs_other ft procs u idx hkey
          have hE := iE idx hmem
          refine ⟨?_, ?_⟩
          · have hE1 := hE.1
            rw [hrm, touch_ft_ne ic ft u idx hne] at hE1
            exact hE1
          · have hE2 := hE.2
            rw [reverse_map_touch_ft] at hE2
            rw [hrm] at hE2
            exact hE2
    · rw [if_neg hR, if_neg hR]
      obtain ⟨iA, iB, iC, iD, iE⟩ := ih v post ft procs hnd' hpw' hpre' hv
        (if (ft u).age < (ft oldest).age then u else oldest)
      refine ⟨iA, iB, ?_, ?_, ?_⟩
      · intro idx hidx
        exact iC idx (fun h => hidx (List.mem_cons_of_mem _ h))
      · intro p w hpw2
        exact iD p w (fun k hk => hpw2 k (List.mem_cons_of_mem _ hk))
      · intro idx hidx
        rcases List.mem_cons.mp hidx with hequ | hmem
        · subst hequ
          refine ⟨?_, ?_⟩
          · rw [iC idx hu_np, if_neg hR]
          · rw [if_neg hR]
            have hiD := iD ((ft idx).pid).toNat ((ft idx).vpage).toNat
              (fun k hk => fun h => (hu_keys k (List.mem_append_left _ hk)) h.symm)
            exact hiD
        · exact iE idx hmem

/-- Fall-through case of the Working-Set scan: with no old frame in the
list, the walk visits everything, updates referenced frames, and returns
the running minimum of the post-visit ages (earliest index on ties),
provided the initial candidate's table age already equals its post-visit
age. -/
theorem ws_loop_nostop (ic : Nat) :
    ∀ (L : List Nat) (ft : Nat → Frame) (procs : Nat → Process),
      L.Nodup →
      List.Pairwise (fun i j => owner_key ft i ≠ owner_key ft j) L →
      (∀ idx ∈ L, ws_is_old ic ft procs idx = false) →
      ∀ best, (ft best).age = ws_final_age ic ft procs best →
      (ws_loop ic L best ft procs).1 = false ∧
      (ws_loop ic L best ft procs).2.1 = ws_argmin ic ft procs L best ∧
      (∀ idx, idx ∉ L → (ws_loop ic L best ft procs).2.2.1 idx = ft idx) ∧
      (∀ p w : Nat, (∀ idx ∈ L, owner_key ft idx ≠ (p, w)) →
        ((ws_loop ic L best ft procs).2.2.2 p).page_table w
          = (procs p).page_table w) ∧
      (∀ idx ∈ L,
        (ws_loop ic L best ft procs).2.2.1 idx
          = (if (reverse_map ft procs idx).is_referenced
             then { ft idx with age := ic } else ft idx) ∧
        reverse_map ft (ws_loop ic L best ft procs).2.2.2 idx
          = (if (reverse_map ft procs idx).is_referenced
             then { reverse_map ft procs idx with is_referenced := false }
             else reverse_map ft procs idx)) := by
  intro L
  induction L with
  | nil =>
    intro ft procs _ _ _ best _
    refine ⟨rfl, rfl, fun _ _ => rfl, fun _ _ _ => rfl, by simp⟩
  | cons u rest ih =>
    intro ft procs hnd hpw hold best hbest
    have hu : ws_is_old ic ft procs u = false := hold u (List.mem_cons_self u rest)
    have hold'' : ∀ idx ∈ rest, ws_is_old ic ft procs idx = false :=
      fun idx hidx => hold idx (List.mem_cons_of_mem _ hidx)
    obtain ⟨hu_notin, hnd'⟩ := List.nodup_cons.mp hnd
    obtain ⟨hu_keys, hpw'⟩ := List.pairwise_cons.mp hpw
    rw [ws_loop_cons_no_stop ic u rest best ft procs hu]
    have hstep : ws_argmin ic ft procs (u :: rest) best
        = ws_argmin ic ft procs rest
            (if ws_final_age ic ft procs u < ws_final_age ic ft procs best
             then u else best) := rfl
    by_cases hR : (reverse_map ft procs u).is_referenced
    · rw [if_pos hR, if_pos hR]
      have h1 : ((ws_touch_ft ic ft u) u).age = ws_final_age ic ft procs u := by
        rw [touch_ft_self]
        simp [ws_final_age, hR]
      have h2 : ((ws_touch_ft ic ft u) best).age = ws_final_age ic ft procs best := by
        by_cases hbu : best = u
        · subst hbu
          rw [touch_ft_self]
          simp [ws_final_age, hR]
        · rw [touch_ft_ne ic ft u best hbu]
          exact hbest
      have hfin : ∀ x, x ≠ u → owner_key ft u ≠ owner_key ft x →
          ws_final_age ic (ws_touch_ft ic ft u) (ws_touch_procs ft procs u) x
            = ws_final_age ic ft procs x := by
        intro x hxu hkx
        have hrmx : reverse_map (ws_touch_ft ic ft u) (ws_touch_procs ft procs u) x
            = reverse_map ft procs x := by
          rw [reverse_map_touch_ft]
          exact reverse_map_touch_procs_other ft procs u x hkx
        simp [ws_final_age, hrmx, touch_ft_ne ic ft u x hxu]
      have hfinself : ws_final_age ic (ws_touch_ft ic ft u) (ws_touch_procs ft procs u) u
          = ws_final_age ic ft procs u := by
        have hrmu : reverse_map (ws_touch_ft ic ft u) (ws_touch_procs ft procs u) u
            = { reverse_map ft procs u with is_referenced := false } := by
          rw [reverse_map_touch_ft]
          exact reverse_map_touch_procs_self ft procs u
        simp [ws_final_age, hrmu, touch_ft_self, hR]
      have hfinbest : ws_final_age ic (ws_touch_ft ic ft u) (ws_touch_procs ft procs u) best
          = ws_final_age ic ft procs best := by
        by_cases hbu : best = u
        · subst hbu
          exact hfinself
        · by_cases hR1 : (reverse_map (ws_touch_ft ic ft u)
              (ws_touch_procs ft procs u) best).is_referenced
          · have hkk : owner_key ft u ≠ owner_key ft best := by
              intro hkk
              have : reverse_map (ws_touch_ft ic ft u) (ws_touch_procs ft procs u) best
                  = { reverse_map ft procs u with is_referenced := false } := by
                rw [reverse_map_touch_ft]
                show ((ws_touch_procs ft procs u) ((ft best).pid).toNat).page_table
                    ((ft best).vpage).toNat = _
                have hkpair : (((ft best).pid).toNat, ((ft best).vpage).toNat)
                    = (((ft u).pid).toNat, ((ft u).vpage).toNat) := by
                  have := hkk.symm
                  simpa [owner_key] using this
                rw [show (((ft best).pid).toNat = ((ft u).pid).toNat)
                    from congrArg Prod.fst hkpair,
                  show (((ft best).vpage).toNat = ((ft u).vpage).toNat)
                    from congrArg Prod.snd hkpair]
                exact reverse_map_touch_procs_self ft procs u
              rw [this] at hR1
              simp at hR1
            exact hfin best hbu hkk
          · have hage : ((ws_touch_ft ic ft u) best).age = (ft best).age := by
              rw [touch_ft_ne ic ft u best hbu]
            simp only [ws_final_age, hR1, if_false, Bool.false_eq_true]
            rw [hage]
            by_cases hR0 : (reverse_map ft procs best).is_referenced
            · rw [if_pos hR0]
              rw [hbest]
              simp [ws_final_age, hR0]
            · rw [if_neg hR0]
      have hold' : ∀ idx ∈ rest,
          ws_is_old ic (ws_touch_ft ic ft u) (ws_touch_procs ft procs u) idx
            = false := by
        intro idx hidx
        have hne : idx ≠ u := fun h => hu_notin (h ▸ hidx)
        rw [ws_is_old_touch ic ft procs u idx hne (hu_keys idx hidx)]
        exact hold'' idx hidx
      have hpw1 : List.Pairwise
          (fun i j => owner_key (ws_touch_ft ic ft u) i
            ≠ owner_key (ws_touch_ft ic ft u) j) rest := by
        refine List.Pairwise.imp ?_ hpw'
        intro a b hab
        rw [owner_key_touch_ft, owner_key_touch_ft]
        exact hab
      have hbest' : ((ws_touch_ft ic ft u)
            (if ((ws_touch_ft ic ft u) u).age < ((ws_touch_ft ic ft u) best).age
             then u else best)).age
          = ws_final_age ic (ws_touch_ft ic ft u) (ws_touch_procs ft procs u)
              (if ((ws_touch_ft ic ft u) u).age < ((ws_touch_ft ic ft u) best).age
               then u else best) := by
        by_cases hc : ((ws_touch_ft ic ft u) u).age < ((ws_touch_ft ic ft u) best).age
        · rw [if_pos hc, hfinself, touch_ft_self]
          simp [ws_final_age, hR]
        · rw [if_neg hc, hfinbest, h2]
      obtain ⟨iA, iB, iC, iD, iE⟩ := ih (ws_touch_ft ic ft u)
        (ws_touch_procs ft procs u) hnd' hpw1 hold'
        (if ((ws_touch_ft ic ft u) u).age < ((ws_touch_ft ic ft u) best).age
         then u else best) hbest'
      refine ⟨iA, ?_, ?_, ?_, ?_⟩
      · rw [iB, hstep]
        have hBeq : (if ((ws_touch_ft ic ft u) u).age < ((ws_touch_ft ic ft u) best).age
              then u else best)
            = (if ws_final_age ic ft procs u < ws_final_age ic ft procs best
               then u else best) := by
          rw [h1, h2]
        rw [hBeq]
        refine ws_argmin_congr ic (ws_touch_ft ic ft u) ft
          (ws_touch_procs ft procs u) procs rest _ ?_ ?_
        · intro x hx
          exact hfin x (fun h => hu_notin (h ▸ hx)) (hu_keys x hx)
        · by_cases hc : ws_final_age ic ft procs u < ws_final_age ic ft procs best
          · rw [if_pos hc]
            exact hfinself
          · rw [if_neg hc]
            exact hfinbest
      · intro idx hidx
        have hne : idx ≠ u := fun h => hidx (h ▸ List.mem_cons_self u rest)
        have hnin : idx ∉ rest := fun h => hidx (List.mem_cons_of_mem _ h)
        rw [iC idx hnin, touch_ft_ne ic ft u idx hne]
      · intro p w hpw2
        have hkeyu : owner_key ft u ≠ (p, w) := hpw2 u (List.mem_cons_self u rest)
        have hiD := iD p w (fun idx hidx => by
          rw [owner_key_touch_ft]
          exact hpw2 idx (List.mem_cons_of_mem _ hidx))
        rw [hiD]
        exact touch_procs_read ft procs u p w hkeyu
      · intro idx hidx
        rcases List.mem_cons.mp hidx with hequ | hmem
        · subst hequ
          refine ⟨?_, ?_⟩
          · rw [iC idx hu_notin, touch_ft_self, if_pos hR]
          · rw [if_pos hR]
            have hiD := iD ((ft idx).pid).toNat ((ft idx).vpage).toNat
              (fun k hk => by
                rw [owner_key_touch_ft]
                exact fun h => (hu_keys k hk) h.symm)
            exact hiD.trans (reverse_map_touch_procs_self ft procs idx)
        · have hne : idx ≠ u := fun h => hu_notin (h ▸ hmem)
          have hkey := hu_keys idx hmem
          have hrm : reverse_map (ws_touch_ft ic ft u) (ws_touch_procs ft procs u) idx
              = reverse_map ft procs idx := by
            rw [reverse_map_touch_ft]
            exact reverse_map_touch_procs_other ft procs u idx hkey
          have hE := iE idx hmem
          refine ⟨?_, ?_⟩
          · have hE1 := hE.1
            rw [hrm, touch_ft_ne ic ft u idx hne] at hE1
            exact hE1
          · have hE2 := hE.2
            rw [reverse_map_touch_ft] at hE2
            rw [hrm] at hE2
            exact hE2
    · rw [if_neg hR, if_neg hR]
      have hbest' : (ft (if (ft u).age < (ft best).age then u else best)).age
          = ws_final_age ic ft procs (if (ft u).age < (ft best).age then u else best) := by
        by_cases hc : (ft u).age < (ft best).age
        · rw [if_pos hc]
          simp [ws_final_age, hR]
        · rw [if_neg hc]
          exact hbest
      obtain ⟨iA, iB, iC, iD, iE⟩ := ih ft procs hnd' hpw' hold''
        (if (ft u).age < (ft best).age then u else best) hbest'
      refine ⟨iA, ?_, ?_, ?_, ?_⟩
      · rw [iB, hstep]
        have hBeq : (if (ft u).age < (ft best).age then u else best)
            = (if ws_final_age ic ft procs u < ws_final_age ic ft procs best
               then u else best) := by
          have hfu : (ft u).age = ws_final_age ic ft procs u := by
            simp [ws_final_age, hR]
          rw [hfu, hbest]
        rw [hBeq]
      · intro idx hidx
        exact iC idx (fun h => hidx (List.mem_cons_of_mem _ h))
      · intro p w hpw2
        exact iD p w (fun k hk => hpw2 k (List.mem_cons_of_mem _ hk))
      · intro idx hidx
        rcases List.mem_cons.mp hidx with hequ | hmem
        · subst hequ
          refine ⟨?_, ?_⟩
          · rw [iC idx hu_notin, if_neg hR]
          · rw [if_neg hR]
            exact iD ((ft idx).pid).toNat ((ft idx).vpage).toNat
              (fun k hk => fun h => (hu_keys k hk) h.symm)
        · exact iE idx hmem

/-- The walk starts at `hand` when `hand < n`. -/
theorem walk_order_cons (hand n : Nat) (hhand : hand < n) :
    ∃ T, walk_order hand n = hand :: T
      ∧ T = (List.range (n - 1)).map (fun i => (hand + (i + 1)) % n) := by
  obtain ⟨m, rfl⟩ : ∃ m, n = m + 1 := ⟨n - 1, by omega⟩
  refine ⟨(List.range m).map (fun i => (hand + (i + 1)) % (m + 1)), ?_, by simp⟩
  simp [walk_order, List.range_succ_eq_map, List.map_map, Function.comp,
    Nat.mod_eq_of_lt hhand]

/-- The whole Working-Set walk when no frame is old: victim by smallest
post-visit age (earliest in walk order), every referenced frame touched,
every other frame untouched. -/
theorem ws_walk_nostop_core (ic hand n : Nat) (ft : Nat → Frame)
    (procs : Nat → Process) (_hn : 0 < n) (hhand : hand < n)
    (hpwW : List.Pairwise (fun i j => owner_key ft i ≠ owner_key ft j)
      (walk_order hand n))
    (hall : ∀ idx ∈ walk_order hand n, ws_is_old ic ft procs idx = false) :
    some (ws_loop ic (walk_order hand n) hand ft procs).2.1
      = (walk_order hand n).find? (fun idx =>
          ws_final_age ic ft procs idx == ws_min_age ic ft procs hand n) ∧
    (∀ idx, idx < n →
      (ws_loop ic (walk_order hand n) hand ft procs).2.2.1 idx
        = (if (reverse_map ft procs idx).is_referenced
           then { ft idx with age := ic } else ft idx) ∧
      reverse_map ft (ws_loop ic (walk_order hand n) hand ft procs).2.2.2 idx
        = (if (reverse_map ft procs idx).is_referenced
           then { reverse_map ft procs idx with is_referenced := false }
           else reverse_map ft procs idx)) := by
  obtain ⟨T, hwalk, _⟩ := walk_order_cons hand n hhand
  have hndW := walk_order_nodup hand n
  rw [hwalk] at hndW hpwW
  obtain ⟨hh_notin, hndT⟩ := List.nodup_cons.mp hndW
  obtain ⟨hh_keys, hpwT⟩ := List.pairwise_cons.mp hpwW
  have hallT : ∀ idx ∈ T, ws_is_old ic ft procs idx = false := by
    intro idx hidx
    exact hall idx (by rw [hwalk]; exact List.mem_cons_of_mem _ hidx)
  have hu : ws_is_old ic ft procs hand = false :=
    hall hand (by rw [hwalk]; exact List.mem_cons_self hand T)
  have hmemT : ∀ idx, idx < n → idx ≠ hand → idx ∈ T := by
    intro idx hidx hne
    have := walk_order_mem hand n idx hidx
    rw [hwalk] at this
    rcases List.mem_cons.mp this with h | h
    · exact absurd h hne
    · exact h
  have hminT : ws_min_age ic ft procs hand n
      = list_min_nat (T.map (ws_final_age ic ft procs))
          (ws_final_age ic ft procs hand) := by
    have h1 : ws_min_age ic ft procs hand n
        = min (ws_final_age ic ft procs hand)
            (list_min_nat (T.map (ws_final_age ic ft procs))
              (ws_final_age ic ft procs hand)) := by
      simp only [ws_min_age, hwalk]
      rfl
    rw [h1, Nat.min_eq_right (list_min_nat_le _ _)]
  rw [hwalk]
  rw [ws_loop_cons_no_stop ic hand T hand ft procs hu]
  by_cases hR : (reverse_map ft procs hand).is_referenced
  · rw [if_pos hR, if_pos hR, if_neg (lt_irrefl _)]
    have hfin : ∀ x, x ≠ hand → owner_key ft hand ≠ owner_key ft x →
        ws_final_age ic (ws_touch_ft ic ft hand) (ws_touch_procs ft procs hand) x
          = ws_final_age ic ft procs x := by
      intro x hxu hkx
      have hrmx : reverse_map (ws_touch_ft ic ft hand)
          (ws_touch_procs ft procs hand) x = reverse_map ft procs x := by
        rw [reverse_map_touch_ft]
        exact reverse_map_touch_procs_other ft procs hand x hkx
      simp [ws_final_age, hrmx, touch_ft_ne ic ft hand x hxu]
    have hrmself : reverse_map (ws_touch_ft ic ft hand)
        (ws_touch_procs ft procs hand) hand
        = { reverse_map ft procs hand with is_referenced := false } := by
      rw [reverse_map_touch_ft]
      exact reverse_map_touch_procs_self ft procs hand
    have hfinself : ws_final_age ic (ws_touch_ft ic ft hand)
        (ws_touch_procs ft procs hand) hand = ws_final_age ic ft procs hand := by
      simp [ws_final_age, hrmself, touch_ft_self, hR]
    have hold' : ∀ idx ∈ T,
        ws_is_old ic (ws_touch_ft ic ft hand) (ws_touch_procs ft procs hand) idx
          = false := by
      intro idx hidx
      have hne : idx ≠ hand := fun h => hh_notin (h ▸ hidx)
      rw [ws_is_old_touch ic ft procs hand idx hne (hh_keys idx hidx)]
      exact hallT idx hidx
    have hpw1 : List.Pairwise
        (fun i j => owner_key (ws_touch_ft ic ft hand) i
          ≠ owner_key (ws_touch_ft ic ft hand) j) T := by
      refine List.Pairwise.imp ?_ hpwT
      intro a b hab
      rw [owner_key_touch_ft, owner_key_touch_ft]
      exact hab
    have hbest1 : ((ws_touch_ft ic ft hand) hand).age
        = ws_final_age ic (ws_touch_ft ic ft hand)
            (ws_touch_procs ft procs hand) hand := by
      rw [hfinself, touch_ft_self]
      simp [ws_final_age, hR]
    obtain ⟨iA, iB, iC, iD, iE⟩ := ws_loop_nostop ic T (ws_touch_ft ic ft hand)
      (ws_touch_procs ft procs hand) hndT hpw1 hold' hand hbest1
    constructor
    · rw [iB]
      have hcongr : ws_argmin ic (ws_touch_ft ic ft hand)
            (ws_touch_procs ft procs hand) T hand
          = ws_argmin ic ft procs T hand := by
        refine ws_argmin_congr ic (ws_touch_ft ic ft hand) ft
          (ws_touch_procs ft procs hand) procs T hand ?_ hfinself
        intro x hx
        exact hfin x (fun h => hh_notin (h ▸ hx)) (hh_keys x hx)
      rw [hcongr, ws_argmin_spec ic ft procs T hand, hminT, ← hwalk]
    · intro idx hidx
      by_cases hne : idx = hand
      · subst hne
        refine ⟨?_, ?_⟩
        · rw [iC idx hh_notin, touch_ft_self, if_pos hR]
        · rw [if_pos hR]
          have hiD := iD ((ft idx).pid).toNat ((ft idx).vpage).toNat
            (fun k hk => by
              rw [owner_key_touch_ft]
              exact fun h => (hh_keys k hk) h.symm)
          exact hiD.trans (reverse_map_touch_procs_self ft procs idx)
      · have hmem : idx ∈ T := hmemT idx hidx hne
        have hkey := hh_keys idx hmem
        have hrm : reverse_map (ws_touch_ft ic ft hand)
            (ws_touch_procs ft procs hand) idx = reverse_map ft procs idx := by
          rw [reverse_map_touch_ft]
          exact reverse_map_touch_procs_other ft procs hand idx hkey
        have hE := iE idx hmem
        refine ⟨?_, ?_⟩
        · have hE1 := hE.1
          rw [hrm, touch_ft_ne ic ft hand idx hne] at hE1
          exact hE1
        · have hE2 := hE.2
          rw [reverse_map_touch_ft] at hE2
          rw [hrm] at hE2
          exact hE2
  · rw [if_neg hR, if_neg hR, if_neg (lt_irrefl _)]
    have hbest1 : (ft hand).age = ws_final_age ic ft procs hand := by
      simp [ws_final_age, hR]
    obtain ⟨iA, iB, iC, iD, iE⟩ := ws_loop_nostop ic T ft procs hndT hpwT hallT
      hand hbest1
    constructor
    · rw [iB, ws_argmin_spec ic ft procs T hand, hminT, ← hwalk]
    · intro idx hidx
      by_cases hne : idx = hand
      · subst hne
        refine ⟨?_, ?_⟩
        · rw [iC idx hh_notin, if_neg hR]
        · rw [if_neg hR]
          exact iD ((ft idx).pid).toNat ((ft idx).vpage).toNat
            (fun k hk => fun h => (hh_keys k hk) h.symm)
      · have hmem : idx ∈ T := hmemT idx hidx hne
        have hE := iE idx hmem
        exact hE

/-- **C7.** Working-Set selection (tau = 49), walking from `hand` over frames
with pairwise-distinct owners: the victim is the first old frame in walk
order (R clear and `INS_COUNTER > age + tau`) if one exists, else the frame
with the smallest post-visit age, earliest in walk order on ties
(`ws_spec_victim`); when the walk stops at the first old frame `v`, every
referenced frame before `v` got `age := INS_COUNTER` and its R bit cleared
while `v` and everything after are untouched; when no frame is old, every
frame of the full scan is aged/R-cleared the same way. -/
theorem c7_ws_select_spec (hand insCounter n : Nat) (ft : Nat → Frame)
    (procs : Nat → Process) (hn : 0 < n) (hhand : hand < n)
    (hdist : owners_distinct ft n) :
    some (ws_select hand insCounter n ft procs).victim
      = ws_spec_victim hand insCounter n ft procs ∧
    (∀ pre v post, walk_order hand n = pre ++ v :: post →
      (∀ idx ∈ pre, ws_is_old insCounter ft procs idx = false) →
      ws_is_old insCounter ft procs v = true →
      (ws_select hand insCounter n ft procs).victim = v ∧
      (∀ idx ∈ pre,
        (ws_select hand insCounter n ft procs).ft idx
          = (if (reverse_map ft procs idx).is_referenced
             then { ft idx with age := insCounter } else ft idx) ∧
        reverse_map ft (ws_select hand insCounter n ft procs).procs idx
          = (if (reverse_map ft procs idx).is_referenced
             then { reverse_map ft procs idx with is_referenced := false }
             else reverse_map ft procs idx)) ∧
      (∀ idx, idx ∉ pre →
        (ws_select hand insCounter n ft procs).ft idx = ft idx) ∧
      (∀ idx ∈ v :: post,
        reverse_map ft (ws_select hand insCounter n ft procs).procs idx
          = reverse_map ft procs idx)) ∧
    ((walk_order hand n).find? (ws_is_old insCounter ft procs) = none →
      ∀ idx, idx < n →
        (ws_select hand insCounter n ft procs).ft idx
          = (if (reverse_map ft procs idx).is_referenced
             then { ft idx with age := insCounter } else ft idx) ∧
        reverse_map ft (ws_select hand insCounter n ft procs).procs idx
          = (if (reverse_map ft procs idx).is_referenced
             then { reverse_map ft procs idx with is_referenced := false }
             else reverse_map ft procs idx)) := by
  have hpw : List.Pairwise (fun i j => owner_key ft i ≠ owner_key ft j)
      (walk_order hand n) := by
    refine List.Pairwise.imp_of_mem ?_ (walk_order_nodup hand n)
    intro a b ha hb hne
    exact hdist a (walk_order_lt hand n a ha) b (walk_order_lt hand n b hb) hne
  refine ⟨?_, ?_, ?_⟩
  · cases hF : (walk_order hand n).find? (ws_is_old insCounter ft procs) with
    | some v =>
      obtain ⟨hpv, pre, post, hdec, hprev⟩ := List.find?_eq_some.mp hF
      have hprev' : ∀ a ∈ pre, ws_is_old insCounter ft procs a = false := by
        intro a ha
        simpa using hprev a ha
      have hnd := walk_order_nodup hand n
      have hpw2 := hpw
      rw [hdec] at hnd hpw2
      obtain ⟨_, hvict, _, _, _⟩ := ws_loop_stop insCounter pre v post ft procs
        hnd hpw2 hprev' hpv hand
      have hsel : (ws_select hand insCounter n ft procs).victim
          = (ws_loop insCounter (pre ++ v :: post) hand ft procs).2.1 := by
        simp only [ws_select]
        rw [hdec]
      rw [hsel, hvict]
      simp [ws_spec_victim, hF]
    | none =>
      have hall : ∀ idx ∈ walk_order hand n,
          ws_is_old insCounter ft procs idx = false := by
        intro idx hidx
        simpa using List.find?_eq_none.mp hF idx hidx
      obtain ⟨hA, _⟩ := ws_walk_nostop_core insCounter hand n ft procs hn
        hhand hpw hall
      simp only [ws_spec_victim, hF]
      exact hA
  · intro pre v post hdec hpre hv
    have hnd := walk_order_nodup hand n
    have hpw2 := hpw
    rw [hdec] at hnd hpw2
    obtain ⟨_, hvict, hout, hDpt, hupd⟩ := ws_loop_stop insCounter pre v post
      ft procs hnd hpw2 hpre hv hand
    have hsel_v : (ws_select hand insCounter n ft procs).victim
        = (ws_loop insCounter (pre ++ v :: post) hand ft procs).2.1 := by
      simp only [ws_select]
      rw [hdec]
    have hsel_ft : (ws_select hand insCounter n ft procs).ft
        = (ws_loop insCounter (pre ++ v :: post) hand ft procs).2.2.1 := by
      simp only [ws_select]
      rw [hdec]
    have hsel_pr : (ws_select hand insCounter n ft procs).procs
        = (ws_loop insCounter (pre ++ v :: post) hand ft procs).2.2.2 := by
      simp only [ws_select]
      rw [hdec]
    obtain ⟨_, _, hcross⟩ := List.pairwise_append.mp hpw2
    refine ⟨by rw [hsel_v, hvict], ?_, ?_, ?_⟩
    · intro idx hidx
      have h := hupd idx hidx
      exact ⟨by rw [hsel_ft]; exact h.1, by rw [hsel_pr]; exact h.2⟩
    · intro idx hnin
      rw [hsel_ft]
      exact hout idx hnin
    · intro idx hidx
      rw [hsel_pr]
      exact hDpt ((ft idx).pid).toNat ((ft idx).vpage).toNat
        (fun k hk => hcross k hk idx hidx)
  · intro hF
    have hall : ∀ idx ∈ walk_order hand n,
        ws_is_old insCounter ft procs idx = false := by
      intro idx hidx
      simpa using List.find?_eq_none.mp hF idx hidx
    obtain ⟨_, hB⟩ := ws_walk_nostop_core insCounter hand n ft procs hn
      hhand hpw hall
    intro idx hidx
    exact hB idx hidx

/-- C7 witness: on two frames owned by process 0 at vpages 0/1, with page 0
referenced and page 1 idle with age 0 at `INS_COUNTER = 100`, frame 1 is the
first old frame and becomes the victim. -/
theorem c7_ws_select_spec_witness :
    some (ws_select 0 100 2 c6ft c6procs).victim
      = ws_spec_victim 0 100 2 c6ft c6procs ∧
    (ws_select 0 100 2 c6ft c6procs).victim = 1 := by
  refine ⟨(c7_ws_select_spec 0 100 2 c6ft c6procs (by decide) (by decide)
    (by unfold owners_distinct; decide)).1, ?_⟩
  decide

/-! ## Claims C9/C10: the reachability invariant.  Compatibility relations. -/

theorem pte_eq_mod_R_refl (a : Pte) : pte_eq_mod_R a a := Or.inl rfl

theorem pte_eq_mod_R_trans {a b c : Pte} (h1 : pte_eq_mod_R a b)
    (h2 : pte_eq_mod_R b c) : pte_eq_mod_R a c := by
  rcases h1 with h1 | h1 <;> rcases h2 with h2 | h2 <;> subst h1 <;> subst h2
  · exact Or.inl rfl
  · exact Or.inr rfl
  · exact Or.inr rfl
  · exact Or.inr rfl

theorem pte_eq_mod_R_fields {a b : Pte} (h : pte_eq_mod_R a b) :
    a.is_present = b.is_present ∧ a.frame_num = b.frame_num := by
  rcases h with h | h <;> subst h <;> exact ⟨rfl, rfl⟩

theorem frame_eq_mod_age_refl (a : Frame) : frame_eq_mod_age a a :=
  ⟨rfl, rfl, rfl, rfl, rfl⟩

theorem frame_eq_mod_age_trans {a b c : Frame} (h1 : frame_eq_mod_age a b)
    (h2 : frame_eq_mod_age b c) : frame_eq_mod_age a c :=
  ⟨h1.1.trans h2.1, h1.2.1.trans h2.2.1, h1.2.2.1.trans h2.2.2.1,
   h1.2.2.2.1.trans h2.2.2.2.1, h1.2.2.2.2.trans h2.2.2.2.2⟩

theorem set_pte_pid (procs : Nat → Process) (p v : Nat) (pte : Pte) (q : Nat) :
    ((set_pte procs p v pte) q).pid = (procs q).pid := by
  by_cases h : q = p <;> simp [set_pte, upd, h]

/-- The R-clearing write-back every scanning pager performs is `mod_R`. -/
theorem write_owner_pte_mod_R (ft : Nat → Frame) (procs : Nat → Process)
    (idx : Nat) (p v : Nat) :
    pte_eq_mod_R ((write_owner_pte ft procs idx
      { reverse_map ft procs idx with is_referenced := false } p).page_table v)
      ((procs p).page_table v) := by
  by_cases h : (p, v) = (((ft idx).pid).toNat, ((ft idx).vpage).toNat)
  · have hp : p = ((ft idx).pid).toNat := congrArg Prod.fst h
    have hv : v = ((ft idx).vpage).toNat := congrArg Prod.snd h
    subst hp
    subst hv
    unfold write_owner_pte
    rw [set_pte_page_table_self]
    exact Or.inr rfl
  · unfold write_owner_pte
    rw [set_pte_read_ne _ _ _ _ _ _ h]
    exact Or.inl rfl

theorem write_owner_pte_pid (ft : Nat → Frame) (procs : Nat → Process)
    (idx : Nat) (pte : Pte) (q : Nat) :
    ((write_owner_pte ft procs idx pte) q).pid = (procs q).pid :=
  set_pte_pid _ _ _ _ _

/-! ### Per-pager scan effects: pids kept, page tables changed mod R,
frames changed mod age, victims in range -/

theorem clock_loop_effects (ft : Nat → Frame) (n : Nat) :
    ∀ (fuel idx : Nat) (procs : Nat → Process),
      (∀ p, ((clock_loop ft n fuel idx procs).2 p).pid = (procs p).pid) ∧
      (∀ p v, pte_eq_mod_R (((clock_loop ft n fuel idx procs).2 p).page_table v)
        ((procs p).page_table v)) ∧
      (0 < n → idx < n → (clock_loop ft n fuel idx procs).1 < n) := by
  intro fuel
  induction fuel with
  | zero =>
    intro idx procs
    exact ⟨fun p => rfl, fun p v => pte_eq_mod_R_refl _, fun _ h => h⟩
  | succ m ih =>
    intro idx procs
    by_cases hR : (reverse_map ft procs idx).is_referenced
    · have hstep : clock_loop ft n (m + 1) idx procs
          = clock_loop ft n m ((idx + 1) % n)
              (write_owner_pte ft procs idx
                { reverse_map ft procs idx with is_referenced := false }) := by
        simp [clock_loop, hR]
      obtain ⟨ih1, ih2, ih3⟩ := ih ((idx + 1) % n)
        (write_owner_pte ft procs idx
          { reverse_map ft procs idx with is_referenced := false })
      rw [hstep]
      refine ⟨?_, ?_, ?_⟩
      · intro p
        exact (ih1 p).trans (write_owner_pte_pid ft procs idx _ p)
      · intro p v
        exact pte_eq_mod_R_trans (ih2 p v) (write_owner_pte_mod_R ft procs idx p v)
      · intro hn _
        exact ih3 hn (Nat.mod_lt _ hn)
    · have hstep : clock_loop ft n (m + 1) idx procs = (idx, procs) := by
        simp [clock_loop, hR]
      rw [hstep]
      exact ⟨fun p => rfl, fun p v => pte_eq_mod_R_refl _, fun _ h => h⟩

theorem nru_loop_effects (ft : Nat → Frame) (reset : Bool) :
    ∀ (L : List Nat) (cmap : Nat → Option Nat) (procs : Nat → Process),
      (∀ p, ((nru_loop ft reset L cmap procs).2.1 p).pid = (procs p).pid) ∧
      (∀ p v, pte_eq_mod_R
        (((nru_loop ft reset L cmap procs).2.1 p).page_table v)
        ((procs p).page_table v)) ∧
      (∀ v, (nru_loop ft reset L cmap procs).2.2 = some v → v ∈ L) ∧
      (∀ c v, (nru_loop ft reset L cmap procs).1 c = some v →
        v ∈ L ∨ cmap c = some v) := by
  intro L
  induction L with
  | nil =>
    intro cmap procs
    exact ⟨fun p => rfl, fun p v => pte_eq_mod_R_refl _,
      fun v h => by simp [nru_loop] at h, fun c v h => Or.inr h⟩
  | cons idx rest ih =>
    intro cmap procs
    simp only [nru_loop]
    set pte := reverse_map ft procs idx with hpte
    set cls := get_class_index pte with hcls
    have hcmap_mem : ∀ (cm : Nat → Option Nat) (c v : Nat),
        (match cmap cls with
          | none => upd cmap cls (some idx)
          | some _ => cmap) c = some v → v = idx ∨ cmap c = some v := by
      intro cm c v h
      cases hcm : cmap cls with
      | none =>
        rw [hcm] at h
        change (upd cmap cls (some idx)) c = some v at h
        by_cases hc : c = cls
        · subst hc
          rw [upd_self] at h
          exact Or.inl (Option.some.inj h).symm
        · rw [upd_ne _ _ hc] at h
          exact Or.inr h
      | some w =>
        rw [hcm] at h
        change cmap c = some v at h
        exact Or.inr h
    by_cases hstop : cls = 0 && !reset
    · rw [if_pos hstop]
      refine ⟨fun p => rfl, fun p v => pte_eq_mod_R_refl _, ?_, ?_⟩
      · intro v h
        simp only at h
        exact (Option.some.inj h) ▸ List.mem_cons_self idx rest
      · intro c v h
        rcases hcmap_mem cmap c v h with h | h
        · exact Or.inl (h ▸ List.mem_cons_self idx rest)
        · exact Or.inr h
    · rw [if_neg hstop]
      by_cases hres : reset
      · rw [if_pos hres]
        obtain ⟨ih1, ih2, ih3, ih4⟩ := ih
          (match cmap cls with
            | none => upd cmap cls (some idx)
            | some _ => cmap)
          (write_owner_pte ft procs idx { pte with is_referenced := false })
        refine ⟨?_, ?_, ?_, ?_⟩
        · intro p
          exact (ih1 p).trans (write_owner_pte_pid ft procs idx _ p)
        · intro p v
          exact pte_eq_mod_R_trans (ih2 p v) (write_owner_pte_mod_R ft procs idx p v)
        · intro v h
          exact List.mem_cons_of_mem idx (ih3 v h)
        · intro c v h
          rcases ih4 c v h with h | h
          · exact Or.inl (List.mem_cons_of_mem idx h)
          · rcases hcmap_mem cmap c v h with h | h
            · exact Or.inl (h ▸ List.mem_cons_self idx rest)
            · exact Or.inr h
      · rw [if_neg hres]
        obtain ⟨ih1, ih2, ih3, ih4⟩ := ih
          (match cmap cls with
            | none => upd cmap cls (some idx)
            | some _ => cmap) procs
        refine ⟨ih1, ih2, ?_, ?_⟩
        · intro v h
          exact List.mem_cons_of_mem idx (ih3 v h)
        · intro c v h
          rcases ih4 c v h with h | h
          · exact Or.inl (List.mem_cons_of_mem idx h)
          · rcases hcmap_mem cmap c v h with h | h
            · exact Or.inl (h ▸ List.mem_cons_self idx rest)
            · exact Or.inr h

theorem nru_first_class_mem (cmap : Nat → Option Nat) (v : Nat)
    (h : nru_first_class cmap = some v) :
    cmap 0 = some v ∨ cmap 1 = some v ∨ cmap 2 = some v ∨ cmap 3 = some v := by
  unfold nru_first_class at h
  cases h0 : cmap 0 with
  | some w =>
    simp only [h0] at h
    exact Or.inl h
  | none =>
    simp only [h0] at h
    cases h1 : cmap 1 with
    | some w =>
      simp only [h1] at h
      exact Or.inr (Or.inl h)
    | none =>
      simp only [h1] at h
      cases h2 : cmap 2 with
      | some w =>
        simp only [h2] at h
        exact Or.inr (Or.inr (Or.inl h))
      | none =>
        simp only [h2] at h
        exact Or.inr (Or.inr (Or.inr h))

theorem aging_loop_effects (n : Nat) :
    ∀ (L : List Nat) (ft : Nat → Frame) (procs : Nat → Process) (minIdx : Nat),
      (∀ i, frame_eq_mod_age ((aging_loop L ft procs minIdx).1 i) (ft i)) ∧
      (∀ p, ((aging_loop L ft procs minIdx).2.1 p).pid = (procs p).pid) ∧
      (∀ p v, pte_eq_mod_R
        (((aging_loop L ft procs minIdx).2.1 p).page_table v)
        ((procs p).page_table v)) ∧
      ((∀ x ∈ L, x < n) → minIdx < n → (aging_loop L ft procs minIdx).2.2 < n) := by
  intro L
  induction L with
  | nil =>
    intro ft procs minIdx
    exact ⟨fun i => frame_eq_mod_age_refl _, fun p => rfl,
      fun p v => pte_eq_mod_R_refl _, fun _ h => h⟩
  | cons idx rest ih =>
    intro ft procs minIdx
    simp only [aging_loop]
    set pte := reverse_map ft procs idx with hpte
    set frame1 := { ft idx with age := (ft idx).age >>> 1 } with hframe1
    by_cases hR : pte.is_referenced
    · rw [if_pos hR]
      obtain ⟨ih1, ih2, ih3, ih4⟩ := ih
        (upd ft idx { frame1 with age := frame1.age ||| 0x80000000 })
        (write_owner_pte ft procs idx { pte with is_referenced := false })
        (if ((upd ft idx { frame1 with age := frame1.age ||| 0x80000000 }) idx).age
            < ((upd ft idx { frame1 with age := frame1.age ||| 0x80000000 }) minIdx).age
         then idx else minIdx)
      refine ⟨?_, ?_, ?_, ?_⟩
      · intro i
        refine frame_eq_mod_age_trans (ih1 i) ?_
        by_cases hi : i = idx
        · subst hi
          rw [upd_self]
          exact ⟨rfl, rfl, rfl, rfl, rfl⟩
        · rw [upd_ne _ _ hi]
          exact frame_eq_mod_age_refl _
      · intro p
        exact (ih2 p).trans (write_owner_pte_pid ft procs idx _ p)
      · intro p v
        exact pte_eq_mod_R_trans (ih3 p v) (write_owner_pte_mod_R ft procs idx p v)
      · intro hL hm
        refine ih4 (fun x hx => hL x (List.mem_cons_of_mem idx hx)) ?_
        split_ifs
        · exact hL idx (List.mem_cons_self idx rest)
        · exact hm
    · rw [if_neg hR]
      obtain ⟨ih1, ih2, ih3, ih4⟩ := ih (upd ft idx frame1) procs
        (if ((upd ft idx frame1) idx).age < ((upd ft idx frame1) minIdx).age
         then idx else minIdx)
      refine ⟨?_, ih2, ih3, ?_⟩
      · intro i
        refine frame_eq_mod_age_trans (ih1 i) ?_
        by_cases hi : i = idx
        · subst hi
          rw [upd_self]
          exact ⟨rfl, rfl, rfl, rfl, rfl⟩
        · rw [upd_ne _ _ hi]
          exact frame_eq_mod_age_refl _
      · intro hL hm
        refine ih4 (fun x hx => hL x (List.mem_cons_of_mem idx hx)) ?_
        split_ifs
        · exact hL idx (List.mem_cons_self idx rest)
        · exact hm

theorem ws_loop_effects (ic n : Nat) :
    ∀ (L : List Nat) (oldest : Nat) (ft : Nat → Frame) (procs : Nat → Process),
      (∀ i, frame_eq_mod_age ((ws_loop ic L oldest ft procs).2.2.1 i) (ft i)) ∧
      (∀ p, ((ws_loop ic L oldest ft procs).2.2.2 p).pid = (procs p).pid) ∧
      (∀ p v, pte_eq_mod_R
        (((ws_loop ic L oldest ft procs).2.2.2 p).page_table v)
        ((procs p).page_table v)) ∧
      ((∀ x ∈ L, x < n) → oldest < n → (ws_loop ic L oldest ft procs).2.1 < n) := by
  intro L
  induction L with
  | nil =>
    intro oldest ft procs
    exact ⟨fun i => frame_eq_mod_age_refl _, fun p => rfl,
      fun p v => pte_eq_mod_R_refl _, fun _ h => h⟩
  | cons idx rest ih =>
    intro oldest ft procs
    simp only [ws_loop]
    set pte := reverse_map ft procs idx with hpte
    by_cases hstop :
        decide (ic > (ft idx).age + WORKING_SET_TAU) && !pte.is_referenced
    · rw [if_pos hstop]
      exact ⟨fun i => frame_eq_mod_age_refl _, fun p => rfl,
        fun p v => pte_eq_mod_R_refl _,
        fun hL _ => hL idx (List.mem_cons_self idx rest)⟩
    · rw [if_neg hstop]
      by_cases hR : pte.is_referenced
      · rw [if_pos hR]
        obtain ⟨ih1, ih2, ih3, ih4⟩ := ih
          (if ((upd ft idx { ft idx with age := ic }) idx).age
              < ((upd ft idx { ft idx with age := ic }) oldest).age
           then idx else oldest)
          (upd ft idx { ft idx with age := ic })
          (write_owner_pte ft procs idx { pte with is_referenced := false })
        refine ⟨?_, ?_, ?_, ?_⟩
        · intro i
          refine frame_eq_mod_age_trans (ih1 i) ?_
          by_cases hi : i = idx
          · subst hi
            rw [upd_self]
            exact ⟨rfl, rfl, rfl, rfl, rfl⟩
          · rw [upd_ne _ _ hi]
            exact frame_eq_mod_age_refl _
        · intro p
          exact (ih2 p).trans (write_owner_pte_pid ft procs idx _ p)
        · intro p v
          exact pte_eq_mod_R_trans (ih3 p v) (write_owner_pte_mod_R ft procs idx p v)
        · intro hL hm
          refine ih4 (fun x hx => hL x (List.mem_cons_of_mem idx hx)) ?_
          split_ifs
          · exact hL idx (List.mem_cons_self idx rest)
          · exact hm
      · rw [if_neg hR]
        obtain ⟨ih1, ih2, ih3, ih4⟩ := ih
          (if (ft idx).age < (ft oldest).age then idx else oldest) ft procs
        refine ⟨ih1, ih2, ih3, ?_⟩
        · intro hL hm
          refine ih4 (fun x hx => hL x (List.mem_cons_of_mem idx hx)) ?_
          split_ifs
          · exact hL idx (List.mem_cons_self idx rest)
          · exact hm

theorem random_select_lt (randvals : List Int) (ofs n : Nat)
    (hr : ∀ x ∈ randvals, 0 ≤ x) (hn : 0 < n) :
    (random_select randvals ofs n).1 < n := by
  unfold random_select
  have ha : 0 ≤ randvals.getD (ofs % randvals.length) 0 := by
    rcases hg : randvals[ofs % randvals.length]? with _ | x
    · simp [List.getD, List.get?_eq_getElem?, hg]
    · have hx := List.getElem?_mem hg
      simp only [List.getD, List.get?_eq_getElem?, hg, Option.getD_some]
      exact hr x hx
  set a := randvals.getD (ofs % randvals.length) 0 with haa
  have hnn : (0 : Int) < (n : Int) := by exact_mod_cast hn
  have htm : a.tmod (n : Int) = a % (n : Int) := Int.tmod_eq_emod ha (le_of_lt hnn)
  have hlt : a % (n : Int) < (n : Int) := Int.emod_lt_of_pos a hnn
  have hge : 0 ≤ a % (n : Int) := Int.emod_nonneg a (by omega)
  simp only [htm]
  omega

/-- Transfer of `SimInv` across a state whose frames changed mod age, whose
page tables changed mod R, and whose free list, geometry and current process
are unchanged. -/
theorem siminv_transfer (s s' : SimState) (hInv : SimInv s)
    (hft : ∀ i, frame_eq_mod_age (s'.ft i) (s.ft i))
    (hfree : s'.free = s.free) (hnf : s'.nframes = s.nframes)
    (hnp : s'.nprocs = s.nprocs) (hcu : s'.curr = s.curr)
    (hrv : s'.randvals = s.randvals)
    (hpcp : ∀ p, (s'.procs p).pid = (s.procs p).pid)
    (hpcr : ∀ p v, ((s'.procs p).page_table v).is_present
        = ((s.procs p).page_table v).is_present ∧
      ((s'.procs p).page_table v).frame_num
        = ((s.procs p).page_table v).frame_num)
    (hhand : pager_hand_ok s') : SimInv s' := by
  obtain ⟨a1, a2, a3, a4, a5, a6, a7, a8, a9, a10, a11, a12, _⟩ := hInv
  constructor
  · rw [hnf]; exact a1
  · rw [hnf]; exact a2
  · rw [hcu, hnp]; exact a3
  · intro p
    exact (hpcp p).trans (a4 p)
  · rw [hrv]; exact a5
  · rw [hfree]; exact a6
  · rw [hfree, hnf]; exact a7
  · intro i hi
    rw [(hft i).1, hfree]
    exact a8 i (hnf ▸ hi)
  · intro i hi
    rw [(hft i).2.2.2.1]
    exact a9 i (hnf ▸ hi)
  · intro i
    rw [(hft i).2.2.2.2, (hft i).1]
    exact a10 i
  · intro i hi hA
    have hA0 : (s.ft i).is_assigned = true := ((hft i).1).symm.trans hA
    obtain ⟨b1, b2, b3, b4, b5, b6⟩ := a11 i (hnf ▸ hi) hA0
    have hfp := hpcr ((s.ft i).pid).toNat ((s.ft i).vpage).toNat
    refine ⟨?_, ?_, ?_, ?_, ?_, ?_⟩
    · rw [(hft i).2.1]; exact b1
    · rw [(hft i).2.1, hnp]; exact b2
    · rw [(hft i).2.2.1]; exact b3
    · rw [(hft i).2.2.1]; exact b4
    · rw [(hft i).2.1, (hft i).2.2.1]
      exact hfp.1.trans b5
    · rw [(hft i).2.1, (hft i).2.2.1]
      exact hfp.2.trans b6
  · intro p v hP
    have hfp := hpcr p v
    have hP0 : ((s.procs p).page_table v).is_present = true := hfp.1.symm.trans hP
    obtain ⟨c1, c2, c3, c4⟩ := a12 p v hP0
    rw [hfp.2, hnf]
    set f := ((s.procs p).page_table v).frame_num with hf
    exact ⟨c1, ((hft f).1).trans c2, ((hft f).2.1).trans c3,
      ((hft f).2.2.1).trans c4⟩
  · exact hhand

/-- The ghost `everAlloc` field is invisible to the invariant. -/
theorem siminv_everAlloc (s : SimState) (e : Nat → Bool) (hInv : SimInv s) :
    SimInv { s with everAlloc := e } := by
  refine siminv_transfer s _ hInv (fun i => frame_eq_mod_age_refl _)
    rfl rfl rfl rfl rfl (fun p => rfl) (fun p v => ⟨rfl, rfl⟩) ?_
  exact hInv.hhand

theorem nru_select_victim_lt (hand lastReset ic n : Nat) (ft : Nat → Frame)
    (procs : Nat → Process) (hn : 0 < n) :
    (nru_select hand lastReset ic n ft procs).victim < n := by
  simp only [nru_select]
  obtain ⟨_, _, h3, h4⟩ := nru_loop_effects ft
    (decide (ic ≥ lastReset + NRU_RESET_COUNT)) (walk_order hand n)
    (fun _ => none) procs
  cases hv : (nru_loop ft (decide (ic ≥ lastReset + NRU_RESET_COUNT))
      (walk_order hand n) (fun _ => none) procs).2.2 with
  | some v =>
    simp only [hv]
    exact walk_order_lt hand n v (h3 v hv)
  | none =>
    simp only [hv]
    cases hc : nru_first_class (nru_loop ft
        (decide (ic ≥ lastReset + NRU_RESET_COUNT)) (walk_order hand n)
        (fun _ => none) procs).1 with
    | some w =>
      simp only [hc, Option.getD_some]
      rcases nru_first_class_mem _ w hc with h | h | h | h <;>
        rcases h4 _ w h with h' | h' <;>
        first
        | exact walk_order_lt hand n w h'
        | simp at h'
    | none =>
      simp only [hc, Option.getD_none]
      exact hn

/-- `select_victim_frame` preserves the invariant; its victim is in range
and it only touches ages, R bits, and the pager's own bookkeeping. -/
theorem siminv_select (s : SimState) (hInv : SimInv s) :
    (select_victim_frame s).1 < s.nframes ∧
    SimInv (select_victim_frame s).2 ∧
    (select_victim_frame s).2.free = s.free ∧
    (select_victim_frame s).2.nframes = s.nframes ∧
    (select_victim_frame s).2.nprocs = s.nprocs ∧
    (select_victim_frame s).2.curr = s.curr ∧
    (∀ p v, pte_eq_mod_R (((select_victim_frame s).2.procs p).page_table v)
      ((s.procs p).page_table v)) ∧
    (∀ i, frame_eq_mod_age ((select_victim_frame s).2.ft i) (s.ft i)) := by
  have hn := hInv.hframes
  have hh := hInv.hhand
  cases hpg : s.pager with
  | fifo hand =>
    simp only [pager_hand_ok, hpg] at hh
    have hsel : select_victim_frame s
        = ((fifo_select hand s.nframes).1,
           { s with pager := .fifo (fifo_select hand s.nframes).2 }) := by
      simp only [select_victim_frame, hpg]
    rw [hsel]
    refine ⟨hh, ?_, rfl, rfl, rfl, rfl, fun p v => pte_eq_mod_R_refl _,
      fun i => frame_eq_mod_age_refl _⟩
    refine siminv_transfer s _ hInv (fun i => frame_eq_mod_age_refl _)
      rfl rfl rfl rfl rfl (fun p => rfl) (fun p v => ⟨rfl, rfl⟩) ?_
    simp only [pager_hand_ok, fifo_select]
    exact Nat.mod_lt _ hn
  | rnd =>
    have hsel : select_victim_frame s
        = ((random_select s.randvals s.ofs s.nframes).1,
           { s with ofs := (random_select s.randvals s.ofs s.nframes).2 }) := by
      simp only [select_victim_frame, hpg]
    rw [hsel]
    refine ⟨random_select_lt s.randvals s.ofs s.nframes hInv.hrand hn, ?_,
      rfl, rfl, rfl, rfl, fun p v => pte_eq_mod_R_refl _,
      fun i => frame_eq_mod_age_refl _⟩
    refine siminv_transfer s _ hInv (fun i => frame_eq_mod_age_refl _)
      rfl rfl rfl rfl rfl (fun p => rfl) (fun p v => ⟨rfl, rfl⟩) ?_
    simp only [pager_hand_ok, hpg]
  | clock hand =>
    simp only [pager_hand_ok, hpg] at hh
    have hsel : select_victim_frame s
        = ((clock_select hand s.nframes s.ft s.procs).victim,
           { s with procs := (clock_select hand s.nframes s.ft s.procs).procs,
                    pager := .clock (clock_select hand s.nframes s.ft
                      s.procs).hand }) := by
      simp only [select_victim_frame, hpg]
    rw [hsel]
    obtain ⟨e1, e2, e3⟩ := clock_loop_effects s.ft s.nframes (s.nframes + 1)
      hand s.procs
    refine ⟨e3 hn hh, ?_, rfl, rfl, rfl, rfl, e2,
      fun i => frame_eq_mod_age_refl _⟩
    refine siminv_transfer s _ hInv (fun i => frame_eq_mod_age_refl _)
      rfl rfl rfl rfl rfl e1 (fun p v => pte_eq_mod_R_fields (e2 p v)) ?_
    simp only [pager_hand_ok]
    exact Nat.mod_lt _ hn
  | nru hand lastReset =>
    have hsel : select_victim_frame s
        = ((nru_select hand lastReset s.insCounter s.nframes s.ft
              s.procs).victim,
           { s with procs := (nru_select hand lastReset s.insCounter s.nframes
                        s.ft s.procs).procs,
                    pager := PagerState.nru ((nru_select hand lastReset
                        s.insCounter s.nframes s.ft s.procs).hand)
                      ((nru_select hand lastReset s.insCounter s.nframes s.ft
                        s.procs).lastReset) }) := by
      simp only [select_victim_frame, hpg]
    rw [hsel]
    obtain ⟨e1, e2, _, _⟩ := nru_loop_effects s.ft
      (decide (s.insCounter ≥ lastReset + NRU_RESET_COUNT))
      (walk_order hand s.nframes) (fun _ => none) s.procs
    have hv := nru_select_victim_lt hand lastReset s.insCounter s.nframes
      s.ft s.procs hn
    refine ⟨hv, ?_, rfl, rfl, rfl, rfl, e2, fun i => frame_eq_mod_age_refl _⟩
    refine siminv_transfer s _ hInv (fun i => frame_eq_mod_age_refl _)
      rfl rfl rfl rfl rfl e1 (fun p v => pte_eq_mod_R_fields (e2 p v)) ?_
    simp only [pager_hand_ok]
    exact Nat.mod_lt _ hn
  | aging hand =>
    simp only [pager_hand_ok, hpg] at hh
    have hsel : select_victim_frame s
        = ((aging_select hand s.nframes s.ft s.procs).victim,
           { s with ft := (aging_select hand s.nframes s.ft s.procs).ft,
                    procs := (aging_select hand s.nframes s.ft s.procs).procs,
                    pager := .aging (aging_select hand s.nframes s.ft
                      s.procs).hand }) := by
      simp only [select_victim_frame, hpg]
    rw [hsel]
    obtain ⟨e1, e2, e3, e4⟩ := aging_loop_effects s.nframes
      (walk_order hand s.nframes) s.ft s.procs hand
    refine ⟨e4 (fun x hx => walk_order_lt hand s.nframes x hx) hh, ?_,
      rfl, rfl, rfl, rfl, e3, e1⟩
    refine siminv_transfer s _ hInv e1 rfl rfl rfl rfl rfl e2 (fun p v => pte_eq_mod_R_fields (e3 p v)) ?_
    simp only [pager_hand_ok]
    exact Nat.mod_lt _ hn
  | ws hand =>
    simp only [pager_hand_ok, hpg] at hh
    have hsel : select_victim_frame s
        = ((ws_select hand s.insCounter s.nframes s.ft s.procs).victim,
           { s with ft := (ws_select hand s.insCounter s.nframes s.ft
                      s.procs).ft,
                    procs := (ws_select hand s.insCounter s.nframes s.ft
                      s.procs).procs,
                    pager := .ws ((ws_select hand s.insCounter s.nframes s.ft
                      s.procs).hand) }) := by
      simp only [select_victim_frame, hpg]
    rw [hsel]
    obtain ⟨e1, e2, e3, e4⟩ := ws_loop_effects s.insCounter s.nframes
      (walk_order hand s.nframes) hand s.ft s.procs
    refine ⟨e4 (fun x hx => walk_order_lt hand s.nframes x hx) hh, ?_,
      rfl, rfl, rfl, rfl, e3, e1⟩
    refine siminv_transfer s _ hInv e1 rfl rfl rfl rfl rfl e2 (fun p v => pte_eq_mod_R_fields (e3 p v)) ?_
    simp only [pager_hand_ok]
    exact Nat.mod_lt _ hn

theorem upd_bump_pid (procs : Nat → Process) (p : Nat) (g : Process → Process)
    (hg : ∀ x, (g x).pid = x.pid) (q : Nat) :
    ((upd procs p (g (procs p))) q).pid = (procs q).pid := by
  by_cases h : q = p <;> simp [upd, h, hg]

theorem upd_bump_pt (procs : Nat → Process) (p : Nat) (g : Process → Process)
    (hg : ∀ x, (g x).page_table = x.page_table) (q : Nat) :
    ((upd procs p (g (procs p))) q).page_table = (procs q).page_table := by
  by_cases h : q = p <;> simp [upd, h, hg]

/-! ### Structural facts about `unmap_victim_frame` -/

theorem unmap_victim_frame_skeleton (victim : Frame) (s : SimState) :
    (unmap_victim_frame victim s).1.ft = s.ft ∧
    (unmap_victim_frame victim s).1.free = s.free ∧
    (unmap_victim_frame victim s).1.nframes = s.nframes ∧
    (unmap_victim_frame victim s).1.nprocs = s.nprocs ∧
    (unmap_victim_frame victim s).1.curr = s.curr ∧
    (unmap_victim_frame victim s).1.pager = s.pager ∧
    (unmap_victim_frame victim s).1.randvals = s.randvals ∧
    (unmap_victim_frame victim s).1.insCounter = s.insCounter := by
  simp only [unmap_victim_frame]
  split_ifs <;> exact ⟨rfl, rfl, rfl, rfl, rfl, rfl, rfl, rfl⟩

theorem unmap_victim_frame_pid (victim : Frame) (s : SimState) (q : Nat) :
    ((unmap_victim_frame victim s).1.procs q).pid = (s.procs q).pid := by
  simp only [unmap_victim_frame]
  split_ifs <;>
    simp only [set_pte_pid, upd_bump_pid _ _ bump_unmaps (fun _ => rfl),
      upd_bump_pid _ _ bump_fouts (fun _ => rfl),
      upd_bump_pid _ _ bump_outs (fun _ => rfl)]

theorem unmap_victim_frame_pt_ne (victim : Frame) (s : SimState) (p w : Nat)
    (h : (p, w) ≠ ((victim.pid).toNat, (victim.vpage).toNat)) :
    ((unmap_victim_frame victim s).1.procs p).page_table w
      = ((s.procs p).page_table w) := by
  simp only [unmap_victim_frame]
  split_ifs <;>
    simp only [upd_bump_pt _ _ bump_unmaps (fun _ => rfl),
      upd_bump_pt _ _ bump_fouts (fun _ => rfl),
      upd_bump_pt _ _ bump_outs (fun _ => rfl),
      set_pte_read_ne _ _ _ _ _ _ h]

theorem unmap_victim_frame_self_absent (victim : Frame) (s : SimState) :
    (((unmap_victim_frame victim s).1.procs (victim.pid).toNat).page_table
      (victim.vpage).toNat).is_present = false := by
  simp only [unmap_victim_frame]
  split_ifs <;>
    simp [set_pte_page_table_self, upd_bump_pt _ _ bump_unmaps (fun _ => rfl),
      upd_bump_pt _ _ bump_fouts (fun _ => rfl),
      upd_bump_pt _ _ bump_outs (fun _ => rfl)]

theorem unmap_victim_frame_events (victim : Frame) (s : SimState) :
    ∃ tail, (unmap_victim_frame victim s).2
      = Event.unmapEv victim.pid victim.vpage :: tail := by
  simp only [unmap_victim_frame]
  split_ifs <;> exact ⟨_, rfl⟩

/-! ### Establishing the fault midpoint -/

/-- Popping the free-list head establishes the fault midpoint. -/
theorem mappre_of_free_pop (s : SimState) (f : Nat) (rest : List Nat)
    (vpage : Nat) (hInv : SimInv s) (hfr : s.free = f :: rest)
    (hvp : vpage < MAX_VPAGES)
    (habs : ((s.procs s.curr).page_table vpage).is_present = false)
    (e : Nat → Bool) :
    MapPre { s with free := rest, everAlloc := e } f vpage := by
  have hf_mem : f ∈ s.free := by rw [hfr]; exact List.mem_cons_self f rest
  have hf_lt : f < s.nframes := hInv.hfree_lt f hf_mem
  have hnd : (f :: rest).Nodup := hfr ▸ hInv.hfree_nd
  have hf_notin : f ∉ rest := (List.nodup_cons.mp hnd).1
  constructor
  · exact hInv.hframes
  · exact hInv.hframes_le
  · exact hInv.hcurr
  · exact hInv.hpid
  · exact hInv.hrand
  · exact hf_lt
  · exact hvp
  · exact habs
  · exact (List.nodup_cons.mp hnd).2
  · intro x hx
    exact hInv.hfree_lt x (by rw [hfr]; exact List.mem_cons_of_mem f hx)
  · exact hf_notin
  · intro i hi hne
    rw [hInv.hfree_iff i hi, hfr]
    constructor
    · intro h
      rcases List.mem_cons.mp h with h | h
      · exact absurd h hne
      · exact h
    · exact List.mem_cons_of_mem f
  · exact hInv.hfid
  · intro i _
    exact hInv.hvict i
  · intro i hi _ hA
    exact hInv.hframe_ok i hi hA
  · intro p v hP
    obtain ⟨c1, c2, c3, c4⟩ := hInv.hpte_ok p v hP
    refine ⟨c1, ?_, c2, c3, c4⟩
    intro hEq
    have hfa : (s.ft f).is_assigned = false := (hInv.hfree_iff f hf_lt).mpr hf_mem
    rw [hEq] at c2
    rw [c2] at hfa
    cases hfa
  · exact hInv.hhand

/-- Unmapping the selected victim establishes the fault midpoint (when the
free list is empty every frame is assigned, so its owner PTE is exactly the
one the unmap clears). -/
theorem mappre_of_unmap (s : SimState) (fidx vpage : Nat) (hInv : SimInv s)
    (hfr : s.free = []) (hfx : fidx < s.nframes) (hvp : vpage < MAX_VPAGES)
    (habs : ((s.procs s.curr).page_table vpage).is_present = false) :
    MapPre (unmap_victim_frame (s.ft fidx) s).1 fidx vpage := by
  obtain ⟨kft, kfree, knf, knp, kcu, kpg, krv, kic⟩ :=
    unmap_victim_frame_skeleton (s.ft fidx) s
  have hassigned : ∀ i, i < s.nframes → (s.ft i).is_assigned = true := by
    intro i hi
    by_cases h : (s.ft i).is_assigned = true
    · exact h
    · have h' : (s.ft i).is_assigned = false := by
        cases hb : (s.ft i).is_assigned
        · rfl
        · exact absurd hb h
      have := (hInv.hfree_iff i hi).mp h'
      rw [hfr] at this
      cases this
  obtain ⟨f1, f2, f3, f4, f5, f6⟩ := hInv.hframe_ok fidx hfx (hassigned fidx hfx)
  have howner_ne : ∀ i, i < s.nframes → i ≠ fidx →
      (((s.ft i).pid).toNat, ((s.ft i).vpage).toNat)
        ≠ (((s.ft fidx).pid).toNat, ((s.ft fidx).vpage).toNat) := by
    intro i hi hne hEq
    obtain ⟨_, _, _, _, _, g6⟩ := hInv.hframe_ok i hi (hassigned i hi)
    have hp : ((s.ft i).pid).toNat = ((s.ft fidx).pid).toNat :=
      congrArg Prod.fst hEq
    have hv : ((s.ft i).vpage).toNat = ((s.ft fidx).vpage).toNat :=
      congrArg Prod.snd hEq
    rw [hp, hv] at g6
    rw [g6] at f6
    exact hne f6
  have htarget_ne : (s.curr, vpage)
      ≠ (((s.ft fidx).pid).toNat, ((s.ft fidx).vpage).toNat) := by
    intro hEq
    have hp : s.curr = ((s.ft fidx).pid).toNat := congrArg Prod.fst hEq
    have hv : vpage = ((s.ft fidx).vpage).toNat := congrArg Prod.snd hEq
    rw [← hp, ← hv] at f5
    rw [f5] at habs
    cases habs
  constructor
  · rw [knf]; exact hInv.hframes
  · rw [knf]; exact hInv.hframes_le
  · rw [kcu, knp]; exact hInv.hcurr
  · intro p
    rw [unmap_victim_frame_pid]
    exact hInv.hpid p
  · rw [krv]; exact hInv.hrand
  · rw [knf]; exact hfx
  · exact hvp
  · rw [kcu, unmap_victim_frame_pt_ne (s.ft fidx) s s.curr vpage htarget_ne]
    exact habs
  · rw [kfree, hfr]; exact List.nodup_nil
  · rw [kfree, hfr]
    intro x hx
    cases hx
  · rw [kfree, hfr]
    simp
  · intro i hi hne
    rw [knf] at hi
    rw [kft, kfree, hfr, hassigned i hi]
    simp
  · intro i hi
    rw [kft]
    exact hInv.hfid i (knf ▸ hi)
  · intro i _
    rw [kft]
    exact hInv.hvict i
  · intro i hi hne hA
    rw [kft] at hA ⊢
    have hi' : i < s.nframes := knf ▸ hi
    obtain ⟨g1, g2, g3, g4, g5, g6⟩ := hInv.hframe_ok i hi' hA
    refine ⟨g1, by rw [knp]; exact g2, g3, g4, ?_, ?_⟩
    · rw [unmap_victim_frame_pt_ne (s.ft fidx) s _ _ (howner_ne i hi' hne)]
      exact g5
    · rw [unmap_victim_frame_pt_ne (s.ft fidx) s _ _ (howner_ne i hi' hne)]
      exact g6
  · intro p v hP
    by_cases hkey : (p, v) = (((s.ft fidx).pid).toNat, ((s.ft fidx).vpage).toNat)
    · have hp : p = ((s.ft fidx).pid).toNat := congrArg Prod.fst hkey
      have hv : v = ((s.ft fidx).vpage).toNat := congrArg Prod.snd hkey
      rw [hp, hv, unmap_victim_frame_self_absent] at hP
      cases hP
    · rw [unmap_victim_frame_pt_ne (s.ft fidx) s p v hkey] at hP
      obtain ⟨c1, c2, c3, c4⟩ := hInv.hpte_ok p v hP
      rw [kft, knf, unmap_victim_frame_pt_ne (s.ft fidx) s p v hkey]
      refine ⟨c1, ?_, c2, c3, c4⟩
      intro hEq
      rw [hEq] at c3 c4
      exact hkey (by rw [c3, c4]; simp)
  · have : pager_hand_ok (unmap_victim_frame (s.ft fidx) s).1 = pager_hand_ok s := by
      unfold pager_hand_ok
      rw [kpg, knf]
    rw [this]
    exact hInv.hhand

/-- `reset_age` only rewrites one frame's age, so it preserves the invariant. -/
theorem siminv_reset_age (fid : Nat) (s : SimState) (hInv : SimInv s) :
    SimInv (pager_reset_age fid s) := by
  unfold pager_reset_age
  split
  · refine siminv_transfer s _ hInv ?_ rfl rfl rfl rfl rfl
      (fun p => rfl) (fun p v => ⟨rfl, rfl⟩) hInv.hhand
    intro i
    by_cases hi : i = fid
    · subst hi
      rw [show ({ s with ft := upd s.ft i { s.ft i with age := 0 } } :
          SimState).ft i = upd s.ft i { s.ft i with age := 0 } i from rfl,
        upd_self]
      exact ⟨rfl, rfl, rfl, rfl, rfl⟩
    · rw [show ({ s with ft := upd s.ft fid { s.ft fid with age := 0 } } :
          SimState).ft i = upd s.ft fid { s.ft fid with age := 0 } i from rfl,
        upd_ne _ _ hi]
      exact frame_eq_mod_age_refl _
  · refine siminv_transfer s _ hInv ?_ rfl rfl rfl rfl rfl
      (fun p => rfl) (fun p v => ⟨rfl, rfl⟩) hInv.hhand
    intro i
    by_cases hi : i = fid
    · subst hi
      rw [show ({ s with ft := upd s.ft i { s.ft i with age := s.insCounter } } :
          SimState).ft i = upd s.ft i { s.ft i with age := s.insCounter } i from
          rfl, upd_self]
      exact ⟨rfl, rfl, rfl, rfl, rfl⟩
    · rw [show ({ s with ft := upd s.ft fid { s.ft fid with age := s.insCounter } } :
          SimState).ft i
          = upd s.ft fid { s.ft fid with age := s.insCounter } i from rfl,
        upd_ne _ _ hi]
      exact frame_eq_mod_age_refl _
  · exact hInv

/-- The classification bump keeps the fault midpoint. -/
theorem mappre_classify (vpage fidx : Nat) (s : SimState)
    (h : MapPre s fidx vpage) : MapPre (fault_classify vpage s).1 fidx vpage := by
  have key : ∀ (g : Process → Process), (∀ x, (g x).page_table = x.page_table) →
      (∀ x, (g x).pid = x.pid) → ∀ (c : Nat),
      MapPre { s with procs := upd s.procs s.curr (g (s.procs s.curr)),
                      cost := c } fidx vpage := by
    intro g hgpt hgpid c
    have hpt : ∀ q, ((upd s.procs s.curr (g (s.procs s.curr))) q).page_table
        = (s.procs q).page_table := upd_bump_pt _ _ g hgpt
    have hpid : ∀ q, ((upd s.procs s.curr (g (s.procs s.curr))) q).pid
        = (s.procs q).pid := upd_bump_pid _ _ g hgpid
    constructor
    · exact h.hframes
    · exact h.hframes_le
    · exact h.hcurr
    · intro p
      exact (hpid p).trans (h.hpid p)
    · exact h.hrand
    · exact h.hfidx
    · exact h.hvpage
    · have hx := h.habsent
      rw [← hpt s.curr] at hx
      exact hx
    · exact h.hfree_nd
    · exact h.hfree_lt
    · exact h.hfree_fidx
    · exact h.hfree_iff
    · exact h.hfid
    · exact h.hvict
    · intro i hi hne hA
      obtain ⟨g1, g2, g3, g4, g5, g6⟩ := h.hframe_ok i hi hne hA
      rw [← hpt (((s.ft i).pid).toNat)] at g5 g6
      exact ⟨g1, g2, g3, g4, g5, g6⟩
    · intro p v hP
      have hP' : ((s.procs p).page_table v).is_present = true := by
        rw [← hpt p]
        exact hP
      obtain ⟨c1, c2, c3, c4⟩ := h.hpte_ok p v hP'
      rw [← hpt p] at c1 c2 c3 c4
      exact ⟨c1, c2, c3, c4⟩
    · exact h.hhand
  simp only [fault_classify]
  split_ifs
  · exact key bump_fins (fun _ => rfl) (fun _ => rfl) (s.cost + FINS_TIME)
  · exact key bump_ins (fun _ => rfl) (fun _ => rfl) (s.cost + INS_TIME)
  · exact key bump_zeros (fun _ => rfl) (fun _ => rfl) (s.cost + ZEROS_TIME)

/-- Unfolding of the mapping tail into one explicit state. -/
theorem map_fault_tail_eq (vpage fidx : Nat) (s : SimState) :
    map_fault_tail vpage fidx s
      = (pager_reset_age (fault_fnum s vpage fidx)
          { s with
            ft := upd s.ft fidx (fault_frame2 s vpage fidx),
            procs := upd (set_pte s.procs s.curr vpage (fault_pte2 s vpage fidx))
                s.curr
                (bump_maps ((set_pte s.procs s.curr vpage
                  (fault_pte2 s vpage fidx)) s.curr)),
            cost := s.cost + MAPS_TIME },
         [Event.mapEv (fault_fnum s vpage fidx)]) := rfl

theorem pager_hand_ok_congr (s s' : SimState) (hpg : s'.pager = s.pager)
    (hnf : s'.nframes = s.nframes) (hh : pager_hand_ok s) : pager_hand_ok s' := by
  unfold pager_hand_ok at *
  rw [hpg, hnf]
  exact hh

/-- The mapping writes at the end of a fault restore the full invariant from
the fault midpoint. -/
theorem siminv_of_map_writes (s : SimState) (fidx vpage : Nat)
    (h : MapPre s fidx vpage) (s' : SimState)
    (hft : s'.ft = upd s.ft fidx (fault_frame2 s vpage fidx))
    (hprocsE : ∀ p, s'.procs p
      = (upd (set_pte s.procs s.curr vpage (fault_pte2 s vpage fidx)) s.curr
          (bump_maps (set_pte s.procs s.curr vpage (fault_pte2 s vpage fidx)
            s.curr))) p)
    (hfree : s'.free = s.free) (hnf : s'.nframes = s.nframes)
    (hnp : s'.nprocs = s.nprocs) (hcu : s'.curr = s.curr)
    (hrv : s'.randvals = s.randvals) (hpg : s'.pager = s.pager) :
    SimInv s' := by
  have hfnum : fault_fnum s vpage fidx = fidx := by
    unfold fault_fnum
    rw [upd_self]
    rw [show (fault_frame2 s vpage fidx).frame_id = (s.ft fidx).frame_id
      from rfl, h.hfid fidx h.hfidx]
    have h128 : fidx < 128 := lt_of_lt_of_le h.hfidx h.hframes_le
    show (((fidx : Int)) % (((128 : Nat)) : Int)).toNat = fidx
    omega
  have hPT2fn : (fault_pte2 s vpage fidx).frame_num = fidx := hfnum
  have hpidc : (s.procs s.curr).pid = s.curr := h.hpid s.curr
  have hW_pt_ne : ∀ p w, (p, w) ≠ (s.curr, vpage) →
      ((upd (set_pte s.procs s.curr vpage (fault_pte2 s vpage fidx)) s.curr
        (bump_maps (set_pte s.procs s.curr vpage (fault_pte2 s vpage fidx)
          s.curr))) p).page_table w = (s.procs p).page_table w := by
    intro p w hne
    rw [upd_bump_pt (set_pte s.procs s.curr vpage (fault_pte2 s vpage fidx))
      s.curr bump_maps (fun _ => rfl) p]
    exact set_pte_read_ne s.procs s.curr vpage _ p w hne
  have hW_pt_self :
      ((upd (set_pte s.procs s.curr vpage (fault_pte2 s vpage fidx)) s.curr
        (bump_maps (set_pte s.procs s.curr vpage (fault_pte2 s vpage fidx)
          s.curr))) s.curr).page_table vpage = fault_pte2 s vpage fidx := by
    rw [upd_bump_pt (set_pte s.procs s.curr vpage (fault_pte2 s vpage fidx))
      s.curr bump_maps (fun _ => rfl) s.curr]
    exact set_pte_page_table_self s.procs s.curr vpage _
  have hW_pid : ∀ p,
      ((upd (set_pte s.procs s.curr vpage (fault_pte2 s vpage fidx)) s.curr
        (bump_maps (set_pte s.procs s.curr vpage (fault_pte2 s vpage fidx)
          s.curr))) p).pid = (s.procs p).pid := fun p =>
    (upd_bump_pid (set_pte s.procs s.curr vpage (fault_pte2 s vpage fidx))
      s.curr bump_maps (fun _ => rfl) p).trans
      (set_pte_pid s.procs s.curr vpage _ p)
  have howner_ne : ∀ i, i < s.nframes → i ≠ fidx →
      (s.ft i).is_assigned = true →
      ((((s.ft i).pid).toNat, ((s.ft i).vpage).toNat) ≠ (s.curr, vpage)) := by
    intro i hi hne hA hEq
    obtain ⟨_, _, _, _, g5, _⟩ := h.hframe_ok i hi hne hA
    have hp : ((s.ft i).pid).toNat = s.curr := congrArg Prod.fst hEq
    have hv : ((s.ft i).vpage).toNat = vpage := congrArg Prod.snd hEq
    rw [hp, hv] at g5
    have := h.habsent
    rw [g5] at this
    cases this
  constructor
  · rw [hnf]; exact h.hframes
  · rw [hnf]; exact h.hframes_le
  · rw [hcu, hnp]; exact h.hcurr
  · intro p
    rw [hprocsE p]
    exact (hW_pid p).trans (h.hpid p)
  · rw [hrv]; exact h.hrand
  · rw [hfree]; exact h.hfree_nd
  · rw [hfree, hnf]; exact h.hfree_lt
  · intro i hi
    rw [hnf] at hi
    rw [hft, hfree]
    by_cases hif : i = fidx
    · subst hif
      rw [upd_self]
      constructor
      · intro hx
        rw [show (fault_frame2 s vpage i).is_assigned = true from rfl] at hx
        cases hx
      · intro hmem
        exact absurd hmem h.hfree_fidx
    · rw [upd_ne _ _ hif]
      exact h.hfree_iff i hi hif
  · intro i hi
    rw [hnf] at hi
    rw [hft]
    by_cases hif : i = fidx
    · subst hif
      rw [upd_self]
      exact h.hfid i h.hfidx
    · rw [upd_ne _ _ hif]
      exact h.hfid i hi
  · intro i
    rw [hft]
    by_cases hif : i = fidx
    · subst hif
      rw [upd_self]
      rfl
    · rw [upd_ne _ _ hif]
      exact h.hvict i hif
  · intro i hi hA
    rw [hnf] at hi
    rw [hft] at hA ⊢
    by_cases hif : i = fidx
    · subst hif
      rw [upd_self]
      rw [show (fault_frame2 s vpage i).pid = ((s.procs s.curr).pid : Int)
        from rfl, hpidc,
        show (fault_frame2 s vpage i).vpage = (vpage : Int) from rfl]
      refine ⟨Int.natCast_nonneg _, ?_, Int.natCast_nonneg _, ?_, ?_, ?_⟩
      · rw [hnp]
        simpa using h.hcurr
      · simpa using h.hvpage
      · rw [show ((s.curr : Int)).toNat = s.curr from by simp,
          show ((vpage : Int)).toNat = vpage from by simp,
          hprocsE s.curr, hW_pt_self]
        rfl
      · rw [show ((s.curr : Int)).toNat = s.curr from by simp,
          show ((vpage : Int)).toNat = vpage from by simp,
          hprocsE s.curr, hW_pt_self]
        exact hPT2fn
    · rw [upd_ne _ _ hif] at hA ⊢
      obtain ⟨g1, g2, g3, g4, g5, g6⟩ := h.hframe_ok i hi hif hA
      refine ⟨g1, by rw [hnp]; exact g2, g3, g4, ?_, ?_⟩
      · rw [hprocsE _, hW_pt_ne _ _ (howner_ne i hi hif hA)]
        exact g5
      · rw [hprocsE _, hW_pt_ne _ _ (howner_ne i hi hif hA)]
        exact g6
  · intro p v hP
    rw [hprocsE p] at hP
    rw [hprocsE p, hft]
    by_cases hkey : (p, v) = (s.curr, vpage)
    · have hp : p = s.curr := congrArg Prod.fst hkey
      have hv : v = vpage := congrArg Prod.snd hkey
      subst hp
      subst hv
      rw [hW_pt_self, hPT2fn]
      refine ⟨by rw [hnf]; exact h.hfidx, ?_, ?_, ?_⟩
      · rw [upd_self]
        rfl
      · rw [upd_self]
        rw [show (fault_frame2 s v fidx).pid = ((s.procs s.curr).pid : Int)
          from rfl, hpidc]
      · rw [upd_self]
        rfl
    · rw [hW_pt_ne p v hkey] at hP
      obtain ⟨c1, cne, c2, c3, c4⟩ := h.hpte_ok p v hP
      rw [hW_pt_ne p v hkey, hnf]
      refine ⟨c1, ?_, ?_, ?_⟩
      · rw [upd_ne _ _ cne]
        exact c2
      · rw [upd_ne _ _ cne]
        exact c3
      · rw [upd_ne _ _ cne]
        exact c4
  · exact pager_hand_ok_congr s s' hpg hnf h.hhand

/-- The mapping tail (including `reset_age`) restores the invariant. -/
theorem siminv_map_tail (vpage fidx : Nat) (s : SimState)
    (h : MapPre s fidx vpage) : SimInv (map_fault_tail vpage fidx s).1 := by
  rw [map_fault_tail_eq]
  exact siminv_reset_age _ _
    (siminv_of_map_writes s fidx vpage h _ rfl (fun p => rfl)
      rfl rfl rfl rfl rfl rfl)

theorem pager_reset_age_skeleton (fid : Nat) (s : SimState) :
    (pager_reset_age fid s).nframes = s.nframes ∧
    (pager_reset_age fid s).nprocs = s.nprocs ∧
    (pager_reset_age fid s).free = s.free ∧
    (pager_reset_age fid s).curr = s.curr ∧
    (pager_reset_age fid s).procs = s.procs := by
  unfold pager_reset_age
  split <;> exact ⟨rfl, rfl, rfl, rfl, rfl⟩

theorem map_fault_tail_skeleton (vpage fidx : Nat) (s : SimState) :
    (map_fault_tail vpage fidx s).1.nframes = s.nframes ∧
    (map_fault_tail vpage fidx s).1.nprocs = s.nprocs ∧
    (map_fault_tail vpage fidx s).1.free = s.free := by
  refine ⟨?_, ?_, ?_⟩ <;> simp only [map_fault_tail_eq] <;>
    first
    | rw [(pager_reset_age_skeleton _ _).1]
    | rw [(pager_reset_age_skeleton _ _).2.1]
    | rw [(pager_reset_age_skeleton _ _).2.2.1]

theorem fault_classify_skeleton (vpage : Nat) (s : SimState) :
    (fault_classify vpage s).1.ft = s.ft ∧
    (fault_classify vpage s).1.free = s.free ∧
    (fault_classify vpage s).1.nframes = s.nframes ∧
    (fault_classify vpage s).1.nprocs = s.nprocs ∧
    (fault_classify vpage s).1.curr = s.curr := by
  simp only [fault_classify]
  split_ifs <;> exact ⟨rfl, rfl, rfl, rfl, rfl⟩

/-- The state of `ldst_fault` factors through acquisition, optional unmap,
classification and the mapping tail. -/
theorem ldst_fault_state_eq (vpage : Nat) (s : SimState) :
    (ldst_fault vpage s).1
      = (map_fault_tail vpage (get_frame s).1
          (fault_classify vpage
            (if ((get_frame s).2.ft (get_frame s).1).is_victim
             then unmap_victim_frame ((get_frame s).2.ft (get_frame s).1)
                    (get_frame s).2
             else ((get_frame s).2, [])).1).1).1 := rfl

/-- The events of `ldst_fault`: unmap events, the classification event, MAP. -/
theorem ldst_fault_events_eq (vpage : Nat) (s : SimState) :
    (ldst_fault vpage s).2
      = (if ((get_frame s).2.ft (get_frame s).1).is_victim
         then unmap_victim_frame ((get_frame s).2.ft (get_frame s).1)
                (get_frame s).2
         else ((get_frame s).2, [])).2
        ++ (fault_classify vpage
            (if ((get_frame s).2.ft (get_frame s).1).is_victim
             then unmap_victim_frame ((get_frame s).2.ft (get_frame s).1)
                    (get_frame s).2
             else ((get_frame s).2, [])).1).2
        ++ (map_fault_tail vpage (get_frame s).1
            (fault_classify vpage
              (if ((get_frame s).2.ft (get_frame s).1).is_victim
               then unmap_victim_frame ((get_frame s).2.ft (get_frame s).1)
                      (get_frame s).2
               else ((get_frame s).2, [])).1).1).2 := rfl

theorem get_frame_cons (s : SimState) (f : Nat) (rest : List Nat)
    (hfr : s.free = f :: rest) :
    get_frame s
      = (f, { s with free := rest, everAlloc := upd s.everAlloc f true }) := by
  unfold get_frame
  rw [hfr]

theorem get_frame_nil (s : SimState) (hfr : s.free = []) :
    get_frame s
      = ((select_victim_frame s).1,
         { (select_victim_frame s).2 with
           everAlloc := upd (select_victim_frame s).2.everAlloc
             (select_victim_frame s).1 true }) := by
  unfold get_frame
  rw [hfr]

/-- The page-fault block preserves the invariant. -/
theorem siminv_ldst_fault (vpage : Nat) (s : SimState) (hInv : SimInv s)
    (hvp : vpage < MAX_VPAGES)
    (habs : ((s.procs s.curr).page_table vpage).is_present = false) :
    SimInv (ldst_fault vpage s).1 ∧
    (ldst_fault vpage s).1.nframes = s.nframes ∧
    (ldst_fault vpage s).1.nprocs = s.nprocs := by
  cases hfr : s.free with
  | cons f rest =>
    have hf_mem : f ∈ s.free := by rw [hfr]; exact List.mem_cons_self f rest
    have hf_lt : f < s.nframes := hInv.hfree_lt f hf_mem
    have hfA : (s.ft f).is_assigned = false :=
      (hInv.hfree_iff f hf_lt).mpr hf_mem
    have hfV : (s.ft f).is_victim = false := (hInv.hvict f).trans hfA
    have hmp : MapPre (fault_classify vpage
        { s with free := rest, everAlloc := upd s.everAlloc f true }).1 f vpage :=
      mappre_classify vpage f _
        (mappre_of_free_pop s f rest vpage hInv hfr hvp habs _)
    have hstate : (ldst_fault vpage s).1
        = (map_fault_tail vpage f (fault_classify vpage
            { s with free := rest, everAlloc := upd s.everAlloc f true }).1).1 := by
      simp only [ldst_fault_state_eq vpage s, get_frame_cons s f rest hfr]
      rw [hfV]
      simp
    rw [hstate]
    refine ⟨siminv_map_tail vpage f _ hmp, ?_, ?_⟩
    · rw [(map_fault_tail_skeleton vpage f _).1,
        (fault_classify_skeleton vpage _).2.2.1]
    · rw [(map_fault_tail_skeleton vpage f _).2.1,
        (fault_classify_skeleton vpage _).2.2.2.1]
  | nil =>
    obtain ⟨hvlt, hSInv, hSfree, hSnf, hSnp, hScu, hSpc, hSft⟩ :=
      siminv_select s hInv
    have hSfree0 : (select_victim_frame s).2.free = [] := hSfree.trans hfr
    have hA : ((select_victim_frame s).2.ft
        (select_victim_frame s).1).is_assigned = true := by
      by_cases hb : ((select_victim_frame s).2.ft
          (select_victim_frame s).1).is_assigned = true
      · exact hb
      · have hb' : ((select_victim_frame s).2.ft
            (select_victim_frame s).1).is_assigned = false := by
          cases hx : ((select_victim_frame s).2.ft
              (select_victim_frame s).1).is_assigned
          · rfl
          · exact absurd hx hb
        have := (hSInv.hfree_iff (select_victim_frame s).1
          (by rw [hSnf]; exact hvlt)).mp hb'
        rw [hSfree0] at this
        cases this
    have hV : ((select_victim_frame s).2.ft
        (select_victim_frame s).1).is_victim = true :=
      (hSInv.hvict _).trans hA
    have hIe : SimInv { (select_victim_frame s).2 with
        everAlloc := upd (select_victim_frame s).2.everAlloc
          (select_victim_frame s).1 true } :=
      siminv_everAlloc _ _ hSInv
    have habs' : ((((select_victim_frame s).2).procs
        ((select_victim_frame s).2).curr).page_table vpage).is_present
          = false := by
      rw [hScu]
      exact ((pte_eq_mod_R_fields (hSpc s.curr vpage)).1).trans habs
    have hmp : MapPre (fault_classify vpage
        (unmap_victim_frame ((select_victim_frame s).2.ft
          (select_victim_frame s).1)
          { (select_victim_frame s).2 with
            everAlloc := upd (select_victim_frame s).2.everAlloc
              (select_victim_frame s).1 true }).1).1
        (select_victim_frame s).1 vpage := by
      refine mappre_classify vpage _ _ ?_
      exact mappre_of_unmap _ (select_victim_frame s).1 vpage hIe hSfree0
        (by rw [show ({ (select_victim_frame s).2 with
            everAlloc := upd (select_victim_frame s).2.everAlloc
              (select_victim_frame s).1 true } : SimState).nframes
            = s.nframes from hSnf]; exact hvlt)
        hvp habs'
    have hstate : (ldst_fault vpage s).1
        = (map_fault_tail vpage (select_victim_frame s).1 (fault_classify vpage
            (unmap_victim_frame ((select_victim_frame s).2.ft
              (select_victim_frame s).1)
              { (select_victim_frame s).2 with
                everAlloc := upd (select_victim_frame s).2.everAlloc
                  (select_victim_frame s).1 true }).1).1).1 := by
      simp only [ldst_fault_state_eq vpage s, get_frame_nil s hfr]
      rw [hV]
      simp
    rw [hstate]
    obtain ⟨kft, kfree, knf, knp, kcu, kpg, krv, kic⟩ :=
      unmap_victim_frame_skeleton ((select_victim_frame s).2.ft
        (select_victim_frame s).1)
        { (select_victim_frame s).2 with
          everAlloc := upd (select_victim_frame s).2.everAlloc
            (select_victim_frame s).1 true }
    refine ⟨siminv_map_tail vpage _ _ hmp, ?_, ?_⟩
    · rw [(map_fault_tail_skeleton vpage _ _).1,
        (fault_classify_skeleton vpage _).2.2.1, knf]
      exact hSnf
    · rw [(map_fault_tail_skeleton vpage _ _).2.1,
        (fault_classify_skeleton vpage _).2.2.2.1, knp]
      exact hSnp

/-- Writing one PTE that keeps its `is_present`/`frame_num` keeps those
components of the whole table. -/
theorem proc_set_pt_fields (x : Process) (V : Nat) (pte : Pte)
    (hp : pte.is_present = (x.page_table V).is_present)
    (hf : pte.frame_num = (x.page_table V).frame_num) (w : Nat) :
    (({ x with page_table := upd x.page_table V pte } : Process).page_table
      w).is_present = (x.page_table w).is_present ∧
    (({ x with page_table := upd x.page_table V pte } : Process).page_table
      w).frame_num = (x.page_table w).frame_num := by
  by_cases hw : w = V
  · subst hw
    show ((upd x.page_table w pte) w).is_present = _ ∧
      ((upd x.page_table w pte) w).frame_num = _
    rw [upd_self]
    exact ⟨hp, hf⟩
  · show ((upd x.page_table V pte) w).is_present = _ ∧
      ((upd x.page_table V pte) w).frame_num = _
    rw [upd_ne _ _ hw]
    exact ⟨rfl, rfl⟩

/-- Replacing one process with one of the same pid whose page table keeps
every PTE's `is_present`/`frame_num` preserves the invariant. -/
theorem siminv_replace_proc (s s' : SimState) (hInv : SimInv s) (P : Nat)
    (proc2 : Process) (hpid : proc2.pid = (s.procs P).pid)
    (hpt : ∀ w, (proc2.page_table w).is_present
        = ((s.procs P).page_table w).is_present ∧
      (proc2.page_table w).frame_num = ((s.procs P).page_table w).frame_num)
    (hprocsE : ∀ q, s'.procs q = upd s.procs P proc2 q)
    (hft : s'.ft = s.ft) (hfree : s'.free = s.free)
    (hnf : s'.nframes = s.nframes) (hnp : s'.nprocs = s.nprocs)
    (hcu : s'.curr = s.curr) (hrv : s'.randvals = s.randvals)
    (hpg : s'.pager = s.pager) : SimInv s' := by
  have hftr : ∀ i, frame_eq_mod_age (s'.ft i) (s.ft i) := by
    intro i
    rw [hft]
    exact frame_eq_mod_age_refl _
  refine siminv_transfer s s' hInv hftr hfree hnf hnp hcu hrv ?_ ?_
    (pager_hand_ok_congr s s' hpg hnf hInv.hhand)
  · intro p
    rw [hprocsE p]
    by_cases hq : p = P
    · subst hq
      rw [upd_self]
      exact hpid
    · rw [upd_ne _ _ hq]
  · intro p v
    rw [hprocsE p]
    by_cases hq : p = P
    · subst hq
      rw [upd_self]
      exact hpt v
    · rw [upd_ne _ _ hq]
      exact ⟨rfl, rfl⟩

/-- `check_validity_and_cache_details` keeps pid and every PTE's
`is_present`/`frame_num`. -/
theorem check_validity_effects (p : Process) (vpage : Nat) :
    (check_validity_and_cache_details p vpage).2.pid = p.pid ∧
    ∀ w, ((check_validity_and_cache_details p vpage).2.page_table w).is_present
        = (p.page_table w).is_present ∧
      ((check_validity_and_cache_details p vpage).2.page_table w).frame_num
        = (p.page_table w).frame_num := by
  simp only [check_validity_and_cache_details]
  split_ifs
  · exact ⟨rfl, fun w => ⟨rfl, rfl⟩⟩
  · cases hf : p.vma_list.find? (fun vma =>
        decide (vma.start_page ≤ vpage) && decide (vpage ≤ vma.end_page)) with
    | some vma =>
      simp only [hf]
      refine ⟨trivial, fun w => ?_⟩
      by_cases hw : w = vpage
      · subst hw
        rw [upd_self]
        exact ⟨rfl, rfl⟩
      · rw [upd_ne _ _ hw]
        exact ⟨rfl, rfl⟩
    | none =>
      simp [hf]

/-- The R/M-setting tail of `handle_load_store` preserves the invariant. -/
theorem siminv_ldst_tail (op : Char) (vpage : Nat) (r : SimState × List Event)
    (hInv : SimInv r.1) :
    SimInv (ldst_tail op vpage r).1 ∧
    (ldst_tail op vpage r).1.nframes = r.1.nframes ∧
    (ldst_tail op vpage r).1.nprocs = r.1.nprocs := by
  obtain ⟨s, evs⟩ := r
  simp only [ldst_tail]
  have h1 : SimInv { s with
      procs := set_pte s.procs s.curr vpage
        { (s.procs s.curr).page_table vpage with is_referenced := true } } := by
    refine siminv_replace_proc s _ hInv s.curr
      { s.procs s.curr with page_table := upd (s.procs s.curr).page_table vpage { (s.procs s.curr).page_table vpage with is_referenced := true } }
      rfl
      (fun w => proc_set_pt_fields (s.procs s.curr) vpage { (s.procs s.curr).page_table vpage with is_referenced := true } rfl rfl w)
      (fun q => rfl) rfl rfl rfl rfl rfl rfl rfl
  split_ifs
  · refine ⟨?_, rfl, rfl⟩
    exact siminv_replace_proc _ _ h1 s.curr
      (bump_segprot (set_pte s.procs s.curr vpage { (s.procs s.curr).page_table vpage with is_referenced := true } s.curr))
      rfl (fun w => ⟨rfl, rfl⟩)
      (fun q => rfl) rfl rfl rfl rfl rfl rfl rfl
  · refine ⟨?_, rfl, rfl⟩
    refine siminv_replace_proc _ _ h1 s.curr
      { set_pte s.procs s.curr vpage { (s.procs s.curr).page_table vpage with is_referenced := true } s.curr with page_table := upd (set_pte s.procs s.curr vpage { (s.procs s.curr).page_table vpage with is_referenced := true } s.curr).page_table vpage { (set_pte s.procs s.curr vpage { (s.procs s.curr).page_table vpage with is_referenced := true } s.curr).page_table vpage with is_modified := true } }
      rfl
      (fun w => proc_set_pt_fields (set_pte s.procs s.curr vpage { (s.procs s.curr).page_table vpage with is_referenced := true } s.curr) vpage { (set_pte s.procs s.curr vpage { (s.procs s.curr).page_table vpage with is_referenced := true } s.curr).page_table vpage with is_modified := true } rfl rfl w)
      (fun q => rfl) rfl rfl rfl rfl rfl rfl rfl
  · exact ⟨h1, rfl, rfl⟩

/-- `handle_load_store` preserves the invariant for in-range vpages. -/
theorem siminv_ldst (op : Char) (vpage : Nat) (s : SimState) (hInv : SimInv s)
    (hvp : vpage < MAX_VPAGES) :
    SimInv (handle_load_store op vpage s).1 ∧
    (handle_load_store op vpage s).1.nframes = s.nframes ∧
    (handle_load_store op vpage s).1.nprocs = s.nprocs := by
  simp only [handle_load_store]
  have h0 : SimInv { s with cost := s.cost + LD_ST_TIME } := by
    refine siminv_transfer s _ hInv (fun i => frame_eq_mod_age_refl _)
      rfl rfl rfl rfl rfl (fun p => rfl) (fun p v => ⟨rfl, rfl⟩) hInv.hhand
  split_ifs with hpres hvalid
  · obtain ⟨a, b, c⟩ := siminv_ldst_tail op vpage
      ({ s with cost := s.cost + LD_ST_TIME }, []) h0
    exact ⟨a, b, c⟩
  · have h2 : SimInv { s with
        cost := s.cost + LD_ST_TIME,
        procs := upd s.procs s.curr
          (check_validity_and_cache_details (s.procs s.curr) vpage).2 } := by
      refine siminv_replace_proc { s with cost := s.cost + LD_ST_TIME } _ h0
        s.curr (check_validity_and_cache_details (s.procs s.curr) vpage).2
        ?_ ?_ (fun q => rfl) rfl rfl rfl rfl rfl rfl rfl
      · exact (check_validity_effects (s.procs s.curr) vpage).1
      · exact (check_validity_effects (s.procs s.curr) vpage).2
    have habs2 : ((({ s with
        cost := s.cost + LD_ST_TIME,
        procs := upd s.procs s.curr
          (check_validity_and_cache_details (s.procs s.curr) vpage).2 } :
          SimState).procs s.curr).page_table vpage).is_present = false := by
      show ((upd s.procs s.curr
        (check_validity_and_cache_details (s.procs s.curr) vpage).2
          s.curr).page_table vpage).is_present = false
      rw [upd_self, ((check_validity_effects (s.procs s.curr) vpage).2 vpage).1]
      exact Bool.eq_false_iff.mpr hpres
    obtain ⟨hF, hFnf, hFnp⟩ := siminv_ldst_fault vpage _ h2 hvp habs2
    obtain ⟨hT, hTnf, hTnp⟩ := siminv_ldst_tail op vpage (ldst_fault vpage _) hF
    exact ⟨hT, hTnf.trans hFnf, hTnp.trans hFnp⟩
  · have h2 : SimInv { s with
        cost := s.cost + LD_ST_TIME,
        procs := upd s.procs s.curr
          (check_validity_and_cache_details (s.procs s.curr) vpage).2 } := by
      refine siminv_replace_proc { s with cost := s.cost + LD_ST_TIME } _ h0
        s.curr (check_validity_and_cache_details (s.procs s.curr) vpage).2
        ?_ ?_ (fun q => rfl) rfl rfl rfl rfl rfl rfl rfl
      · exact (check_validity_effects (s.procs s.curr) vpage).1
      · exact (check_validity_effects (s.procs s.curr) vpage).2
    refine ⟨?_, rfl, rfl⟩
    exact siminv_replace_proc _ _ h2 s.curr
      (bump_segv (upd s.procs s.curr
        (check_validity_and_cache_details (s.procs s.curr) vpage).2 s.curr))
      rfl (fun w => ⟨rfl, rfl⟩)
      (fun q => rfl) rfl rfl rfl rfl rfl rfl rfl

/-- Context switches only move `curr` to a valid process. -/
theorem siminv_ctx (target : Nat) (s : SimState) (hInv : SimInv s)
    (ht : target < s.nprocs) :
    SimInv (handle_context_switch target s) ∧
    (handle_context_switch target s).nframes = s.nframes ∧
    (handle_context_switch target s).nprocs = s.nprocs := by
  refine ⟨?_, rfl, rfl⟩
  obtain ⟨a1, a2, _, a4, a5, a6, a7, a8, a9, a10, a11, a12, a13⟩ := hInv
  exact ⟨a1, a2, ht, a4, a5, a6, a7, a8, a9, a10, a11, a12, a13⟩

/-! ### Structural reads of `exit_one_page` -/

theorem exit_one_page_skeleton (target v : Nat) (s : SimState) :
    (exit_one_page target v s).1.nframes = s.nframes ∧
    (exit_one_page target v s).1.nprocs = s.nprocs ∧
    (exit_one_page target v s).1.curr = s.curr ∧
    (exit_one_page target v s).1.pager = s.pager ∧
    (exit_one_page target v s).1.randvals = s.randvals := by
  by_cases hpre : ((s.procs target).page_table v).is_present
  · by_cases hmf : (((s.procs target).page_table v).is_modified
        && ((s.procs target).page_table v).is_file_mapped) = true
    · simp [exit_one_page, hpre, hmf]
    · simp [exit_one_page, hpre, hmf]
  · simp [exit_one_page, hpre]

theorem exit_one_page_pid (target v : Nat) (s : SimState) (q : Nat) :
    ((exit_one_page target v s).1.procs q).pid = (s.procs q).pid := by
  by_cases hpre : ((s.procs target).page_table v).is_present
  · by_cases hmf : (((s.procs target).page_table v).is_modified
        && ((s.procs target).page_table v).is_file_mapped) = true
    · simp [exit_one_page, hpre, hmf, set_pte_pid,
        upd_bump_pid _ _ bump_unmaps (fun _ => rfl),
        upd_bump_pid _ _ bump_fouts (fun _ => rfl)]
    · simp [exit_one_page, hpre, hmf, set_pte_pid,
        upd_bump_pid _ _ bump_unmaps (fun _ => rfl)]
  · simp [exit_one_page, hpre, set_pte_pid]

theorem exit_one_page_pt_other (target v : Nat) (s : SimState) (p w : Nat)
    (hne : (p, w) ≠ (target, v)) :
    ((exit_one_page target v s).1.procs p).page_table w
      = (s.procs p).page_table w := by
  by_cases hpre : ((s.procs target).page_table v).is_present
  · by_cases hmf : (((s.procs target).page_table v).is_modified
        && ((s.procs target).page_table v).is_file_mapped) = true
    · simp [exit_one_page, hpre, hmf, set_pte_read_ne _ _ _ _ _ _ hne,
        upd_bump_pt _ _ bump_unmaps (fun _ => rfl),
        upd_bump_pt _ _ bump_fouts (fun _ => rfl)]
    · simp [exit_one_page, hpre, hmf, set_pte_read_ne _ _ _ _ _ _ hne,
        upd_bump_pt _ _ bump_unmaps (fun _ => rfl)]
  · simp [exit_one_page, hpre, set_pte_read_ne _ _ _ _ _ _ hne]

theorem exit_one_page_ft_frame (target v : Nat) (s : SimState)
    (hpre : ((s.procs target).page_table v).is_present = true) :
    (exit_one_page target v s).1.ft ((s.procs target).page_table v).frame_num
      = { s.ft ((s.procs target).page_table v).frame_num with
          is_assigned := false, pid := -1, vpage := -1, is_victim := false } := by
  by_cases hmf : (((s.procs target).page_table v).is_modified
      && ((s.procs target).page_table v).is_file_mapped) = true
  · simp [exit_one_page, hpre, hmf, upd_self]
  · simp [exit_one_page, hpre, hmf, upd_self]

theorem exit_one_page_free_present (target v : Nat) (s : SimState)
    (hpre : ((s.procs target).page_table v).is_present = true) :
    (exit_one_page target v s).1.free
      = s.free ++ [((s.procs target).page_table v).frame_num] := by
  by_cases hmf : (((s.procs target).page_table v).is_modified
      && ((s.procs target).page_table v).is_file_mapped) = true
  · simp [exit_one_page, hpre, hmf]
  · simp [exit_one_page, hpre, hmf]

theorem exit_one_page_free_absent (target v : Nat) (s : SimState)
    (hpre : ((s.procs target).page_table v).is_present = false) :
    (exit_one_page target v s).1.free = s.free := by
  simp [exit_one_page, hpre]

/-- `exit_one_page` preserves the invariant (for any target and vpage: the
invariant itself supplies validity of the freed frame's owner). -/
theorem siminv_exit_one (target v : Nat) (s : SimState) (hInv : SimInv s) :
    SimInv (exit_one_page target v s).1 ∧
    (exit_one_page target v s).1.nframes = s.nframes ∧
    (exit_one_page target v s).1.nprocs = s.nprocs ∧
    (exit_one_page target v s).1.curr = s.curr := by
  obtain ⟨knf, knp, kcu, kpg, krv⟩ := exit_one_page_skeleton target v s
  refine ⟨?_, knf, knp, kcu⟩
  by_cases hpre : ((s.procs target).page_table v).is_present
  · obtain ⟨c1, c2, c3, c4⟩ := hInv.hpte_ok target v hpre
    have hnotin : ((s.procs target).page_table v).frame_num ∉ s.free := by
      intro hmem
      have hx := (hInv.hfree_iff _ c1).mpr hmem
      rw [hx] at c2
      cases c2
    refine ⟨?_, ?_, ?_, ?_, ?_, ?_, ?_, ?_, ?_, ?_, ?_, ?_, ?_⟩
    · rw [knf]; exact hInv.hframes
    · rw [knf]; exact hInv.hframes_le
    · rw [kcu, knp]; exact hInv.hcurr
    · intro p
      rw [exit_one_page_pid target v s p]
      exact hInv.hpid p
    · rw [krv]; exact hInv.hrand
    · rw [exit_one_page_free_present target v s hpre, List.nodup_append]
      refine ⟨hInv.hfree_nd, List.nodup_singleton _, ?_⟩
      intro a ha hb
      rw [List.mem_singleton] at hb
      subst hb
      exact hnotin ha
    · intro x hx
      rw [exit_one_page_free_present target v s hpre] at hx
      rw [knf]
      rcases List.mem_append.mp hx with hx | hx
      · exact hInv.hfree_lt x hx
      · rw [List.mem_singleton] at hx
        subst hx
        exact c1
    · intro i hi
      rw [knf] at hi
      rw [exit_one_page_free_present target v s hpre]
      by_cases hif : i = ((s.procs target).page_table v).frame_num
      · subst hif
        rw [exit_one_page_ft_frame target v s hpre]
        simp
      · rw [exit_one_page_ft_ne target v s i hif, hInv.hfree_iff i hi]
        simp [List.mem_append, hif]
    · intro i hi
      rw [knf] at hi
      by_cases hif : i = ((s.procs target).page_table v).frame_num
      · subst hif
        rw [exit_one_page_ft_frame target v s hpre]
        exact hInv.hfid _ c1
      · rw [exit_one_page_ft_ne target v s i hif]
        exact hInv.hfid i hi
    · intro i
      by_cases hif : i = ((s.procs target).page_table v).frame_num
      · subst hif
        rw [exit_one_page_ft_frame target v s hpre]
      · rw [exit_one_page_ft_ne target v s i hif]
        exact hInv.hvict i
    · intro i hi hA
      rw [knf] at hi
      by_cases hif : i = ((s.procs target).page_table v).frame_num
      · subst hif
        rw [exit_one_page_ft_frame target v s hpre] at hA
        simp at hA
      · rw [exit_one_page_ft_ne target v s i hif] at hA ⊢
        obtain ⟨g1, g2, g3, g4, g5, g6⟩ := hInv.hframe_ok i hi hA
        have hker : ((((s.ft i).pid).toNat, ((s.ft i).vpage).toNat)
            ≠ (target, v)) := by
          intro hEq
          have hpp : ((s.ft i).pid).toNat = target := congrArg Prod.fst hEq
          have hvv : ((s.ft i).vpage).toNat = v := congrArg Prod.snd hEq
          rw [hpp, hvv] at g6
          exact hif g6.symm
        refine ⟨g1, by rw [knp]; exact g2, g3, g4, ?_, ?_⟩
        · rw [exit_one_page_pt_other target v s _ _ hker]
          exact g5
        · rw [exit_one_page_pt_other target v s _ _ hker]
          exact g6
    · intro p w hP
      by_cases hkey : (p, w) = (target, v)
      · have hpp : p = target := congrArg Prod.fst hkey
        have hww : w = v := congrArg Prod.snd hkey
        subst hpp
        subst hww
        rw [exit_one_page_pt_self p w s] at hP
        simp at hP
      · rw [exit_one_page_pt_other target v s p w hkey] at hP ⊢
        obtain ⟨d1, d2, d3, d4⟩ := hInv.hpte_ok p w hP
        have hfn : ((s.procs p).page_table w).frame_num
            ≠ ((s.procs target).page_table v).frame_num := by
          intro hEq
          rw [hEq] at d2 d3 d4
          have hpp : (p : Int) = (target : Int) := d3.symm.trans c3
          have hww : (w : Int) = (v : Int) := d4.symm.trans c4
          have hpp' : p = target := by exact_mod_cast hpp
          have hww' : w = v := by exact_mod_cast hww
          exact hkey (by rw [hpp', hww'])
        refine ⟨by rw [knf]; exact d1, ?_, ?_, ?_⟩
        · rw [exit_one_page_ft_ne target v s _ hfn]
          exact d2
        · rw [exit_one_page_ft_ne target v s _ hfn]
          exact d3
        · rw [exit_one_page_ft_ne target v s _ hfn]
          exact d4
    · exact pager_hand_ok_congr s _ kpg knf hInv.hhand
  · have hpre' : ((s.procs target).page_table v).is_present = false :=
      Bool.eq_false_iff.mpr hpre
    have hE : exit_one_page target v s
        = ({ s with
            procs := set_pte s.procs target v
              { (s.procs target).page_table v with
                is_present := false,
                is_referenced := false,
                is_paged_out := false } }, []) := by
      simp [exit_one_page, hpre']
    rw [hE]
    refine siminv_replace_proc s _ hInv target
      { s.procs target with page_table := upd (s.procs target).page_table v { (s.procs target).page_table v with is_present := false, is_referenced := false, is_paged_out := false } }
      rfl ?_ (fun q => rfl) rfl rfl rfl rfl rfl rfl rfl
    intro w
    exact proc_set_pt_fields (s.procs target) v
      { (s.procs target).page_table v with is_present := false, is_referenced := false, is_paged_out := false }
      hpre'.symm rfl w

/-- The exit loop preserves the invariant. -/
theorem siminv_exit_loop (target : Nat) :
    ∀ (l : List Nat) (s : SimState), SimInv s →
      SimInv (exit_loop target l s).1 ∧
      (exit_loop target l s).1.nframes = s.nframes ∧
      (exit_loop target l s).1.nprocs = s.nprocs ∧
      (exit_loop target l s).1.curr = s.curr := by
  intro l
  induction l with
  | nil =>
    intro s hInv
    exact ⟨hInv, rfl, rfl, rfl⟩
  | cons v rest ih =>
    intro s hInv
    obtain ⟨h1, e1, e2, e3⟩ := siminv_exit_one target v s hInv
    obtain ⟨h2, f1, f2, f3⟩ := ih (exit_one_page target v s).1 h1
    exact ⟨h2, f1.trans e1, f2.trans e2, f3.trans e3⟩

/-- `handle_process_exit` preserves the invariant. -/
theorem siminv_exit (target : Nat) (s : SimState) (hInv : SimInv s) :
    SimInv (handle_process_exit target s).1 ∧
    (handle_process_exit target s).1.nframes = s.nframes ∧
    (handle_process_exit target s).1.nprocs = s.nprocs := by
  simp only [handle_process_exit]
  have h0 : SimInv { s with
      procExits := s.procExits + 1,
      cost := s.cost + PROC_EXIT_TIME } := by
    refine siminv_transfer s _ hInv (fun i => frame_eq_mod_age_refl _)
      rfl rfl rfl rfl rfl (fun p => rfl) (fun p v => ⟨rfl, rfl⟩) hInv.hhand
  obtain ⟨h1, e1, e2, _⟩ := siminv_exit_loop target (List.range MAX_VPAGES)
    { s with
      procExits := s.procExits + 1,
      cost := s.cost + PROC_EXIT_TIME } h0
  exact ⟨h1, e1, e2⟩

/-- One driver step preserves the invariant. -/
theorem siminv_step (s : SimState) (i : Ins) (hInv : SimInv s)
    (hwf : ins_wf s.nprocs i) :
    SimInv (step_ins s i).1 ∧
    (step_ins s i).1.nframes = s.nframes ∧
    (step_ins s i).1.nprocs = s.nprocs := by
  simp only [step_ins]
  have h0 : SimInv { s with insCounter := s.insCounter + 1 } := by
    refine siminv_transfer s _ hInv (fun j => frame_eq_mod_age_refl _)
      rfl rfl rfl rfl rfl (fun p => rfl) (fun p v => ⟨rfl, rfl⟩) hInv.hhand
  split_ifs with hc hrw he
  · obtain ⟨a, b, c⟩ := siminv_ctx i.addr _ h0 (hwf.1 hc)
    exact ⟨a, b, c⟩
  · obtain ⟨a, b, c⟩ := siminv_ldst i.op i.addr _ h0
      (hwf.2 (by simpa using hrw))
    exact ⟨a, b, c⟩
  · obtain ⟨a, b, c⟩ := siminv_exit i.addr _ h0
    exact ⟨a, b, c⟩
  · exact ⟨h0, rfl, rfl⟩

/-- The invariant holds along every well-formed run. -/
theorem siminv_run (l : List Ins) : ∀ (s : SimState), SimInv s →
    (∀ i ∈ l, ins_wf s.nprocs i) →
    SimInv (run_sim s l) ∧ (run_sim s l).nframes = s.nframes ∧
    (run_sim s l).nprocs = s.nprocs := by
  induction l with
  | nil =>
    intro s h _
    exact ⟨h, rfl, rfl⟩
  | cons i rest ih =>
    intro s h hwf
    obtain ⟨h1, e1, e2⟩ := siminv_step s i h (hwf i (List.mem_cons_self i rest))
    obtain ⟨h2, f1, f2⟩ := ih (step_ins s i).1 h1
      (fun j hj => by rw [e2]; exact hwf j (List.mem_cons_of_mem _ hj))
    exact ⟨h2, f1.trans e1, f2.trans e2⟩

/-- The initial state satisfies the invariant. -/
theorem siminv_init (n : Nat) (vmass : List (List Vma)) (pager : PagerState)
    (randvals : List Int) (hn : 0 < n) (hle : n ≤ MAX_FRAMES)
    (hnp : 0 < vmass.length)
    (hhand : pager_hand_ok (init_state n vmass pager randvals))
    (hrand : ∀ x ∈ randvals, 0 ≤ x) :
    SimInv (init_state n vmass pager randvals) := by
  constructor
  · exact hn
  · exact hle
  · exact hnp
  · intro p
    rfl
  · exact hrand
  · exact List.nodup_range n
  · intro f hf
    exact List.mem_range.mp hf
  · intro i hi
    have hi' : i < n := hi
    simp [init_state, hi', default_frame, List.mem_range]
  · intro i hi
    have hi' : i < n := hi
    simp [init_state, hi', default_frame]
  · intro i
    by_cases hi : i < n <;> simp [init_state, hi, default_frame]
  · intro i hi hA
    have hi' : i < n := hi
    simp [init_state, hi', default_frame] at hA
  · intro p v hP
    simp [init_state, mk_process, default_pte] at hP
  · exact hhand

/-- The fault handler emits an UNMAP exactly when the acquired frame's
`is_victim` flag is set. -/
theorem ldst_fault_unmap_iff (vpage : Nat) (s : SimState) :
    (∃ p v, Event.unmapEv p v ∈ (ldst_fault vpage s).2) ↔
    ((get_frame s).2.ft (get_frame s).1).is_victim = true := by
  rw [ldst_fault_events_eq]
  have hshape : ∀ (x : SimState) (ev : Event), ev ∈ (fault_classify vpage x).2 →
      ev = Event.finEv ∨ ev = Event.inEv ∨ ev = Event.zeroEv := by
    intro x ev hev
    simp only [fault_classify] at hev
    split_ifs at hev <;> simp at hev <;> simp [hev]
  by_cases hV : ((get_frame s).2.ft (get_frame s).1).is_victim = true
  · rw [if_pos hV]
    refine ⟨fun _ => hV, fun _ => ?_⟩
    obtain ⟨tail, htail⟩ := unmap_victim_frame_events
      ((get_frame s).2.ft (get_frame s).1) (get_frame s).2
    refine ⟨((get_frame s).2.ft (get_frame s).1).pid,
      ((get_frame s).2.ft (get_frame s).1).vpage, ?_⟩
    rw [htail]
    simp
  · rw [if_neg hV]
    constructor
    · rintro ⟨p, v, hmem⟩
      exfalso
      rcases List.mem_append.mp hmem with h1 | h2
      · rcases List.mem_append.mp h1 with h0 | hc
        · simp at h0
        · rcases hshape _ _ hc with h | h | h <;> exact Event.noConfusion h
      · rw [map_fault_tail_eq] at h2
        simp at h2
    · intro h
      exact absurd h hV

/-- **C9 (corrected).** In every state reachable along a well-formed trace,
a frame's `is_victim` flag equals its `is_assigned` flag (allocation sets
both, process exit clears both — so a frame that was once allocated but was
freed again by its owner's exit has `is_victim = false`); and on each page
fault the handler unmaps the acquired frame's previous owner if and only if
that frame's `is_victim` flag is set. -/
theorem c9_victim_tracks_assigned (n : Nat) (vmass : List (List Vma))
    (pager : PagerState) (randvals : List Int) (ops : List Ins)
    (hn : 0 < n) (hle : n ≤ MAX_FRAMES) (hnp : 0 < vmass.length)
    (hhand : pager_hand_ok (init_state n vmass pager randvals))
    (hrand : ∀ x ∈ randvals, 0 ≤ x)
    (hwf : ∀ i ∈ ops, ins_wf vmass.length i) :
    (∀ i, ((run_sim (init_state n vmass pager randvals) ops).ft i).is_victim
      = ((run_sim (init_state n vmass pager randvals) ops).ft i).is_assigned) ∧
    (∀ (s : SimState) (vpage : Nat),
      (∃ p v, Event.unmapEv p v ∈ (ldst_fault vpage s).2) ↔
      ((get_frame s).2.ft (get_frame s).1).is_victim = true) := by
  refine ⟨?_, fun s vpage => ldst_fault_unmap_iff vpage s⟩
  obtain ⟨hInv, _, _⟩ := siminv_run ops (init_state n vmass pager randvals)
    (siminv_init n vmass pager randvals hn hle hnp hhand hrand) hwf
  exact hInv.hvict

set_option maxRecDepth 4000 in
/-- C9 (counterexample to the claim as stated): after `c 0 ; r 0 ; e 0` on
one frame, frame 0 was allocated at some point (`everAlloc`) yet its
`is_victim` flag is false — `handle_process_exit` clears it when freeing
the frame. -/
theorem c9_everalloc_not_victim_cex :
    c9cex_state.everAlloc 0 = true ∧
    (c9cex_state.ft 0).is_victim = false ∧
    (c9cex_state.ft 0).is_assigned = false := by
  decide

set_option maxRecDepth 4000 in
/-- C9 witness: after `c 0 ; r 0` on four frames, frame 0 is mapped, and
both flags are set. -/
theorem c9_victim_tracks_assigned_witness :
    ((run_sim (init_state 4 [[demo_vma]] (.fifo 0) []) c9wit_ops).ft 0).is_victim
      = ((run_sim (init_state 4 [[demo_vma]] (.fifo 0) [])
          c9wit_ops).ft 0).is_assigned ∧
    ((run_sim (init_state 4 [[demo_vma]] (.fifo 0) [])
      c9wit_ops).ft 0).is_victim = true := by
  refine ⟨(c9_victim_tracks_assigned 4 [[demo_vma]] (.fifo 0) [] c9wit_ops
    (by decide) (by decide) (by decide) (by show (0 : Nat) < (4 : Nat); decide)
    (by simp) (by decide)).1 0, by decide⟩

/-- **C10.** Whenever the free list is empty (the condition under which
`get_frame` invokes the pager), every frame index below `NUM_FRAMES` is
assigned to a valid owner: pid is a valid process index, vpage is in
`[0, 64)`, and the owner's PTE is present and points back at the frame —
so `reverse_map` is well-defined for every index any policy scans, and no
pager dereferences the owner of a free frame. -/
theorem c10_pager_sees_assigned_frames (n : Nat) (vmass : List (List Vma))
    (pager : PagerState) (randvals : List Int) (ops : List Ins)
    (hn : 0 < n) (hle : n ≤ MAX_FRAMES) (hnp : 0 < vmass.length)
    (hhand : pager_hand_ok (init_state n vmass pager randvals))
    (hrand : ∀ x ∈ randvals, 0 ≤ x)
    (hwf : ∀ i ∈ ops, ins_wf vmass.length i) :
    (run_sim (init_state n vmass pager randvals) ops).free = [] →
    ∀ i, i < (run_sim (init_state n vmass pager randvals) ops).nframes →
      ((run_sim (init_state n vmass pager randvals) ops).ft i).is_assigned
        = true ∧
      0 ≤ ((run_sim (init_state n vmass pager randvals) ops).ft i).pid ∧
      ((run_sim (init_state n vmass pager randvals) ops).ft i).pid.toNat
        < (run_sim (init_state n vmass pager randvals) ops).nprocs ∧
      0 ≤ ((run_sim (init_state n vmass pager randvals) ops).ft i).vpage ∧
      ((run_sim (init_state n vmass pager randvals) ops).ft i).vpage.toNat
        < MAX_VPAGES ∧
      (((run_sim (init_state n vmass pager randvals) ops).procs
          ((run_sim (init_state n vmass pager randvals) ops).ft
            i).pid.toNat).page_table
        ((run_sim (init_state n vmass pager randvals) ops).ft
          i).vpage.toNat).is_present = true ∧
      (((run_sim (init_state n vmass pager randvals) ops).procs
          ((run_sim (init_state n vmass pager randvals) ops).ft
            i).pid.toNat).page_table
        ((run_sim (init_state n vmass pager randvals) ops).ft
          i).vpage.toNat).frame_num = i := by
  intro hfree i hi
  obtain ⟨hInv, _, _⟩ := siminv_run ops (init_state n vmass pager randvals)
    (siminv_init n vmass pager randvals hn hle hnp hhand hrand) hwf
  have hA : ((run_sim (init_state n vmass pager randvals) ops).ft
      i).is_assigned = true := by
    by_cases hb : ((run_sim (init_state n vmass pager randvals) ops).ft
        i).is_assigned = true
    · exact hb
    · have hb' : ((run_sim (init_state n vmass pager randvals) ops).ft
          i).is_assigned = false := Bool.eq_false_iff.mpr hb
      have := (hInv.hfree_iff i hi).mp hb'
      rw [hfree] at this
      cases this
  obtain ⟨g1, g2, g3, g4, g5, g6⟩ := hInv.hframe_ok i hi hA
  exact ⟨hA, g1, g2, g3, g4, g5, g6⟩

/-- C10 witness: on one frame after `c 0 ; r 0` the free list is empty and
frame 0 is assigned to process 0 at vpage 0 with a present owner PTE. -/
theorem c10_pager_sees_assigned_frames_witness :
    (run_sim (init_state 1 [[demo_vma]] (.fifo 0) []) c10wit_ops).free = [] ∧
    ((run_sim (init_state 1 [[demo_vma]] (.fifo 0) [])
      c10wit_ops).ft 0).is_assigned = true := by
  have hfree : (run_sim (init_state 1 [[demo_vma]] (.fifo 0) [])
      c10wit_ops).free = [] := by decide
  exact ⟨hfree, (c10_pager_sees_assigned_frames 1 [[demo_vma]] (.fifo 0) []
    c10wit_ops (by decide) (by decide) (by decide)
    (by show (0 : Nat) < (1 : Nat); decide) (by simp) (by decide)
    hfree 0 (by decide)).1⟩

end Mmu
